import Mathlib

/-!
Verification development for the vulkan wrapper generator
(`create_vulkan_wrapper.py`).  The script walks a parsed XML schema
document and emits a python source file: handles, basetypes, bitmask
flags, enumerations, function pointer prototypes, structures and unions
(with on-demand recursive dependency resolution), command families and
extension enum values.

The shallow embedding below mirrors the script:

* strings are Lean `String`; the handful of python string operations the
  script uses (`startswith`, slicing, `replace`, `strip`, `endswith`,
  the snake-case regex) are implemented on `String.data` character lists
  with python semantics;
* the XML element tree is a record type (`VkDoc`) holding exactly the
  attributes, children and text/tail slots the script reads; numeric
  attributes (`offset`, extension `number`) are stored already parsed as
  `Int`, matching the `int(...)` conversions in the script;
* the mutable module state (`DEFINED_IDENTIFIERS`, `HANDLE_NAMES`, the
  output file) becomes an explicit `GenState` that records an ordered
  event trace: every `o.write` of a declaration becomes a `.writeIt`
  event carrying the fields substituted into the corresponding template,
  every `DEFINED_IDENTIFIERS.append` becomes a `.registerId` event, and
  every diagnostic `print` becomes a `.warn` event;
* python exceptions (AttributeError on a missing child, StopIteration,
  IndexError, TypeError on unpacking `None`) are modelled by an error
  result that aborts the remaining pipeline while keeping the events
  already produced, matching an uncaught exception after partial output;
* the unbounded recursion of `parse_struct_or_enum` is modelled with a
  fuel parameter consumed once per nested resolution; running out of
  fuel is a distinguished error `GenErr.fuelExhausted`, and we prove it
  never occurs for the fuel the driver supplies.
-/

/-- Python `re` character class `[A-Z]` used by `to_snake_case`. -/
def pyIsUpper (c : Char) : Bool := 'A' ≤ c && c ≤ 'Z'

/-- Scanner for `re.sub(r..., lower, name)` in `to_snake_case` (source
lines 213-226).  At each position the regex alternation first tries
`[^A-Z]([A-Z])[^A-Z]` (replaced by `g0[0] + underscore + g1.lower() + g0[2]`),
then `[^A-Z]([A-Z])` (replaced by `g0[0] + underscore + g0[1:3]`), and
otherwise advances one character; matches are non-overlapping, scanning
left to right. -/
def snakeAux : List Char → List Char
  | [] => []
  | [c] => [c]
  | [c1, c2] =>
    if !pyIsUpper c1 && pyIsUpper c2 then [c1, '_', c2] else [c1, c2]
  | c1 :: c2 :: c3 :: rest =>
    if !pyIsUpper c1 && pyIsUpper c2 && !pyIsUpper c3 then
      c1 :: '_' :: c2.toLower :: c3 :: snakeAux rest
    else if !pyIsUpper c1 && pyIsUpper c2 then
      c1 :: '_' :: c2 :: snakeAux (c3 :: rest)
    else
      c1 :: snakeAux (c2 :: c3 :: rest)

/-- Source `to_snake_case` (lines 213-226). -/
def to_snake_case (s : String) : String := ⟨snakeAux s.data⟩

/-- Python `s.startswith(p)`. -/
def strStartsWith (s p : String) : Bool := p.data.isPrefixOf s.data

/-- Python slice `s[n::]`. -/
def strDrop (s : String) (n : Nat) : String := ⟨s.data.drop n⟩

/-- Worker for python `str.replace` with a nonempty pattern: replaces
every non-overlapping occurrence, scanning left to right.  The second
argument is a skip counter: after a match the `pat.length - 1`
characters following the matched head are consumed without output,
which is exactly advancing past the whole match. -/
def replaceAux (pat rep : List Char) : List Char → Nat → List Char
  | [], _ => []
  | _ :: rest, k + 1 => replaceAux pat rep rest k
  | c :: rest, 0 =>
    if pat.isPrefixOf (c :: rest) then
      rep ++ replaceAux pat rep rest (pat.length - 1)
    else
      c :: replaceAux pat rep rest 0

/-- Python `s.replace(pat, rep)`.  The script only ever calls it with a
nonempty pattern, so the empty-pattern corner returns `s` unchanged. -/
def pyReplace (s pat rep : String) : String :=
  match pat.data with
  | [] => s
  | _ :: _ => ⟨replaceAux pat.data rep.data s.data 0⟩

/-- Source `remove_prefix` (lines 253-264): tries the prefixes `Vk`,
`VK_`, `vk` in order and strips the first match; otherwise, for names
starting with `PFN_vk` (note `to_snake_case` leaves `PFN_vk` unchanged,
so both entries of `replace_prefixes` are the same string), replaces
`PFN_vk` by `fn_`; otherwise returns the name unchanged.  Renamed from
`remove_prefix` for Lean-side lexical reasons. -/
def removePfx (name : String) : String :=
  if strStartsWith name "Vk" then strDrop name 2
  else if strStartsWith name "VK_" then strDrop name 3
  else if strStartsWith name "vk" then strDrop name 2
  else if strStartsWith name "PFN_vk" then pyReplace name "PFN_vk" "fn_"
  else if strStartsWith name (to_snake_case "PFN_vk") then pyReplace name "PFN_vk" "fn_"
  else name

/-- Python `s.strip(chars)`: drop characters satisfying `p` from both
ends. -/
def pyStripPred (p : Char → Bool) (s : String) : String :=
  ⟨((s.data.dropWhile p).reverse.dropWhile p).reverse⟩

/-- Python `s.strip()` (whitespace from both ends). -/
def pyStrip (s : String) : String := pyStripPred Char.isWhitespace s

/-- Source `TYPES_SUFFIX` (line 49); a python dict, iterated in
insertion order. -/
def TYPES_SUFFIX : List (String × String) :=
  [("U", "c_uint"), ("ULL", "c_uint64"), ("f", "c_float")]

/-- Source `pythonize_value` (lines 234-241): strip surrounding
parentheses, then rewrite a recognized literal suffix into a typed
constructor call. -/
def pythonize_value (value : String) : String :=
  let v := pyStripPred (fun c => c == '(' || c == ')') value
  match TYPES_SUFFIX.find? (fun su => su.1.data.isSuffixOf v.data) with
  | some su => su.2 ++ "(" ++ (⟨v.data.take (v.data.length - su.1.data.length)⟩ : String) ++ ")"
  | none => v

/-- Source `pythonize_field_name` (lines 243-251): snake-case, then
strip the pointer markers `p_`, `pp_`, `pfn_`; the python loop has no
break, so each test applies to the current (possibly already stripped)
name. -/
def pythonize_field_name (nm : String) : String :=
  let n0 := to_snake_case nm
  let n1 := if strStartsWith n0 "p_" then strDrop n0 2 else n0
  let n2 := if strStartsWith n1 "pp_" then strDrop n1 3 else n1
  if strStartsWith n2 "pfn_" then strDrop n2 4 else n2

/-- Source `TYPES_MAP` (lines 77-88). -/
def TYPES_MAP : List (String × String) :=
  [("void", "None"), ("void*", "c_void_p"), ("float", "c_float"),
   ("uint8_t", "c_uint8"), ("uint32_t", "c_uint"), ("uint64_t", "c_uint64"),
   ("int32_t", "c_int"), ("size_t", "c_size_t"), ("char", "c_char"),
   ("char*", "c_char_p")]

def typesMapLookup (k : String) : Option String :=
  (TYPES_MAP.find? (fun kv => kv.1 == k)).map (fun kv => kv.2)

/-- Source `map_ctypes` (lines 277-292) applied to a plain string
argument: a `TYPES_MAP` lookup, falling back to `remove_prefix`. -/
def map_ctypes_str (type_name : String) : String :=
  match typesMapLookup type_name with
  | some t => t
  | none => removePfx type_name

/-- Source `map_ctypes` applied to an XML element: the first character
of a non-`None` tail (a `*` for pointers) is appended to the text and
the result stripped before the lookup. -/
def map_ctypes_elem (text : String) (tail : Option String) : String :=
  let tl : String := match tail with
    | none => ""
    | some s => ⟨s.data.take 1⟩
  map_ctypes_str (pyStrip (text ++ tl))

/-- Source `format_array` / `ARRAY_TEMPLATE` (lines 157, 297-298). -/
def format_array (t len : String) : String := "(" ++ t ++ "*" ++ len ++ ")"

/-- Source `format_pointer` (lines 300-306). -/
def format_pointer (t : String) : String :=
  if t == "None" then "c_void_p"
  else if t == "c_char" then "c_char_p"
  else "POINTER(" ++ t ++ ")"

/-- Source `parse_offset` (lines 308-314).  The element offset
attribute is stored already `int`-parsed; a missing attribute is the
python `int(None)` TypeError, modelled as `none`. -/
def parse_offset (offsetAttr : Option Int) (dirAttr : Option String) (base_offset : Int) :
    Option String :=
  match offsetAttr with
  | none => none
  | some o =>
    let off := o + base_offset
    some (toString (if dirAttr == some "-" then -off else off))

-- Quick sanity checks of the string layer against the python behaviour.
example : to_snake_case "sType" = "s_type" := by decide
example : to_snake_case "pNext" = "p_next" := by decide
example : pythonize_field_name "pNext" = "next" := by decide
example : removePfx "VkInstance" = "Instance" := by decide
example : removePfx "VK_SUCCESS" = "SUCCESS" := by decide
example : removePfx "PFN_vkVoidFunction" = "fn_VoidFunction" := by decide
example : to_snake_case "PFN_vk" = "PFN_vk" := by decide
example : pythonize_value "(~0ULL)" = "c_uint64(~0)" := by decide
example : pythonize_value "256U" = "c_uint(256)" := by decide
example : map_ctypes_str "uint32_t" = "c_uint" := by decide
example : map_ctypes_str "VkDevice" = "Device" := by decide
example : parse_offset (some 3) (some "-") 1000004000 = some "-1000004003" := by decide

/-! ## The XML document model

Only the element slots the script actually reads are represented.  For
an element of the `types` collection these are: the `category` and
`name` attributes, the element text (`funcpointer` return types are
parsed out of it), the texts of `name` descendants (the script uses
`first(x.iter('name')).text`; the elements of `types` are themselves
tagged `type`, so `x.iter('type')` yields the element itself first and
then the inner `type` descendants, which is why `second` is used for
basetypes — the inner descendants are stored here), and the `member`
children. -/

structure XmlMember where
  /-- `member.find('type').text` -/
  typeText : String
  /-- `member.find('type').tail` (`none` is python `None`) -/
  typeTail : Option String
  /-- `member.find('name').text` -/
  nameText : String
  /-- `member.find('name').tail` -/
  nameTail : Option String
  /-- text of the `enum` child, if any (array length by enum constant) -/
  enumChild : Option String
deriving DecidableEq

structure XmlType where
  /-- the `category` attribute -/
  category : String
  /-- the `name` attribute (used by struct/union declarations) -/
  nameAttr : Option String
  /-- the element text (used by funcpointer return types) -/
  text : Option String
  /-- texts of `name` descendants, in document order -/
  nameDescendants : List String
  /-- `(text, tail)` of the inner `type` descendants, in document order -/
  typeDescendants : List (String × Option String)
  /-- the `member` children, in document order -/
  members : List XmlMember
deriving DecidableEq

/-- An element of an `enums` group; `tag` distinguishes `enum` members
from `unused` or comment children. -/
structure EnumMem where
  tag : String
  nameAttr : Option String
  value : Option String
  bitpos : Option String
deriving DecidableEq

structure XmlEnums where
  nameAttr : Option String
  members : List EnumMem
deriving DecidableEq

structure XmlParam where
  /-- `param.find('type').text` -/
  typeText : String
  /-- `param.find('type').tail` -/
  typeTail : Option String
deriving DecidableEq

structure XmlCommand where
  /-- text of the `type` child of `proto` -/
  protoTypeText : String
  /-- text of the `name` child of `proto` -/
  protoNameText : String
  /-- the `param` children that have a `type` child -/
  params : List XmlParam
deriving DecidableEq

/-- An `enum` element inside an extension `require` block; `offset` and
the extension `number` are stored already `int`-parsed. -/
structure XmlExtMember where
  nameAttr : Option String
  value : Option String
  bitpos : Option String
  offset : Option Int
  dir : Option String
deriving DecidableEq

structure XmlExtension where
  nameAttr : Option String
  number : Option Int
  requireMembers : List XmlExtMember
deriving DecidableEq

/-- The parsed document: the `types` collection, the `enums` groups,
the `commands` collection and the `extensions` collection. -/
structure VkDoc where
  types : List XmlType
  enums : List XmlEnums
  commands : List XmlCommand
  extensions : List XmlExtension
deriving DecidableEq

/-- Source `filter_types` (lines 294-295). -/
def filter_types (doc : VkDoc) (cat : String) : List XmlType :=
  doc.types.filter (fun t => t.category == cat)

/-! ## Output events and generator state -/

/-- One element of a command family block: the fields substituted into
`COMMAND_DEFINITION_TEMPLATE`. -/
structure CmdDef where
  name : String
  ret : String
  args : String
deriving DecidableEq

/-- One `o.write` of the generator, carrying the fields substituted
into the corresponding template (the literal template text around the
fields is fixed, so this determines the written bytes). -/
inductive OutItem where
  /-- a literal write: stage banner comments and the fixed boilerplate -/
  | raw (s : String)
  /-- `HANDLE_TEMPLATE` -/
  | handleDecl (name ty : String)
  /-- `BASETYPE_TEMPLATE` -/
  | basetypeDecl (name ty : String)
  /-- `FLAG_TEMPLATE` -/
  | flagDecl (name : String)
  /-- `ENUM_TEMPLATE` with its joined `ENUM_LINE_TEMPLATE` lines -/
  | enumDecl (name : String) (lines : List (String × String))
  /-- `FUNCTIONS_PROTOTYPE_TEMPLATE` -/
  | funcDecl (name ret args : String)
  /-- `STRUCTURE_TEMPLATE` or `UNION_TEMPLATE`; `baseTypes` records the
  `map_ctypes` image of each member type text, i.e. the same list the
  dependency loop of `parse_struct_or_enum` (source line 477) walks,
  which is the base type name of each emitted field -/
  | structDecl (is_struct : Bool) (name : String) (mems : List (String × String))
      (baseTypes : List String)
  /-- `COMMAND_TEMPLATE` for one family -/
  | cmdFamily (family : String) (cmds : List CmdDef)
  /-- `GET_INSTANCE_PROC_ADDR_TEMPLATE` -/
  | gipaDecl (name ret args : String)
  /-- `EXTENSION_TEMPLATE` -/
  | extBlock (name : String) (lines : List (String × String))
deriving DecidableEq

/-- The observable actions of one generation run, in order. -/
inductive Event where
  /-- an `o.write` -/
  | writeIt (it : OutItem)
  /-- a `DEFINED_IDENTIFIERS.append` -/
  | registerId (n : String)
  /-- a diagnostic `print` -/
  | warn (s : String)
deriving DecidableEq

/-- Source `DEFINED_IDENTIFIERS` initial contents (lines 55-57),
including the `c_cuint` entry exactly as in the source. -/
def SEED_IDENTIFIERS : List String :=
  ["HINSTANCE", "HWND", "None", "c_void_p", "c_float", "c_uint8", "c_cuint",
   "c_uint64", "c_int", "c_uint", "c_size_t", "c_char", "c_char_p",
   "xcb_connection_t", "xcb_window_t", "xcb_visualid_t",
   "MirConnection", "MirSurface", "wl_display", "wl_surface",
   "Display", "Window", "VisualID", "ANativeWindow"]

structure GenState where
  events : List Event
  /-- source `HANDLE_NAMES` (line 52) -/
  handleNames : List String
deriving DecidableEq

/-- The identifiers appended by `registerId` events, in order. -/
def registersOf (evs : List Event) : List String :=
  evs.filterMap (fun e => match e with
    | .registerId n => some n
    | _ => none)

/-- The current contents of `DEFINED_IDENTIFIERS`: the seed plus every
append so far. -/
def GenState.reg (st : GenState) : List String :=
  SEED_IDENTIFIERS ++ registersOf st.events

/-- The output stream: the writes, in order. -/
def GenState.out (st : GenState) : List OutItem :=
  st.events.filterMap (fun e => match e with
    | .writeIt it => some it
    | _ => none)

def emit (st : GenState) (it : OutItem) : GenState :=
  { st with events := st.events ++ [.writeIt it] }

def registerId (st : GenState) (n : String) : GenState :=
  { st with events := st.events ++ [.registerId n] }

def warn (st : GenState) (s : String) : GenState :=
  { st with events := st.events ++ [.warn s] }

/-- A python exception escaping a parse function, or fuel exhaustion of
the modelled recursion (the latter never actually happens; see the
termination theorem). -/
inductive GenErr where
  | fuelExhausted
  | pyError (msg : String)
deriving DecidableEq

/-- Result of a pipeline stage: the state reached (output already
written is kept even when an exception aborts the run) plus an optional
error. -/
def gOk (st : GenState) : GenState × Option GenErr := (st, none)

def gErr (st : GenState) (e : GenErr) : GenState × Option GenErr := (st, some e)

/-- Sequencing: an error short-circuits the rest of the pipeline. -/
def gbind (x : GenState × Option GenErr) (f : GenState → GenState × Option GenErr) :
    GenState × Option GenErr :=
  match x with
  | (st, none) => f st
  | (st, some e) => (st, some e)


/-! ## Pipeline stages

Each `parse_*` function of the script becomes a function
`VkDoc → GenState → GenState × Option GenErr`.  Loops become explicit
recursions so that proofs can proceed by induction.  In each loop, an
error case marks the exact python expression that would raise. -/

/-- Body of the `parse_handles` loop (source lines 353-362). -/
def processHandles : List XmlType → GenState → GenState × Option GenErr
  | [], st => gOk st
  | h :: rest, st =>
    match h.typeDescendants.head? with
    | none => gErr st (.pyError "handle.find type is None")
    | some td =>
      let handle_type := if td.1 == "VK_DEFINE_HANDLE" then "c_size_t" else "c_uint64"
      match h.nameDescendants.head? with
      | none => gErr st (.pyError "first handle.iter name is None")
      | some nm =>
        let handle_name := removePfx nm
        let st := emit st (.handleDecl handle_name handle_type)
        let st := { st with handleNames := st.handleNames ++ [handle_name] }
        let st := registerId st handle_name
        processHandles rest st

/-- Source `parse_handles` (lines 347-364). -/
def parse_handles (doc : VkDoc) (st : GenState) : GenState × Option GenErr :=
  let st := emit st (.raw "\n# HANDLES\n\n")
  gbind (processHandles (filter_types doc "handle") st)
    (fun st => gOk (emit st (.raw "\n")))

/-- Body of the `parse_basetypes` loop (source lines 373-378). -/
def processBasetypes : List XmlType → GenState → GenState × Option GenErr
  | [], st => gOk st
  | b :: rest, st =>
    match b.typeDescendants.head? with
    | none => gErr st (.pyError "second basetype.iter type: StopIteration")
    | some td =>
      let basetype_type := map_ctypes_elem td.1 td.2
      match b.nameDescendants.head? with
      | none => gErr st (.pyError "first basetype.iter name is None")
      | some nm =>
        let basetype_name := removePfx nm
        processBasetypes rest
          (registerId (emit st (.basetypeDecl basetype_name basetype_type)) basetype_name)

/-- Source `parse_basetypes` (lines 366-380). -/
def parse_basetypes (doc : VkDoc) (st : GenState) : GenState × Option GenErr :=
  let st := emit st (.raw "\n# BASETYPES\n\n")
  gbind (processBasetypes (filter_types doc "basetype") st)
    (fun st => gOk (emit st (.raw "\n")))

/-- Body of the `parse_flags` loop (source lines 388-391). -/
def processFlags : List XmlType → GenState → GenState × Option GenErr
  | [], st => gOk st
  | f :: rest, st =>
    match f.nameDescendants.head? with
    | none => gErr st (.pyError "first flag.iter name is None")
    | some nm =>
      let flag_name := removePfx nm
      processFlags rest (registerId (emit st (.flagDecl flag_name)) flag_name)

/-- Source `parse_flags` (lines 382-393). -/
def parse_flags (doc : VkDoc) (st : GenState) : GenState × Option GenErr :=
  let st := emit st (.raw "\n# FLAGS\n\n")
  gbind (processFlags (filter_types doc "bitmask") st)
    (fun st => gOk (emit st (.raw "\n")))

/-- Source `value_or_bitpos` (line 399): `x.get('value') or
"1<<"+x.get('bitpos')`.  A falsy (absent or empty) value falls through;
an absent bitpos is then the python TypeError, modelled as `none`. -/
def value_or_bitpos (m : EnumMem) : Option String :=
  let fb := m.bitpos.map (fun b => "1<<" ++ b)
  match m.value with
  | some v => if v != "" then some v else fb
  | none => fb

/-- The enum member lines of one `enums` group (source lines 406-409):
children tagged `enum`, name and value normalized. -/
def processEnumMems : List EnumMem → Option (List (String × String))
  | [] => some []
  | m :: rest =>
    if m.tag != "enum" then processEnumMems rest
    else
      match m.nameAttr, value_or_bitpos m with
      | some n, some v =>
        (processEnumMems rest).map (fun l => (removePfx n, pythonize_value v) :: l)
      | _, _ => none

/-- Body of the `parse_enums` loop (source lines 403-412). -/
def processEnums : List XmlEnums → GenState → GenState × Option GenErr
  | [], st => gOk st
  | e :: rest, st =>
    match e.nameAttr with
    | none => gErr st (.pyError "enum.get name is None")
    | some nm =>
      let enum_name := removePfx (pyReplace nm " " "_")
      match processEnumMems e.members with
      | none => gErr st (.pyError "enum member name or value missing")
      | some lines =>
        processEnums rest (registerId (emit st (.enumDecl enum_name lines)) enum_name)

/-- Source `parse_enums` (lines 395-412). -/
def parse_enums (doc : VkDoc) (st : GenState) : GenState × Option GenErr :=
  let st := emit st (.raw "# ENUMS\n\n")
  processEnums doc.enums st

/-- Source `extract_return_type` (lines 418-420). -/
def extract_return_type (text : String) : String :=
  map_ctypes_str (pyStrip (pyReplace (pyReplace text "typedef" "") "(VKAPI_PTR *" ""))

/-- Body of the `parse_funcpointers` loop (source lines 424-435).  The
first element of `ptr.iter('type')` is the funcpointer element itself
(its tag is `type`), so the return type comes from the element text and
the argument types from the inner `type` descendants. -/
def processFuncpointers : List XmlType → GenState → GenState × Option GenErr
  | [], st => gOk st
  | p :: rest, st =>
    match p.nameDescendants.head? with
    | none => gErr st (.pyError "first funcpointer.iter name is None")
    | some nm =>
      let name := removePfx nm
      match p.text with
      | none => gErr st (.pyError "funcpointer text is None")
      | some t =>
        let return_v := extract_return_type t
        let args := p.typeDescendants.map (fun td => map_ctypes_elem td.1 td.2)
        let argsStr := String.join (args.map (fun a => a ++ ", "))
        processFuncpointers rest
          (registerId (emit st (.funcDecl name return_v argsStr)) name)

/-- Source `parse_funcpointers` (lines 414-437). -/
def parse_funcpointers (doc : VkDoc) (st : GenState) : GenState × Option GenErr :=
  let st := emit st (.raw "\n# FUNC POINTERS\n\n")
  gbind (processFuncpointers (filter_types doc "funcpointer") st)
    (fun st => gOk (emit st (.raw "\n")))

/-- Source `parse_structure_member` (lines 439-462): member name is
snake-cased and pointer-stripped; the type is wrapped in one
`format_pointer` per `*` in the type tail; an `enum` child or a name
tail starting with `[` makes it an array, the length being the
normalized enum constant or the bracket-stripped literal tail. -/
def parse_structure_member (m : XmlMember) : String × String :=
  let mem_type0 := map_ctypes_str m.typeText
  let mem_name := pythonize_field_name m.nameText
  let ptr_level := match m.typeTail with
    | none => 0
    | some tl => (tl.data.filter (fun c => c == '*')).length
  let mem_type1 := (List.range ptr_level).foldl (fun acc _ => format_pointer acc) mem_type0
  let ntOr : String := match m.nameTail with
    | none => " "
    | some s => if s == "" then " " else s
  let isArr := m.enumChild.isSome || ntOr.data.head? == some '['
  let mem_type2 :=
    if isArr then
      let alen := match m.enumChild with
        | some e => removePfx e
        | none => ⟨(m.nameTail.getD "").data.filter (fun c => !(c == '[' || c == ']'))⟩
      format_array mem_type1 alen
    else mem_type1
  (mem_name, mem_type2)

/-- The base type name the dependency loop computes for a member:
`map_ctypes(mem.find('type').text)` (source line 477). -/
def memBase (m : XmlMember) : String := map_ctypes_str m.typeText

/-- A dependency name `t` is findable when a `struct` or `union`
element of the `types` collection has name attribute `Vk` ++ `t`
(source lines 480-481). -/
def FindableName (doc : VkDoc) (t : String) : Prop :=
  ∃ s, s ∈ doc.types ∧ (s.category = "struct" ∨ s.category = "union") ∧
    s.nameAttr = some ("Vk" ++ t)

/-- Python truthiness of `struct or union` (source line 485): an
ElementTree element is falsy when it has no children, so an empty
`struct` element falls through to the `union` alternative (which may be
`None`, making the recursive call raise). -/
def pyOr (sF uF : Option XmlType) : Option XmlType :=
  match sF with
  | some s => if s.members.isEmpty then uF else some s
  | none => uF

/-- The dependency loop of `parse_struct_or_enum` (source lines
477-485): for each member whose base type is not yet defined, look the
name up among the declared structs and unions; recurse (through
`recur`, which the caller instantiates with `parse_struct_or_enum` at
one less fuel) when found, else print a diagnostic and continue. -/
def resolve_dependencies (doc : VkDoc)
    (recur : XmlType → Bool → GenState → GenState × Option GenErr) :
    List XmlMember → GenState → GenState × Option GenErr
  | [], st => gOk st
  | mem :: rest, st =>
    let t := memBase mem
    if t ∈ st.reg then resolve_dependencies doc recur rest st
    else
      let sF := (filter_types doc "struct").find? (fun s => s.nameAttr == some ("Vk" ++ t))
      let uF := (filter_types doc "union").find? (fun s => s.nameAttr == some ("Vk" ++ t))
      match sF, uF with
      | none, none =>
        resolve_dependencies doc recur rest (warn st (t ++ " was not found"))
      | _, _ =>
        match pyOr sF uF with
        | none => gErr st (.pyError "NoneType.get: empty struct, no union")
        | some chosen =>
          gbind (recur chosen uF.isNone st)
            (resolve_dependencies doc recur rest)

/-- Source `parse_struct_or_enum` (lines 464-491).  The fuel counts
nested resolution depth; the driver passes more fuel than there are
`types` entries, and the termination theorem shows this never runs
out.  Note the identifier is appended to `DEFINED_IDENTIFIERS` on
entry (line 469), before dependencies are resolved and before the
declaration is written. -/
def parse_struct_or_enum (doc : VkDoc) :
    Nat → XmlType → Bool → GenState → GenState × Option GenErr
  | 0, _, _, st => gErr st .fuelExhausted
  | f + 1, entity, is_struct, st =>
    match entity.nameAttr with
    | none => gErr st (.pyError "struct.get name is None")
    | some nm =>
      let struct_name := removePfx nm
      if struct_name ∈ st.reg then gOk st
      else
        let st := registerId st struct_name
        gbind (resolve_dependencies doc (parse_struct_or_enum doc f) entity.members st)
          (fun st =>
            let mems := entity.members.map parse_structure_member
            let bts := entity.members.map memBase
            gOk (emit st (.structDecl is_struct struct_name mems bts)))

/-- Fuel the driver supplies: strictly more than the number of `types`
entries, hence strictly more than the number of struct/union names that
could ever need resolving. -/
def suFuel (doc : VkDoc) : Nat := doc.types.length + 1

/-- One of the two top-level loops of `parse_structures_and_unions`
(source lines 499-503).  Both loops call `parse_struct_or_enum` with
the defaulted `is_struct=True`, including the union loop, exactly as
the source does. -/
def processStructs (doc : VkDoc) : List XmlType → GenState → GenState × Option GenErr
  | [], st => gOk st
  | x :: rest, st =>
    gbind (parse_struct_or_enum doc (suFuel doc) x true st) (processStructs doc rest)

/-- Source `parse_structures_and_unions` (lines 493-503). -/
def parse_structures_and_unions (doc : VkDoc) (st : GenState) : GenState × Option GenErr :=
  let st := emit st (.raw "\n# STRUCTURES\n\n")
  gbind (processStructs doc (filter_types doc "struct") st) (fun st =>
    processStructs doc (filter_types doc "union") st)


/-- Source `parse_command_argument_type` (lines 505-509). -/
def parse_command_argument_type (p : XmlParam) : String :=
  let t := map_ctypes_str p.typeText
  let t := match p.typeTail with
    | some tl => if tl.data.head? == some '*' then format_pointer t else t
    | none => t
  t ++ ", "

/-- The fields of `COMMAND_DEFINITION_TEMPLATE` for one command (source
line 539). -/
def mkCmdDef (c : XmlCommand) : CmdDef :=
  { name := c.protoNameText,
    ret := map_ctypes_str c.protoTypeText,
    args := String.join (c.params.map parse_command_argument_type) }

/-- Python dict insertion (source lines 546-549): append to an existing
family list, otherwise add a new key at the end (python 3.7+ dicts keep
insertion order). -/
def groupsInsert (gs : List (String × List CmdDef)) (k : String) (c : CmdDef) :
    List (String × List CmdDef) :=
  if gs.any (fun p => p.1 == k) then
    gs.map (fun p => if p.1 == k then (p.1, p.2 ++ [c]) else p)
  else gs ++ [(k, [c])]

/-- The grouping loop of `parse_commands` (source lines 521-549),
threading `get_instance_proc_addr_info` and `commands_groups`.  The
bootstrap command `vkGetInstanceProcAddr` is captured, not grouped; for
every other command the family key is the mapped type of the first
parameter (IndexError when there is none), demoted to `Loader` when not
a known handle name, and forced to `Instance` for `vkGetDeviceProcAddr`
(only reachable when its first parameter type is a known handle). -/
def groupCommands (hn : List String) :
    List XmlCommand → Option (String × String × String) → List (String × List CmdDef) →
    (Option (String × String × String) × List (String × List CmdDef)) × Option GenErr
  | [], gipa, gs => ((gipa, gs), none)
  | c :: rest, gipa, gs =>
    let command_type := map_ctypes_str c.protoTypeText
    let command_params := String.join (c.params.map parse_command_argument_type)
    if c.protoNameText == "vkGetInstanceProcAddr" then
      groupCommands hn rest (some (removePfx c.protoNameText, command_type, command_params)) gs
    else
      match c.params.head? with
      | none => ((gipa, gs), some (.pyError "IndexError: command has no params"))
      | some p0 =>
        let group_key := map_ctypes_str p0.typeText
        let cmd := mkCmdDef c
        let group_key :=
          if !(group_key ∈ hn) then "Loader"
          else if c.protoNameText == "vkGetDeviceProcAddr" then "Instance"
          else group_key
        groupCommands hn rest gipa (groupsInsert gs group_key cmd)

/-- The family emission loop (source lines 551-553). -/
def writeGroups : List (String × List CmdDef) → GenState → GenState
  | [], st => st
  | g :: rest, st => writeGroups rest (emit st (.cmdFamily g.1 g.2))

/-- Source `parse_commands` (lines 511-556).  After the grouping loop,
the bootstrap info tuple is unpacked; when no `vkGetInstanceProcAddr`
command was seen it is still `None` and the unpacking raises. -/
def parse_commands (doc : VkDoc) (st : GenState) : GenState × Option GenErr :=
  let st := emit st (.raw "\n# FUNCTIONS \n\n")
  match groupCommands st.handleNames doc.commands none [] with
  | ((gipa, gs), none) =>
    let st := writeGroups gs st
    match gipa with
    | none => gErr st (.pyError "TypeError: cannot unpack None")
    | some g => gOk (emit st (.gipaDecl g.1 g.2.1 g.2.2))
  | (_, some e) => gErr st e

/-- Source `value_or_offset_or_bitpos` (lines 561-562): explicit value
if truthy, else `1<<` bitpos if the attribute is present, else the
extension offset (whose own `offset` attribute must be present). -/
def value_or_offset_or_bitpos (base_offset : Int) (e : XmlExtMember) : Option String :=
  let fb := match e.bitpos with
    | some b => some ("1<<" ++ b)
    | none => parse_offset e.offset e.dir base_offset
  match e.value with
  | some v => if v != "" then some v else fb
  | none => fb

/-- The enum lines of one extension block (source lines 577-579), name
and value both normalized through `remove_prefix`. -/
def processExtMems (base_offset : Int) : List XmlExtMember → Option (List (String × String))
  | [] => some []
  | e :: rest =>
    match e.nameAttr, value_or_offset_or_bitpos base_offset e with
    | some n, some v =>
      (processExtMems base_offset rest).map (fun l => (removePfx n, removePfx v) :: l)
    | _, _ => none

/-- Body of the `parse_extensions` loop (source lines 568-581).  An
extension whose first `require` enum has value `"0"` is a placeholder
and is skipped; a missing `require` block or missing first enum is the
python AttributeError; a missing `number` attribute is `int(None)`;
a `None` name attribute formats as the string `None`. -/
def processExtensions : List XmlExtension → GenState → GenState × Option GenErr
  | [], st => gOk st
  | ext :: rest, st =>
    match ext.requireMembers.head? with
    | none => gErr st (.pyError "require.find enum is None")
    | some firstMem =>
      if firstMem.value == some "0" then processExtensions rest st
      else
        let extension_name := match ext.nameAttr with
          | some n => n
          | none => "None"
        match ext.number with
        | none => gErr st (.pyError "int of None")
        | some num =>
          let offset := 1000000000 + ((num - 1) * 1000)
          match processExtMems offset ext.requireMembers with
          | none => gErr st (.pyError "extension enum name or value missing")
          | some lines => processExtensions rest (emit st (.extBlock extension_name lines))

/-- Source `parse_extensions` (lines 558-581). -/
def parse_extensions (doc : VkDoc) (st : GenState) : GenState × Option GenErr :=
  let st := emit st (.raw "\n# EXTENSIONS \n\n")
  processExtensions doc.extensions st

/-- Source `add_imports` (lines 341-342); the fixed template text is
abbreviated to a marker distinct from every stage banner. -/
def add_imports (st : GenState) : GenState := emit st (.raw "<imports boilerplate>")

/-- Source `add_initialization` (lines 344-345). -/
def add_initialization (st : GenState) : GenState :=
  emit st (.raw "<initialization boilerplate>")

/-- Source `add_post_initialization` (lines 583-584). -/
def add_post_initialization (st : GenState) : GenState :=
  emit st (.raw "<post initialization boilerplate>")

def initState : GenState := { events := [], handleNames := [] }

/-- The pipeline prefix before the structures stage, in the exact order
of the source `export` function (lines 591-606): imports,
initialization, then basetypes BEFORE handles, then flags, enums and
funcpointers. -/
def pipelinePreStructs (doc : VkDoc) : GenState × Option GenErr :=
  let st := add_imports initState
  let st := add_initialization st
  gbind (parse_basetypes doc st) (fun st =>
  gbind (parse_handles doc st) (fun st =>
  gbind (parse_flags doc st) (fun st =>
  gbind (parse_enums doc st) (fun st =>
  parse_funcpointers doc st))))

/-- Source `export` (lines 591-606), renamed because `export` is a Lean
keyword.  The I/O wrappers (`load_xml`, `begin_generation`,
`end_generation`) and `prepare_templates` only touch files and template
text and are outside the embedded core. -/
def exportDoc (doc : VkDoc) : GenState × Option GenErr :=
  gbind (pipelinePreStructs doc) (fun st =>
  gbind (parse_structures_and_unions doc st) (fun st =>
  gbind (parse_commands doc st) (fun st =>
  gbind (parse_extensions doc st) (fun st =>
  gOk (add_post_initialization st)))))


/-! ## Specification predicates over event traces -/

/-- The struct/union declaration names written in a trace, in order. -/
def sdNames (evs : List Event) : List String :=
  evs.filterMap (fun e => match e with
    | .writeIt (.structDecl _ n _ _) => some n
    | _ => none)

/-- The entity names of the struct/union elements of the document,
after prefix stripping: exactly the names `parse_struct_or_enum` can
ever append to `DEFINED_IDENTIFIERS`. -/
def suNames (doc : VkDoc) : List String :=
  (doc.types.filter (fun t => t.category == "struct" || t.category == "union")).filterMap
    (fun t => t.nameAttr.map removePfx)

/-- The struct/union elements of the document. -/
def suElems (doc : VkDoc) : List XmlType :=
  doc.types.filter (fun t => t.category == "struct" || t.category == "union")

/-- Event kinds the structure stage can produce. -/
def SSEv (ev : Event) : Prop :=
  (∃ b n ms bts, ev = .writeIt (.structDecl b n ms bts)) ∨
  (∃ n, ev = .registerId n) ∨ (∃ s, ev = .warn s)

/-- The identifier a written declaration defines, if any. -/
def declName : OutItem → Option String
  | .raw _ => none
  | .handleDecl n _ => some n
  | .basetypeDecl n _ => some n
  | .flagDecl n => some n
  | .enumDecl n _ => some n
  | .funcDecl n _ _ => some n
  | .structDecl _ n _ _ => some n
  | .cmdFamily _ _ => none
  | .gipaDecl _ _ _ => none
  | .extBlock _ _ => none

/-- Position check for the registry-presence reading of topological
validity: a struct/union declaration written at position `j` may only
use base type names that are seeded or were registered before `j`. -/
def topoAt (evs : List Event) (j : Nat) : Bool :=
  match evs.get? j with
  | some (.writeIt (.structDecl _ _ _ bts)) =>
    bts.all (fun t => t ∈ SEED_IDENTIFIERS ++ registersOf (evs.take j))
  | _ => true

/-- Registry-presence topological validity of a whole trace. -/
def TopoReg (evs : List Event) : Prop := ∀ j, j < evs.length → topoAt evs j = true

/-- Position check for the declared-earlier reading of topological
validity: every base type name of a struct/union declaration written at
position `j` must be seeded or be the defined name of some declaration
written before `j`. -/
def topoDeclAt (evs : List Event) (j : Nat) : Bool :=
  match evs.get? j with
  | some (.writeIt (.structDecl _ _ _ bts)) =>
    bts.all (fun t => t ∈ SEED_IDENTIFIERS ++
      (evs.take j).filterMap (fun e => match e with
        | .writeIt it => declName it
        | _ => none))
  | _ => true

/-- Declared-earlier topological validity of a whole trace. -/
def TopoDecl (evs : List Event) : Prop := ∀ j, j < evs.length → topoDeclAt evs j = true

/-- Position check: a register event must immediately follow the write
of a declaration defining the same identifier. -/
def regAfterAt (evs : List Event) (j : Nat) : Bool :=
  match evs.get? j with
  | some (.registerId n) =>
    if j = 0 then false
    else
      match evs.get? (j - 1) with
      | some (.writeIt d) => declName d == some n
      | _ => false
  | _ => true

/-- Every register event immediately follows the write of its own
declaration (the claimed registry timing). -/
def RegAfterWrite (evs : List Event) : Prop := ∀ j, j < evs.length → regAfterAt evs j = true

/-- Position check: a struct/union declaration write must come after a
register event for the same name. -/
def sdRegBeforeAt (evs : List Event) (j : Nat) : Bool :=
  match evs.get? j with
  | some (.writeIt (.structDecl _ n _ _)) => (Event.registerId n) ∈ evs.take j
  | _ => true

/-- Every struct/union declaration write is preceded by the register
event of its name (the actual registry timing for structures). -/
def SdRegBefore (evs : List Event) : Prop := ∀ j, j < evs.length → sdRegBeforeAt evs j = true

/-- The stage banner comments, in the order the source `export` writes
them (basetypes before handles). -/
def stageHeaders : List String :=
  ["\n# BASETYPES\n\n", "\n# HANDLES\n\n", "\n# FLAGS\n\n", "# ENUMS\n\n",
   "\n# FUNC POINTERS\n\n", "\n# STRUCTURES\n\n", "\n# FUNCTIONS \n\n",
   "\n# EXTENSIONS \n\n"]

/-- The stage banners occurring in a trace, in order. -/
def markersOf (evs : List Event) : List String :=
  evs.filterMap (fun e => match e with
    | .writeIt (.raw s) => if s ∈ stageHeaders then some s else none
    | _ => none)

/-! ## Basic lemmas about states and traces -/

@[simp] theorem events_emit (st : GenState) (it : OutItem) :
    (emit st it).events = st.events ++ [.writeIt it] := rfl

@[simp] theorem events_registerId (st : GenState) (n : String) :
    (registerId st n).events = st.events ++ [.registerId n] := rfl

@[simp] theorem events_warn (st : GenState) (s : String) :
    (warn st s).events = st.events ++ [.warn s] := rfl

@[simp] theorem handleNames_emit (st : GenState) (it : OutItem) :
    (emit st it).handleNames = st.handleNames := rfl

@[simp] theorem handleNames_registerId (st : GenState) (n : String) :
    (registerId st n).handleNames = st.handleNames := rfl

@[simp] theorem handleNames_warn (st : GenState) (s : String) :
    (warn st s).handleNames = st.handleNames := rfl

@[simp] theorem registersOf_append (a b : List Event) :
    registersOf (a ++ b) = registersOf a ++ registersOf b :=
  List.filterMap_append a b _

@[simp] theorem registersOf_nil : registersOf [] = [] := rfl

@[simp] theorem registersOf_writeIt (it : OutItem) : registersOf [.writeIt it] = [] := rfl

@[simp] theorem registersOf_warnEv (s : String) : registersOf [.warn s] = [] := rfl

@[simp] theorem registersOf_registerEv (n : String) : registersOf [.registerId n] = [n] := rfl

@[simp] theorem sdNames_append (a b : List Event) :
    sdNames (a ++ b) = sdNames a ++ sdNames b :=
  List.filterMap_append a b _

@[simp] theorem sdNames_nil : sdNames [] = [] := rfl

@[simp] theorem markersOf_append (a b : List Event) :
    markersOf (a ++ b) = markersOf a ++ markersOf b :=
  List.filterMap_append a b _

@[simp] theorem reg_emit (st : GenState) (it : OutItem) : (emit st it).reg = st.reg := by
  simp [GenState.reg, emit, registersOf_append]

@[simp] theorem reg_registerId (st : GenState) (n : String) :
    (registerId st n).reg = st.reg ++ [n] := by
  simp [GenState.reg, registerId, registersOf_append]

@[simp] theorem reg_warn (st : GenState) (s : String) : (warn st s).reg = st.reg := by
  simp [GenState.reg, warn, registersOf_append]

theorem reg_of_events_append (st st' : GenState) (Δ : List Event)
    (h : st'.events = st.events ++ Δ) : st'.reg = st.reg ++ registersOf Δ := by
  simp [GenState.reg, h, registersOf_append]


theorem get?_append_lt {α : Type} (a b : List α) (j : Nat) (h : j < a.length) :
    (a ++ b).get? j = a.get? j :=
  List.get?_append h

theorem take_append_le {α : Type} (a b : List α) (j : Nat) (h : j ≤ a.length) :
    (a ++ b).take j = a.take j :=
  List.take_append_of_le_length h

theorem topoAt_append (evs Δ : List Event) (j : Nat) (h : j < evs.length) :
    topoAt (evs ++ Δ) j = topoAt evs j := by
  unfold topoAt
  rw [get?_append_lt _ _ _ h, take_append_le _ _ _ (Nat.le_of_lt h)]

theorem TopoReg_append_one (evs : List Event) (e : Event) (h : TopoReg evs)
    (he : topoAt (evs ++ [e]) evs.length = true) : TopoReg (evs ++ [e]) := by
  intro j hj
  rcases Nat.lt_or_ge j evs.length with hlt | hge
  · rw [topoAt_append _ _ _ hlt]; exact h j hlt
  · have : j = evs.length := by
      have := List.length_append evs [e]
      simp at hj ⊢
      omega
    rwa [this]

theorem topoAt_last_nonstruct (evs : List Event) (e : Event)
    (he : ∀ b n ms bts, e ≠ .writeIt (.structDecl b n ms bts)) :
    topoAt (evs ++ [e]) evs.length = true := by
  unfold topoAt
  rw [List.get?_append_right (Nat.le_refl _)]
  simp only [Nat.sub_self, List.get?]
  match e, he with
  | .writeIt it, he =>
    match it with
    | .raw s => rfl
    | .handleDecl n ty => rfl
    | .basetypeDecl n ty => rfl
    | .flagDecl n => rfl
    | .enumDecl n l => rfl
    | .funcDecl n r a => rfl
    | .structDecl b n ms bts => exact absurd rfl (he b n ms bts)
    | .cmdFamily f c => rfl
    | .gipaDecl n r a => rfl
    | .extBlock n l => rfl
  | .registerId n, _ => rfl
  | .warn s, _ => rfl

theorem topoAt_last_struct (evs : List Event) (b : Bool) (n : String)
    (ms : List (String × String)) (bts : List String)
    (hb : ∀ t ∈ bts, t ∈ SEED_IDENTIFIERS ++ registersOf evs) :
    topoAt (evs ++ [.writeIt (.structDecl b n ms bts)]) evs.length = true := by
  unfold topoAt
  rw [List.get?_append_right (Nat.le_refl _), take_append_le _ _ _ (Nat.le_refl _)]
  simp only [Nat.sub_self, List.get?, List.take_length]
  rw [List.all_eq_true]
  intro t ht
  simpa using hb t ht

theorem sdRegBeforeAt_append (evs Δ : List Event) (j : Nat) (h : j < evs.length) :
    sdRegBeforeAt (evs ++ Δ) j = sdRegBeforeAt evs j := by
  unfold sdRegBeforeAt
  rw [get?_append_lt _ _ _ h, take_append_le _ _ _ (Nat.le_of_lt h)]

theorem SdRegBefore_append_one (evs : List Event) (e : Event) (h : SdRegBefore evs)
    (he : sdRegBeforeAt (evs ++ [e]) evs.length = true) : SdRegBefore (evs ++ [e]) := by
  intro j hj
  rcases Nat.lt_or_ge j evs.length with hlt | hge
  · rw [sdRegBeforeAt_append _ _ _ hlt]; exact h j hlt
  · have : j = evs.length := by simp at hj; omega
    rwa [this]

theorem sdRegBeforeAt_last_nonstruct (evs : List Event) (e : Event)
    (he : ∀ b n ms bts, e ≠ .writeIt (.structDecl b n ms bts)) :
    sdRegBeforeAt (evs ++ [e]) evs.length = true := by
  unfold sdRegBeforeAt
  rw [List.get?_append_right (Nat.le_refl _)]
  simp only [Nat.sub_self, List.get?]
  match e, he with
  | .writeIt it, he =>
    match it with
    | .raw s => rfl
    | .handleDecl n ty => rfl
    | .basetypeDecl n ty => rfl
    | .flagDecl n => rfl
    | .enumDecl n l => rfl
    | .funcDecl n r a => rfl
    | .structDecl b n ms bts => exact absurd rfl (he b n ms bts)
    | .cmdFamily f c => rfl
    | .gipaDecl n r a => rfl
    | .extBlock n l => rfl
  | .registerId n, _ => rfl
  | .warn s, _ => rfl

theorem sdRegBeforeAt_last_struct (evs : List Event) (b : Bool) (n : String)
    (ms : List (String × String)) (bts : List String)
    (hr : Event.registerId n ∈ evs) :
    sdRegBeforeAt (evs ++ [.writeIt (.structDecl b n ms bts)]) evs.length = true := by
  unfold sdRegBeforeAt
  rw [List.get?_append_right (Nat.le_refl _), take_append_le _ _ _ (Nat.le_refl _)]
  simp only [Nat.sub_self, List.get?, List.take_length]
  exact decide_eq_true hr


theorem removePfx_Vk (t : String) : removePfx ("Vk" ++ t) = t := by
  have hd : ("Vk" ++ t).data = 'V' :: 'k' :: t.data := by
    rw [String.data_append]; rfl
  have hsw : strStartsWith ("Vk" ++ t) "Vk" = true := by
    simp [strStartsWith, hd, List.isPrefixOf]
  simp [removePfx, hsw, strDrop, hd]

/-- A found struct or union dependency element: in the document, of the
right category, named `Vk` ++ `t`. -/
theorem findable_of_found (doc : VkDoc) (t : String) (cat : String) (s : XmlType)
    (hcat : cat = "struct" ∨ cat = "union")
    (h : (filter_types doc cat).find? (fun s => s.nameAttr == some ("Vk" ++ t)) = some s) :
    s ∈ doc.types ∧ (s.category = "struct" ∨ s.category = "union") ∧
      s.nameAttr = some ("Vk" ++ t) := by
  have hmem := List.mem_of_find?_eq_some h
  have hpred := List.find?_some h
  rw [filter_types, List.mem_filter] at hmem
  refine ⟨hmem.1, ?_, by simpa using hpred⟩
  rcases hcat with hc | hc <;> [left; right] <;>
    · have := hmem.2
      rw [hc] at this
      simpa using this


/-- Shape of the event delta a structure-stage computation appends when
started with registry contents `R`: only struct-stage events; every
registered identifier is a findable dependency name (or satisfies the
caller-specific predicate `extraOk`) and was not yet registered; no
identifier is registered twice; every struct/union declaration written
was registered within the same delta, and no name is declared twice. -/
def GoodDeltaFrom (doc : VkDoc) (extraOk : String → Prop) (R : List String)
    (Δ : List Event) : Prop :=
  (∀ ev ∈ Δ, SSEv ev) ∧
  (∀ n ∈ registersOf Δ, (FindableName doc n ∨ extraOk n) ∧ n ∉ R) ∧
  (registersOf Δ).Nodup ∧
  (∀ n ∈ sdNames Δ, n ∈ registersOf Δ) ∧
  (sdNames Δ).Nodup

theorem GoodDeltaFrom.nil (doc : VkDoc) (extraOk : String → Prop) (R : List String) :
    GoodDeltaFrom doc extraOk R [] := by
  refine ⟨?_, ?_, ?_, ?_, ?_⟩ <;> simp [registersOf, sdNames]

theorem GoodDeltaFrom.mono_extra (doc : VkDoc) (e₁ e₂ : String → Prop) (R : List String)
    (Δ : List Event) (h : ∀ n, e₁ n → FindableName doc n ∨ e₂ n)
    (hg : GoodDeltaFrom doc e₁ R Δ) : GoodDeltaFrom doc e₂ R Δ := by
  obtain ⟨h1, h2, h3, h4, h5⟩ := hg
  refine ⟨h1, ?_, h3, h4, h5⟩
  intro n hn
  obtain ⟨hor, hfr⟩ := h2 n hn
  refine ⟨?_, hfr⟩
  rcases hor with hf | he
  · exact Or.inl hf
  · exact h n he

theorem GoodDeltaFrom.append (doc : VkDoc) (extraOk : String → Prop) (R : List String)
    (Δ₁ Δ₂ : List Event) (h₁ : GoodDeltaFrom doc extraOk R Δ₁)
    (h₂ : GoodDeltaFrom doc extraOk (R ++ registersOf Δ₁) Δ₂) :
    GoodDeltaFrom doc extraOk R (Δ₁ ++ Δ₂) := by
  obtain ⟨a1, a2, a3, a4, a5⟩ := h₁
  obtain ⟨b1, b2, b3, b4, b5⟩ := h₂
  refine ⟨?_, ?_, ?_, ?_, ?_⟩
  · intro ev hev
    rcases List.mem_append.mp hev with h | h
    · exact a1 ev h
    · exact b1 ev h
  · intro n hn
    rw [registersOf_append, List.mem_append] at hn
    rcases hn with h | h
    · exact a2 n h
    · obtain ⟨hor, hfr⟩ := b2 n h
      exact ⟨hor, fun hc => hfr (List.mem_append_left _ hc)⟩
  · rw [registersOf_append, List.nodup_append]
    refine ⟨a3, b3, ?_⟩
    intro n hn₁ hn₂
    exact (b2 n hn₂).2 (List.mem_append_right _ hn₁)
  · intro n hn
    rw [sdNames_append, List.mem_append] at hn
    rw [registersOf_append, List.mem_append]
    rcases hn with h | h
    · exact Or.inl (a4 n h)
    · exact Or.inr (b4 n h)
  · rw [sdNames_append, List.nodup_append]
    refine ⟨a5, b5, ?_⟩
    intro n hn₁ hn₂
    exact (b2 n (b4 n hn₂)).2 (List.mem_append_right _ (a4 n hn₁))

theorem GoodDeltaFrom.warn_one (doc : VkDoc) (extraOk : String → Prop) (R : List String)
    (s : String) : GoodDeltaFrom doc extraOk R [.warn s] := by
  refine ⟨?_, ?_, ?_, ?_, ?_⟩ <;> simp [registersOf, sdNames, SSEv]


/-- Behaviour of one `parse_struct_or_enum` call from state `st`: it
appends a well-shaped delta whose extra (possibly unfindable)
registered name can only be the stripped name of the entity itself; on
success the entity name is defined afterwards; `HANDLE_NAMES` is
untouched. -/
def EntitySpec (doc : VkDoc) (e : XmlType) (st : GenState)
    (res : GenState × Option GenErr) : Prop :=
  ∃ Δ, res.1.events = st.events ++ Δ ∧
    GoodDeltaFrom doc (fun n => ∃ nm, e.nameAttr = some nm ∧ n = removePfx nm) st.reg Δ ∧
    (res.2 = none → ∀ nm, e.nameAttr = some nm → removePfx nm ∈ res.1.reg) ∧
    res.1.handleNames = st.handleNames

/-- Behaviour of the dependency loop from state `st`: a well-shaped
delta registering only findable names; on success every member base
type that was findable or already defined is defined afterwards. -/
def LoopSpec (doc : VkDoc) (mems : List XmlMember) (st : GenState)
    (res : GenState × Option GenErr) : Prop :=
  ∃ Δ, res.1.events = st.events ++ Δ ∧
    GoodDeltaFrom doc (fun _ => False) st.reg Δ ∧
    (res.2 = none → ∀ m ∈ mems,
      (FindableName doc (memBase m) ∨ memBase m ∈ st.reg) → memBase m ∈ res.1.reg) ∧
    res.1.handleNames = st.handleNames


theorem pyOr_eq_some (sF uF : Option XmlType) (c : XmlType) (h : pyOr sF uF = some c) :
    sF = some c ∨ uF = some c := by
  rcases sF with _ | s
  · exact Or.inr h
  · by_cases he : s.members.isEmpty
    · rw [pyOr, if_pos he] at h
      exact Or.inr h
    · rw [pyOr, if_neg he] at h
      exact Or.inl h

theorem rd_chosen_case (doc : VkDoc)
    (recur : XmlType → Bool → GenState → GenState × Option GenErr)
    (hrec : ∀ e b st, EntitySpec doc e st (recur e b st))
    (mem : XmlMember) (rest : List XmlMember)
    (ih : ∀ st, LoopSpec doc rest st (resolve_dependencies doc recur rest st))
    (st : GenState) (chosen : XmlType) (bv : Bool)
    (hcmem : chosen ∈ doc.types)
    (hccat : chosen.category = "struct" ∨ chosen.category = "union")
    (hcname : chosen.nameAttr = some ("Vk" ++ memBase mem))
    (hstep : resolve_dependencies doc recur (mem :: rest) st =
      gbind (recur chosen bv st) (resolve_dependencies doc recur rest)) :
    LoopSpec doc (mem :: rest) st (resolve_dependencies doc recur (mem :: rest) st) := by
  rw [hstep]
  obtain ⟨Δ₁, hev₁, hg₁, hpost₁, hhn₁⟩ := hrec chosen bv st
  have hfind : FindableName doc (memBase mem) := ⟨chosen, hcmem, hccat, hcname⟩
  have hmono : ∀ n, (∃ nm, chosen.nameAttr = some nm ∧ n = removePfx nm) →
      FindableName doc n ∨ False := by
    rintro n ⟨nm, hnm, rfl⟩
    rw [hcname] at hnm
    injection hnm with h
    subst h
    rw [removePfx_Vk]
    exact Or.inl hfind
  have hg₁' : GoodDeltaFrom doc (fun _ => False) st.reg Δ₁ :=
    GoodDeltaFrom.mono_extra doc _ _ st.reg Δ₁ hmono hg₁
  rcases hres : recur chosen bv st with ⟨st₁, r₁⟩
  rw [hres] at hev₁ hpost₁ hhn₁
  cases r₁ with
  | some e =>
    have hred : gbind (st₁, some e) (resolve_dependencies doc recur rest) = (st₁, some e) := rfl
    rw [hred]
    refine ⟨Δ₁, hev₁, hg₁', ?_, hhn₁⟩
    intro h
    cases h
  | none =>
    have hred : gbind (st₁, none) (resolve_dependencies doc recur rest) =
        resolve_dependencies doc recur rest st₁ := rfl
    rw [hred]
    obtain ⟨Δ₂, hev₂, hg₂, hpost₂, hhn₂⟩ := ih st₁
    have hreg₁ : st₁.reg = st.reg ++ registersOf Δ₁ := reg_of_events_append st st₁ Δ₁ hev₁
    refine ⟨Δ₁ ++ Δ₂, ?_, ?_, ?_, ?_⟩
    · rw [hev₂, hev₁, List.append_assoc]
    · refine GoodDeltaFrom.append _ _ _ _ _ hg₁' ?_
      rwa [hreg₁] at hg₂
    · intro hok m hm hcond
      have hsub : ∀ x, x ∈ st₁.reg → x ∈ (resolve_dependencies doc recur rest st₁).1.reg := by
        rw [reg_of_events_append st₁ _ Δ₂ hev₂]
        exact fun x hx => List.mem_append_left _ hx
      rcases List.mem_cons.mp hm with hm1 | hm'
      · rw [hm1]
        have ht₁ : removePfx ("Vk" ++ memBase mem) ∈ st₁.reg := hpost₁ rfl _ hcname
        rw [removePfx_Vk] at ht₁
        exact hsub _ ht₁
      · refine hpost₂ hok m hm' ?_
        rcases hcond with hf | hin
        · exact Or.inl hf
        · exact Or.inr (by rw [hreg₁]; exact List.mem_append_left _ hin)
    · rw [hhn₂, hhn₁]


theorem rd_found_struct (doc : VkDoc)
    (recur : XmlType → Bool → GenState → GenState × Option GenErr)
    (hrec : ∀ e b st, EntitySpec doc e st (recur e b st))
    (mem : XmlMember) (rest : List XmlMember)
    (ih : ∀ st, LoopSpec doc rest st (resolve_dependencies doc recur rest st))
    (st : GenState) (hmem : memBase mem ∉ st.reg) (s : XmlType)
    (hsF : (filter_types doc "struct").find?
      (fun x => x.nameAttr == some ("Vk" ++ memBase mem)) = some s) :
    LoopSpec doc (mem :: rest) st (resolve_dependencies doc recur (mem :: rest) st) := by
  rcases hpy : pyOr (some s) ((filter_types doc "union").find?
      (fun x => x.nameAttr == some ("Vk" ++ memBase mem))) with _ | chosen
  · have hstep : resolve_dependencies doc recur (mem :: rest) st =
        gErr st (.pyError "NoneType.get: empty struct, no union") := by
      simp [resolve_dependencies, hmem, hsF, hpy]
    rw [hstep]
    refine ⟨[], by simp [gErr], GoodDeltaFrom.nil _ _ _, ?_, rfl⟩
    intro h
    cases h
  · have hstep : resolve_dependencies doc recur (mem :: rest) st =
        gbind (recur chosen ((filter_types doc "union").find?
          (fun x => x.nameAttr == some ("Vk" ++ memBase mem))).isNone st)
          (resolve_dependencies doc recur rest) := by
      simp [resolve_dependencies, hmem, hsF, hpy]
    rcases pyOr_eq_some _ _ _ hpy with hc | hc
    · injection hc with hc'
      obtain ⟨h1, h2, h3⟩ := findable_of_found doc (memBase mem) "struct" s (Or.inl rfl) hsF
      exact rd_chosen_case doc recur hrec mem rest ih st chosen _
        (hc' ▸ h1) (hc' ▸ h2) (hc' ▸ h3) hstep
    · obtain ⟨h1, h2, h3⟩ := findable_of_found doc (memBase mem) "union" chosen (Or.inr rfl) hc
      exact rd_chosen_case doc recur hrec mem rest ih st chosen _ h1 h2 h3 hstep

theorem rd_found_union (doc : VkDoc)
    (recur : XmlType → Bool → GenState → GenState × Option GenErr)
    (hrec : ∀ e b st, EntitySpec doc e st (recur e b st))
    (mem : XmlMember) (rest : List XmlMember)
    (ih : ∀ st, LoopSpec doc rest st (resolve_dependencies doc recur rest st))
    (st : GenState) (hmem : memBase mem ∉ st.reg) (u : XmlType)
    (hsF : (filter_types doc "struct").find?
      (fun x => x.nameAttr == some ("Vk" ++ memBase mem)) = none)
    (huF : (filter_types doc "union").find?
      (fun x => x.nameAttr == some ("Vk" ++ memBase mem)) = some u) :
    LoopSpec doc (mem :: rest) st (resolve_dependencies doc recur (mem :: rest) st) := by
  have hstep : resolve_dependencies doc recur (mem :: rest) st =
      gbind (recur u (false : Bool) st) (resolve_dependencies doc recur rest) := by
    simp [resolve_dependencies, hmem, hsF, huF, pyOr]
  obtain ⟨h1, h2, h3⟩ := findable_of_found doc (memBase mem) "union" u (Or.inr rfl) huF
  exact rd_chosen_case doc recur hrec mem rest ih st u false h1 h2 h3 hstep

theorem rd_master (doc : VkDoc)
    (recur : XmlType → Bool → GenState → GenState × Option GenErr)
    (hrec : ∀ e b st, EntitySpec doc e st (recur e b st)) :
    ∀ mems st, LoopSpec doc mems st (resolve_dependencies doc recur mems st) := by
  intro mems
  induction mems with
  | nil =>
    intro st
    refine ⟨[], by simp [resolve_dependencies, gOk], GoodDeltaFrom.nil _ _ _, ?_, rfl⟩
    intro _ m hm
    cases hm
  | cons mem rest ih =>
    intro st
    by_cases hmem : memBase mem ∈ st.reg
    · have hstep : resolve_dependencies doc recur (mem :: rest) st =
          resolve_dependencies doc recur rest st := by
        simp [resolve_dependencies, hmem]
      rw [hstep]
      obtain ⟨Δ, hev, hg, hpost, hhn⟩ := ih st
      refine ⟨Δ, hev, hg, ?_, hhn⟩
      intro hok m hm hcond
      have hreg' := reg_of_events_append st _ Δ hev
      rcases List.mem_cons.mp hm with hm1 | hm'
      · rw [hm1, hreg']
        exact List.mem_append_left _ hmem
      · exact hpost hok m hm' hcond
    · rcases hsF : (filter_types doc "struct").find?
          (fun x => x.nameAttr == some ("Vk" ++ memBase mem)) with _ | s
      · rcases huF : (filter_types doc "union").find?
            (fun x => x.nameAttr == some ("Vk" ++ memBase mem)) with _ | u
        · have hstep : resolve_dependencies doc recur (mem :: rest) st =
              resolve_dependencies doc recur rest
                (warn st (memBase mem ++ " was not found")) := by
            simp [resolve_dependencies, hmem, hsF, huF]
          rw [hstep]
          obtain ⟨Δ, hev, hg, hpost, hhn⟩ := ih (warn st (memBase mem ++ " was not found"))
          have hnotfind : ¬ FindableName doc (memBase mem) := by
            rintro ⟨s', hs'mem, hs'cat, hs'name⟩
            rcases hs'cat with hc | hc
            · have hin : s' ∈ filter_types doc "struct" := by
                rw [filter_types, List.mem_filter]
                exact ⟨hs'mem, by simp [hc]⟩
              have := List.find?_eq_none.mp hsF s' hin
              simp [hs'name] at this
            · have hin : s' ∈ filter_types doc "union" := by
                rw [filter_types, List.mem_filter]
                exact ⟨hs'mem, by simp [hc]⟩
              have := List.find?_eq_none.mp huF s' hin
              simp [hs'name] at this
          refine ⟨Event.warn (memBase mem ++ " was not found") :: Δ, ?_, ?_, ?_, ?_⟩
          · rw [hev]
            simp [warn]
          · have hw : GoodDeltaFrom doc (fun _ => False) st.reg
                [Event.warn (memBase mem ++ " was not found")] :=
              GoodDeltaFrom.warn_one _ _ _ _
            have hΔ : GoodDeltaFrom doc (fun _ => False)
                (st.reg ++ registersOf [Event.warn (memBase mem ++ " was not found")]) Δ := by
              simpa using hg
            simpa using GoodDeltaFrom.append _ _ _ _ _ hw hΔ
          · intro hok m hm hcond
            rcases List.mem_cons.mp hm with hm1 | hm'
            · rw [hm1] at hcond
              rcases hcond with hfind | hin
              · exact absurd hfind hnotfind
              · exact absurd hin hmem
            · refine hpost hok m hm' ?_
              rcases hcond with hfind | hin
              · exact Or.inl hfind
              · exact Or.inr (by rwa [reg_warn])
          · rwa [handleNames_warn] at hhn
        · exact rd_found_union doc recur hrec mem rest ih st hmem u hsF huF
      · exact rd_found_struct doc recur hrec mem rest ih st hmem s hsF


theorem GoodDeltaFrom.snoc_write (doc : VkDoc) (extraOk : String → Prop) (R : List String)
    (Δ : List Event) (b : Bool) (n : String) (ms : List (String × String))
    (bts : List String) (hg : GoodDeltaFrom doc extraOk R Δ)
    (hreg : n ∈ registersOf Δ) (hsd : n ∉ sdNames Δ) :
    GoodDeltaFrom doc extraOk R (Δ ++ [.writeIt (.structDecl b n ms bts)]) := by
  obtain ⟨h1, h2, h3, h4, h5⟩ := hg
  have hre : registersOf (Δ ++ [Event.writeIt (.structDecl b n ms bts)]) = registersOf Δ := by
    simp [registersOf_append, registersOf]
  have hsd' : sdNames (Δ ++ [Event.writeIt (.structDecl b n ms bts)]) = sdNames Δ ++ [n] := by
    simp [sdNames_append, sdNames]
  refine ⟨?_, ?_, ?_, ?_, ?_⟩
  · intro ev hev
    rcases List.mem_append.mp hev with h | h
    · exact h1 ev h
    · rcases List.mem_singleton.mp h with rfl
      exact Or.inl ⟨b, n, ms, bts, rfl⟩
  · rw [hre]
    exact h2
  · rw [hre]
    exact h3
  · rw [hsd', hre]
    intro x hx
    rcases List.mem_append.mp hx with h | h
    · exact h4 x h
    · rcases List.mem_singleton.mp h with rfl
      exact hreg
  · rw [hsd']
    rw [List.nodup_append]
    exact ⟨h5, List.nodup_singleton n, by
      intro x hx hx'
      rcases List.mem_singleton.mp hx' with rfl
      exact hsd hx⟩

theorem psoe_master (doc : VkDoc) :
    ∀ f e b st, EntitySpec doc e st (parse_struct_or_enum doc f e b st) := by
  intro f
  induction f with
  | zero =>
    intro e b st
    refine ⟨[], by simp [parse_struct_or_enum, gErr], GoodDeltaFrom.nil _ _ _, ?_, rfl⟩
    intro h
    cases h
  | succ f ih =>
    intro e b st
    rcases hna : e.nameAttr with _ | nm
    · have hstep : parse_struct_or_enum doc (f + 1) e b st =
          gErr st (.pyError "struct.get name is None") := by
        simp [parse_struct_or_enum, hna]
      rw [hstep]
      refine ⟨[], by simp [gErr], GoodDeltaFrom.nil _ _ _, ?_, rfl⟩
      intro _ nm' hnm'
      rw [hna] at hnm'
      cases hnm'
    · by_cases hreg : removePfx nm ∈ st.reg
      · have hstep : parse_struct_or_enum doc (f + 1) e b st = gOk st := by
          simp [parse_struct_or_enum, hna, hreg]
        rw [hstep]
        refine ⟨[], by simp [gOk], GoodDeltaFrom.nil _ _ _, ?_, rfl⟩
        intro _ nm' hnm'
        rw [hna] at hnm'
        injection hnm' with h
        rw [← h]
        exact hreg
      · have hstep : parse_struct_or_enum doc (f + 1) e b st =
            gbind (resolve_dependencies doc (parse_struct_or_enum doc f) e.members
              (registerId st (removePfx nm)))
              (fun st => gOk (emit st (.structDecl b (removePfx nm)
                (e.members.map parse_structure_member) (e.members.map memBase)))) := by
          simp [parse_struct_or_enum, hna, hreg]
        rw [hstep]
        have hex : ∀ n, n = removePfx nm →
            (∃ nm0, e.nameAttr = some nm0 ∧ n = removePfx nm0) := by
          intro n hn
          exact ⟨nm, hna, hn⟩
        obtain ⟨Δd, hevd, hgd, hpostd, hhnd⟩ :=
          rd_master doc (parse_struct_or_enum doc f) ih e.members (registerId st (removePfx nm))
        have hcore : GoodDeltaFrom doc
            (fun n => ∃ nm0, e.nameAttr = some nm0 ∧ n = removePfx nm0) st.reg
            (Event.registerId (removePfx nm) :: Δd) := by
          have h₁ : GoodDeltaFrom doc
              (fun n => ∃ nm0, e.nameAttr = some nm0 ∧ n = removePfx nm0) st.reg
              [Event.registerId (removePfx nm)] := by
            refine ⟨?_, ?_, ?_, ?_, ?_⟩
            · intro ev hev
              rcases List.mem_singleton.mp hev with rfl
              exact Or.inr (Or.inl ⟨_, rfl⟩)
            · intro n hn
              rcases List.mem_singleton.mp (by simpa [registersOf] using hn) with rfl
              exact ⟨Or.inr (hex _ rfl), hreg⟩
            · simp [registersOf]
            · intro n hn
              simp [sdNames] at hn
            · simp [sdNames]
          have h₂ : GoodDeltaFrom doc
              (fun n => ∃ nm0, e.nameAttr = some nm0 ∧ n = removePfx nm0)
              (st.reg ++ registersOf [Event.registerId (removePfx nm)]) Δd := by
            refine GoodDeltaFrom.mono_extra doc (fun _ => False) _ _ _ ?_ ?_
            · intro n h
              exact h.elim
            · simpa [registersOf] using hgd
          simpa using GoodDeltaFrom.append _ _ _ _ _ h₁ h₂
        have hfreshd : ∀ n ∈ registersOf Δd, n ∉ (registerId st (removePfx nm)).reg :=
          fun n hn => (hgd.2.1 n hn).2
        rcases hrd : resolve_dependencies doc (parse_struct_or_enum doc f) e.members
            (registerId st (removePfx nm)) with ⟨st₂, r₂⟩
        rw [hrd] at hevd hpostd hhnd
        cases r₂ with
        | some err =>
          have hred : gbind (st₂, some err)
              (fun st => gOk (emit st (.structDecl b (removePfx nm)
                (e.members.map parse_structure_member) (e.members.map memBase)))) =
              (st₂, some err) := rfl
          rw [hred]
          refine ⟨Event.registerId (removePfx nm) :: Δd, ?_, hcore, ?_, ?_⟩
          · rw [hevd]
            simp [registerId]
          · intro h
            cases h
          · rw [hhnd]
            rfl
        | none =>
          have hred : gbind (st₂, none)
              (fun st => gOk (emit st (.structDecl b (removePfx nm)
                (e.members.map parse_structure_member) (e.members.map memBase)))) =
              gOk (emit st₂ (.structDecl b (removePfx nm)
                (e.members.map parse_structure_member) (e.members.map memBase))) := rfl
          rw [hred]
          have hsdsub : removePfx nm ∉ sdNames Δd := by
            intro hin
            have := hgd.2.2.2.1 _ hin
            have hfr := (hgd.2.1 _ this).2
            rw [reg_registerId] at hfr
            exact hfr (List.mem_append_right _ (List.mem_singleton.mpr rfl))
          have hfull := GoodDeltaFrom.snoc_write doc _ st.reg
            (Event.registerId (removePfx nm) :: Δd) b (removePfx nm)
            (e.members.map parse_structure_member) (e.members.map memBase) hcore
            (by simp [registersOf]) (by simpa [sdNames] using hsdsub)
          refine ⟨(Event.registerId (removePfx nm) :: Δd) ++
            [Event.writeIt (.structDecl b (removePfx nm)
              (e.members.map parse_structure_member) (e.members.map memBase))], ?_, hfull, ?_, ?_⟩
          · show (emit st₂ _).events = _
            rw [events_emit, hevd]
            simp [registerId]
          · intro _ nm' hnm'
            rw [hna] at hnm'
            injection hnm' with h
            rw [← h]
            show removePfx nm ∈ (emit st₂ _).reg
            rw [reg_emit, reg_of_events_append _ _ _ hevd, reg_registerId]
            exact List.mem_append_left _ (List.mem_append_right _ (List.mem_singleton.mpr rfl))
          · show (emit st₂ _).handleNames = st.handleNames
            rw [handleNames_emit, hhnd]
            rfl


/-- The struct/union names of the document not yet registered: the
recursion measure of the dependency resolver. -/
def unresolvedCount (doc : VkDoc) (st : GenState) : Nat :=
  ((suNames doc).toFinset.filter (fun n => n ∉ st.reg)).card

theorem unresolved_mono (doc : VkDoc) (st st' : GenState)
    (h : ∀ x, x ∈ st.reg → x ∈ st'.reg) :
    unresolvedCount doc st' ≤ unresolvedCount doc st := by
  apply Finset.card_le_card
  intro x hx
  rw [Finset.mem_filter] at hx ⊢
  exact ⟨hx.1, fun hc => hx.2 (h x hc)⟩

theorem unresolved_dec (doc : VkDoc) (st : GenState) (n : String)
    (hn : n ∈ suNames doc) (hfr : n ∉ st.reg) :
    unresolvedCount doc (registerId st n) < unresolvedCount doc st := by
  apply Finset.card_lt_card
  rw [Finset.ssubset_iff_of_subset]
  · refine ⟨n, ?_, ?_⟩
    · rw [Finset.mem_filter]
      exact ⟨List.mem_toFinset.mpr hn, hfr⟩
    · rw [Finset.mem_filter]
      rintro ⟨-, hc⟩
      rw [reg_registerId] at hc
      exact hc (List.mem_append_right _ (List.mem_singleton.mpr rfl))
  · intro x hx
    rw [Finset.mem_filter] at hx ⊢
    refine ⟨hx.1, fun hc => hx.2 ?_⟩
    rw [reg_registerId]
    exact List.mem_append_left _ hc

theorem mem_suNames (doc : VkDoc) (chosen : XmlType) (nm : String)
    (hmem : chosen ∈ doc.types)
    (hcat : chosen.category = "struct" ∨ chosen.category = "union")
    (hna : chosen.nameAttr = some nm) : removePfx nm ∈ suNames doc := by
  rw [suNames]
  apply List.mem_filterMap.mpr
  refine ⟨chosen, List.mem_filter.mpr ⟨hmem, ?_⟩, by rw [hna]; rfl⟩
  rcases hcat with hc | hc <;> simp [hc]

theorem rd_no_fuel (doc : VkDoc) (f : Nat)
    (hP : ∀ e b st, (∀ nm, e.nameAttr = some nm → removePfx nm ∈ suNames doc) →
      unresolvedCount doc st < f →
      (parse_struct_or_enum doc f e b st).2 ≠ some .fuelExhausted) :
    ∀ mems st, unresolvedCount doc st < f →
      (resolve_dependencies doc (parse_struct_or_enum doc f) mems st).2 ≠
        some .fuelExhausted := by
  intro mems
  induction mems with
  | nil =>
    intro st _
    simp [resolve_dependencies, gOk]
  | cons mem rest ih =>
    intro st hcount
    by_cases hmem : memBase mem ∈ st.reg
    · have hstep : resolve_dependencies doc (parse_struct_or_enum doc f) (mem :: rest) st =
          resolve_dependencies doc (parse_struct_or_enum doc f) rest st := by
        simp [resolve_dependencies, hmem]
      rw [hstep]
      exact ih st hcount
    · rcases hsF : (filter_types doc "struct").find?
          (fun x => x.nameAttr == some ("Vk" ++ memBase mem)) with _ | s
      · rcases huF : (filter_types doc "union").find?
            (fun x => x.nameAttr == some ("Vk" ++ memBase mem)) with _ | u
        · have hstep : resolve_dependencies doc (parse_struct_or_enum doc f) (mem :: rest) st =
              resolve_dependencies doc (parse_struct_or_enum doc f) rest
                (warn st (memBase mem ++ " was not found")) := by
            simp [resolve_dependencies, hmem, hsF, huF]
          rw [hstep]
          refine ih _ ?_
          have : unresolvedCount doc (warn st (memBase mem ++ " was not found")) =
              unresolvedCount doc st := by
            simp [unresolvedCount, GenState.reg, warn, registersOf_append]
          rw [this]
          exact hcount
        · obtain ⟨h1, h2, h3⟩ := findable_of_found doc (memBase mem) "union" u (Or.inr rfl) huF
          have hstep : resolve_dependencies doc (parse_struct_or_enum doc f) (mem :: rest) st =
              gbind (parse_struct_or_enum doc f u false st)
                (resolve_dependencies doc (parse_struct_or_enum doc f) rest) := by
            simp [resolve_dependencies, hmem, hsF, huF, pyOr]
          rw [hstep]
          have hname : ∀ nm, u.nameAttr = some nm → removePfx nm ∈ suNames doc := by
            intro nm hnm
            exact mem_suNames doc u nm h1 h2 hnm
          rcases hres : parse_struct_or_enum doc f u false st with ⟨st₁, r₁⟩
          cases r₁ with
          | some err =>
            have hne := hP u false st hname hcount
            rw [hres] at hne
            intro hc
            rw [show gbind (st₁, some err)
                (resolve_dependencies doc (parse_struct_or_enum doc f) rest) =
                (st₁, some err) from rfl] at hc
            exact hne (by rw [show ((st₁, some err) :
              GenState × Option GenErr).2 = some err from rfl] at hc ⊢; rw [hc])
          | none =>
            rw [show gbind (st₁, none)
                (resolve_dependencies doc (parse_struct_or_enum doc f) rest) =
                resolve_dependencies doc (parse_struct_or_enum doc f) rest st₁ from rfl]
            refine ih st₁ (Nat.lt_of_le_of_lt ?_ hcount)
            obtain ⟨Δ, hev, -, -, -⟩ := psoe_master doc f u false st
            rw [hres] at hev
            refine unresolved_mono doc st st₁ ?_
            rw [reg_of_events_append st st₁ Δ hev]
            exact fun x hx => List.mem_append_left _ hx
      · -- a struct was found; the chosen entity is s or the union lookup result
        rcases hpy : pyOr (some s) ((filter_types doc "union").find?
            (fun x => x.nameAttr == some ("Vk" ++ memBase mem))) with _ | chosen
        · have hstep : resolve_dependencies doc (parse_struct_or_enum doc f) (mem :: rest) st =
              gErr st (.pyError "NoneType.get: empty struct, no union") := by
            simp [resolve_dependencies, hmem, hsF, hpy]
          rw [hstep]
          simp [gErr]
        · have hchosen : chosen ∈ doc.types ∧
              (chosen.category = "struct" ∨ chosen.category = "union") ∧
              chosen.nameAttr = some ("Vk" ++ memBase mem) := by
            rcases pyOr_eq_some _ _ _ hpy with hc | hc
            · injection hc with hc'
              obtain ⟨h1, h2, h3⟩ := findable_of_found doc (memBase mem) "struct" s (Or.inl rfl) hsF
              exact ⟨hc' ▸ h1, hc' ▸ h2, hc' ▸ h3⟩
            · exact findable_of_found doc (memBase mem) "union" chosen (Or.inr rfl) hc
          have hstep : resolve_dependencies doc (parse_struct_or_enum doc f) (mem :: rest) st =
              gbind (parse_struct_or_enum doc f chosen ((filter_types doc "union").find?
                  (fun x => x.nameAttr == some ("Vk" ++ memBase mem))).isNone st)
                (resolve_dependencies doc (parse_struct_or_enum doc f) rest) := by
            simp [resolve_dependencies, hmem, hsF, hpy]
          rw [hstep]
          have hname : ∀ nm, chosen.nameAttr = some nm → removePfx nm ∈ suNames doc := by
            intro nm hnm
            exact mem_suNames doc chosen nm hchosen.1 hchosen.2.1 hnm
          set bv := ((filter_types doc "union").find?
            (fun x => x.nameAttr == some ("Vk" ++ memBase mem))).isNone with hbv
          rcases hres : parse_struct_or_enum doc f chosen bv st with ⟨st₁, r₁⟩
          cases r₁ with
          | some err =>
            have hne := hP chosen bv st hname hcount
            rw [hres] at hne
            intro hc
            rw [show gbind (st₁, some err)
                (resolve_dependencies doc (parse_struct_or_enum doc f) rest) =
                (st₁, some err) from rfl] at hc
            exact hne (by rw [show ((st₁, some err) :
              GenState × Option GenErr).2 = some err from rfl] at hc ⊢; rw [hc])
          | none =>
            rw [show gbind (st₁, none)
                (resolve_dependencies doc (parse_struct_or_enum doc f) rest) =
                resolve_dependencies doc (parse_struct_or_enum doc f) rest st₁ from rfl]
            refine ih st₁ (Nat.lt_of_le_of_lt ?_ hcount)
            obtain ⟨Δ, hev, -, -, -⟩ := psoe_master doc f chosen bv st
            rw [hres] at hev
            refine unresolved_mono doc st st₁ ?_
            rw [reg_of_events_append st st₁ Δ hev]
            exact fun x hx => List.mem_append_left _ hx

theorem psoe_no_fuel (doc : VkDoc) :
    ∀ f e b st, (∀ nm, e.nameAttr = some nm → removePfx nm ∈ suNames doc) →
      unresolvedCount doc st < f →
      (parse_struct_or_enum doc f e b st).2 ≠ some .fuelExhausted := by
  intro f
  induction f with
  | zero =>
    intro e b st _ hcount
    exact absurd hcount (Nat.not_lt_zero _)
  | succ f ih =>
    intro e b st hname hcount
    rcases hna : e.nameAttr with _ | nm
    · have hstep : parse_struct_or_enum doc (f + 1) e b st =
          gErr st (.pyError "struct.get name is None") := by
        simp [parse_struct_or_enum, hna]
      rw [hstep]
      simp [gErr]
    · by_cases hreg : removePfx nm ∈ st.reg
      · have hstep : parse_struct_or_enum doc (f + 1) e b st = gOk st := by
          simp [parse_struct_or_enum, hna, hreg]
        rw [hstep]
        simp [gOk]
      · have hstep : parse_struct_or_enum doc (f + 1) e b st =
            gbind (resolve_dependencies doc (parse_struct_or_enum doc f) e.members
              (registerId st (removePfx nm)))
              (fun st => gOk (emit st (.structDecl b (removePfx nm)
                (e.members.map parse_structure_member) (e.members.map memBase)))) := by
          simp [parse_struct_or_enum, hna, hreg]
        rw [hstep]
        have hdec := unresolved_dec doc st (removePfx nm) (hname nm hna) hreg
        have hcount₁ : unresolvedCount doc (registerId st (removePfx nm)) < f := by
          omega
        have hrloop := rd_no_fuel doc f ih e.members (registerId st (removePfx nm)) hcount₁
        rcases hrd : resolve_dependencies doc (parse_struct_or_enum doc f) e.members
            (registerId st (removePfx nm)) with ⟨st₂, r₂⟩
        rw [hrd] at hrloop
        cases r₂ with
        | some err =>
          intro hc
          rw [show gbind (st₂, some err) (fun st => gOk (emit st (.structDecl b (removePfx nm)
              (e.members.map parse_structure_member) (e.members.map memBase)))) =
              (st₂, some err) from rfl] at hc
          exact hrloop (by rw [show ((st₂, some err) :
            GenState × Option GenErr).2 = some err from rfl] at hc ⊢; rw [hc])
        | none =>
          rw [show gbind (st₂, none) (fun st => gOk (emit st (.structDecl b (removePfx nm)
              (e.members.map parse_structure_member) (e.members.map memBase)))) =
              gOk (emit st₂ (.structDecl b (removePfx nm)
                (e.members.map parse_structure_member) (e.members.map memBase))) from rfl]
          simp [gOk]


/-- `GoodDeltaFrom` without the findability information: enough for the
whole-stage composition. -/
def WeakDelta (R : List String) (Δ : List Event) : Prop :=
  (∀ ev ∈ Δ, SSEv ev) ∧
  (∀ n ∈ registersOf Δ, n ∉ R) ∧
  (registersOf Δ).Nodup ∧
  (∀ n ∈ sdNames Δ, n ∈ registersOf Δ) ∧
  (sdNames Δ).Nodup

theorem GoodDeltaFrom.weak (doc : VkDoc) (extraOk : String → Prop) (R : List String)
    (Δ : List Event) (h : GoodDeltaFrom doc extraOk R Δ) : WeakDelta R Δ :=
  ⟨h.1, fun n hn => (h.2.1 n hn).2, h.2.2.1, h.2.2.2.1, h.2.2.2.2⟩

theorem WeakDelta.empty (R : List String) : WeakDelta R [] := by
  refine ⟨?_, ?_, ?_, ?_, ?_⟩ <;> simp [registersOf, sdNames]

theorem WeakDelta.concat (R : List String) (Δ₁ Δ₂ : List Event)
    (h₁ : WeakDelta R Δ₁) (h₂ : WeakDelta (R ++ registersOf Δ₁) Δ₂) :
    WeakDelta R (Δ₁ ++ Δ₂) := by
  obtain ⟨a1, a2, a3, a4, a5⟩ := h₁
  obtain ⟨b1, b2, b3, b4, b5⟩ := h₂
  refine ⟨?_, ?_, ?_, ?_, ?_⟩
  · intro ev hev
    rcases List.mem_append.mp hev with h | h
    · exact a1 ev h
    · exact b1 ev h
  · intro n hn
    rw [registersOf_append, List.mem_append] at hn
    rcases hn with h | h
    · exact a2 n h
    · exact fun hc => b2 n h (List.mem_append_left _ hc)
  · rw [registersOf_append, List.nodup_append]
    refine ⟨a3, b3, ?_⟩
    intro n hn₁ hn₂
    exact b2 n hn₂ (List.mem_append_right _ hn₁)
  · intro n hn
    rw [sdNames_append, List.mem_append] at hn
    rw [registersOf_append, List.mem_append]
    rcases hn with h | h
    · exact Or.inl (a4 n h)
    · exact Or.inr (b4 n h)
  · rw [sdNames_append, List.nodup_append]
    refine ⟨a5, b5, ?_⟩
    intro n hn₁ hn₂
    exact b2 n (b4 n hn₂) (List.mem_append_right _ (a4 n hn₁))

theorem processStructs_spec (doc : VkDoc) :
    ∀ l st, ∃ Δ, (processStructs doc l st).1.events = st.events ++ Δ ∧
      WeakDelta st.reg Δ ∧
      (processStructs doc l st).1.handleNames = st.handleNames := by
  intro l
  induction l with
  | nil =>
    intro st
    exact ⟨[], by simp [processStructs, gOk], WeakDelta.empty _, rfl⟩
  | cons x rest ih =>
    intro st
    obtain ⟨Δ₁, hev₁, hg₁, hpost₁, hhn₁⟩ := psoe_master doc (suFuel doc) x true st
    rcases hres : parse_struct_or_enum doc (suFuel doc) x true st with ⟨st₁, r₁⟩
    rw [hres] at hev₁ hhn₁
    have hstep : processStructs doc (x :: rest) st =
        gbind (st₁, r₁) (processStructs doc rest) := by
      rw [processStructs, hres]
    cases r₁ with
    | some err =>
      rw [hstep, show gbind (st₁, some err) (processStructs doc rest) = (st₁, some err) from rfl]
      exact ⟨Δ₁, hev₁, GoodDeltaFrom.weak _ _ _ _ hg₁, hhn₁⟩
    | none =>
      rw [hstep, show gbind (st₁, none) (processStructs doc rest) =
        processStructs doc rest st₁ from rfl]
      obtain ⟨Δ₂, hev₂, hw₂, hhn₂⟩ := ih st₁
      refine ⟨Δ₁ ++ Δ₂, ?_, ?_, ?_⟩
      · rw [hev₂, hev₁, List.append_assoc]
      · refine WeakDelta.concat _ _ _ (GoodDeltaFrom.weak _ _ _ _ hg₁) ?_
        rwa [← reg_of_events_append st st₁ Δ₁ hev₁]
      · rw [hhn₂, hhn₁]

theorem structs_stage_spec (doc : VkDoc) (st : GenState) :
    ∃ Δ, (parse_structures_and_unions doc st).1.events =
        st.events ++ (Event.writeIt (.raw "\n# STRUCTURES\n\n") :: Δ) ∧
      WeakDelta st.reg Δ ∧
      (parse_structures_and_unions doc st).1.handleNames = st.handleNames := by
  rw [parse_structures_and_unions]
  set st₀ := emit st (.raw "\n# STRUCTURES\n\n") with hst₀
  obtain ⟨Δ₁, hev₁, hw₁, hhn₁⟩ := processStructs_spec doc (filter_types doc "struct") st₀
  rcases hres : processStructs doc (filter_types doc "struct") st₀ with ⟨st₁, r₁⟩
  rw [hres] at hev₁ hhn₁
  cases r₁ with
  | some err =>
    rw [show gbind (st₁, some err) (fun st => processStructs doc (filter_types doc "union") st) =
      (st₁, some err) from rfl]
    refine ⟨Δ₁, ?_, ?_, ?_⟩
    · rw [hev₁, hst₀, events_emit, List.append_assoc]
      rfl
    · rwa [hst₀, reg_emit] at hw₁
    · rw [hhn₁, hst₀, handleNames_emit]
  | none =>
    rw [show gbind (st₁, none) (fun st => processStructs doc (filter_types doc "union") st) =
      processStructs doc (filter_types doc "union") st₁ from rfl]
    obtain ⟨Δ₂, hev₂, hw₂, hhn₂⟩ := processStructs_spec doc (filter_types doc "union") st₁
    refine ⟨Δ₁ ++ Δ₂, ?_, ?_, ?_⟩
    · rw [hev₂, hev₁, hst₀, events_emit, List.append_assoc, List.append_assoc]
      rfl
    · have := WeakDelta.concat st₀.reg Δ₁ Δ₂ hw₁
        (by rwa [← reg_of_events_append st₀ st₁ Δ₁ hev₁])
      rwa [hst₀, reg_emit] at this
    · rw [hhn₂, hhn₁, hst₀, handleNames_emit]

theorem unresolved_le (doc : VkDoc) (st : GenState) :
    unresolvedCount doc st ≤ doc.types.length := by
  calc unresolvedCount doc st
      ≤ (suNames doc).toFinset.card := Finset.card_filter_le _ _
    _ ≤ (suNames doc).length := (suNames doc).toFinset_card_le
    _ ≤ (doc.types.filter (fun t => t.category == "struct" || t.category == "union")).length :=
        List.length_filterMap_le _ _
    _ ≤ doc.types.length := List.length_filter_le _ _

theorem processStructs_no_fuel (doc : VkDoc) :
    ∀ l st, (∀ x ∈ l, x ∈ doc.types ∧
      (x.category = "struct" ∨ x.category = "union")) →
    (processStructs doc l st).2 ≠ some .fuelExhausted := by
  intro l
  induction l with
  | nil =>
    intro st _
    simp [processStructs, gOk]
  | cons x rest ih =>
    intro st hl
    have hx := hl x (List.mem_cons_self x rest)
    have hname : ∀ nm, x.nameAttr = some nm → removePfx nm ∈ suNames doc := by
      intro nm hnm
      exact mem_suNames doc x nm hx.1 hx.2 hnm
    have hcount : unresolvedCount doc st < suFuel doc := by
      have := unresolved_le doc st
      rw [suFuel]
      omega
    have hne := psoe_no_fuel doc (suFuel doc) x true st hname hcount
    rcases hres : parse_struct_or_enum doc (suFuel doc) x true st with ⟨st₁, r₁⟩
    rw [hres] at hne
    have hstep : processStructs doc (x :: rest) st =
        gbind (st₁, r₁) (processStructs doc rest) := by
      rw [processStructs, hres]
    rw [hstep]
    cases r₁ with
    | some err =>
      rw [show gbind (st₁, some err) (processStructs doc rest) = (st₁, some err) from rfl]
      intro hc
      exact hne (by rw [show ((st₁, some err) :
        GenState × Option GenErr).2 = some err from rfl] at hc ⊢; rw [hc])
    | none =>
      rw [show gbind (st₁, none) (processStructs doc rest) =
        processStructs doc rest st₁ from rfl]
      exact ih st₁ (fun y hy => hl y (List.mem_cons_of_mem x hy))

theorem structs_stage_no_fuel (doc : VkDoc) (st : GenState) :
    (parse_structures_and_unions doc st).2 ≠ some .fuelExhausted := by
  rw [parse_structures_and_unions]
  set st₀ := emit st (.raw "\n# STRUCTURES\n\n")
  have hmem : ∀ cat, ∀ x ∈ filter_types doc cat, x ∈ doc.types ∧ x.category = cat := by
    intro cat x hx
    rw [filter_types, List.mem_filter] at hx
    exact ⟨hx.1, by simpa using hx.2⟩
  have h₁ := processStructs_no_fuel doc (filter_types doc "struct") st₀
    (fun x hx => ⟨(hmem _ x hx).1, Or.inl (hmem _ x hx).2⟩)
  rcases hres : processStructs doc (filter_types doc "struct") st₀ with ⟨st₁, r₁⟩
  rw [hres] at h₁
  cases r₁ with
  | some err =>
    rw [show gbind (st₁, some err) (fun st => processStructs doc (filter_types doc "union") st) =
      (st₁, some err) from rfl]
    intro hc
    exact h₁ (by rw [show ((st₁, some err) :
      GenState × Option GenErr).2 = some err from rfl] at hc ⊢; rw [hc])
  | none =>
    rw [show gbind (st₁, none) (fun st => processStructs doc (filter_types doc "union") st) =
      processStructs doc (filter_types doc "union") st₁ from rfl]
    exact processStructs_no_fuel doc (filter_types doc "union") st₁
      (fun x hx => ⟨(hmem _ x hx).1, Or.inr (hmem _ x hx).2⟩)


/-- Events whose write is neither a struct/union declaration nor a raw
write: what the five simple declaration loops produce. -/
def PlainDeclEv (ev : Event) : Prop :=
  (∀ b n ms bts, ev ≠ .writeIt (.structDecl b n ms bts)) ∧ (∀ s, ev ≠ .writeIt (.raw s))

theorem sdNames_eq_nil (Δ : List Event)
    (h : ∀ ev ∈ Δ, ∀ b n ms bts, ev ≠ .writeIt (.structDecl b n ms bts)) :
    sdNames Δ = [] := by
  induction Δ with
  | nil => rfl
  | cons e rest ih =>
    have hr := ih (fun ev hev => h ev (List.mem_cons_of_mem e hev))
    have he := h e (List.mem_cons_self e rest)
    match e, he with
    | .writeIt (.raw s), _ => simpa [sdNames] using hr
    | .writeIt (.handleDecl n ty), _ => simpa [sdNames] using hr
    | .writeIt (.basetypeDecl n ty), _ => simpa [sdNames] using hr
    | .writeIt (.flagDecl n), _ => simpa [sdNames] using hr
    | .writeIt (.enumDecl n l), _ => simpa [sdNames] using hr
    | .writeIt (.funcDecl n r a), _ => simpa [sdNames] using hr
    | .writeIt (.structDecl b n ms bts), he => exact absurd rfl (he b n ms bts)
    | .writeIt (.cmdFamily f c), _ => simpa [sdNames] using hr
    | .writeIt (.gipaDecl n r a), _ => simpa [sdNames] using hr
    | .writeIt (.extBlock n l), _ => simpa [sdNames] using hr
    | .registerId n, _ => simpa [sdNames] using hr
    | .warn s, _ => simpa [sdNames] using hr

theorem markersOf_eq_nil (Δ : List Event)
    (h : ∀ ev ∈ Δ, ∀ s, ev ≠ .writeIt (.raw s)) :
    markersOf Δ = [] := by
  induction Δ with
  | nil => rfl
  | cons e rest ih =>
    have hr := ih (fun ev hev => h ev (List.mem_cons_of_mem e hev))
    have he := h e (List.mem_cons_self e rest)
    match e, he with
    | .writeIt (.raw s), he => exact absurd rfl (he s)
    | .writeIt (.handleDecl n ty), _ => simpa [markersOf] using hr
    | .writeIt (.basetypeDecl n ty), _ => simpa [markersOf] using hr
    | .writeIt (.flagDecl n), _ => simpa [markersOf] using hr
    | .writeIt (.enumDecl n l), _ => simpa [markersOf] using hr
    | .writeIt (.funcDecl n r a), _ => simpa [markersOf] using hr
    | .writeIt (.structDecl b n ms bts), _ => simpa [markersOf] using hr
    | .writeIt (.cmdFamily f c), _ => simpa [markersOf] using hr
    | .writeIt (.gipaDecl n r a), _ => simpa [markersOf] using hr
    | .writeIt (.extBlock n l), _ => simpa [markersOf] using hr
    | .registerId n, _ => simpa [markersOf] using hr
    | .warn s, _ => simpa [markersOf] using hr

theorem TopoReg_append_all (Δ : List Event) : ∀ evs, TopoReg evs →
    (∀ ev ∈ Δ, ∀ b n ms bts, ev ≠ .writeIt (.structDecl b n ms bts)) →
    TopoReg (evs ++ Δ) := by
  induction Δ with
  | nil =>
    intro evs h _
    simpa using h
  | cons e rest ih =>
    intro evs h hΔ
    have he := hΔ e (List.mem_cons_self e rest)
    have hstep : TopoReg (evs ++ [e]) :=
      TopoReg_append_one evs e h (topoAt_last_nonstruct evs e he)
    have hrec := ih (evs ++ [e]) hstep (fun ev hev => hΔ ev (List.mem_cons_of_mem e hev))
    simpa [List.append_assoc] using hrec

theorem SdRegBefore_append_all (Δ : List Event) : ∀ evs, SdRegBefore evs →
    (∀ ev ∈ Δ, ∀ b n ms bts, ev ≠ .writeIt (.structDecl b n ms bts)) →
    SdRegBefore (evs ++ Δ) := by
  induction Δ with
  | nil =>
    intro evs h _
    simpa using h
  | cons e rest ih =>
    intro evs h hΔ
    have he := hΔ e (List.mem_cons_self e rest)
    have hstep : SdRegBefore (evs ++ [e]) :=
      SdRegBefore_append_one evs e h (sdRegBeforeAt_last_nonstruct evs e he)
    have hrec := ih (evs ++ [e]) hstep (fun ev hev => hΔ ev (List.mem_cons_of_mem e hev))
    simpa [List.append_assoc] using hrec


theorem regAfterAt_append (evs Δ : List Event) (j : Nat) (h : j < evs.length) :
    regAfterAt (evs ++ Δ) j = regAfterAt evs j := by
  unfold regAfterAt
  rw [get?_append_lt _ _ _ h]
  rcases Nat.eq_zero_or_pos j with h0 | hpos
  · simp [h0]
  · have hlt : j - 1 < evs.length := by omega
    have h2 := get?_append_lt evs Δ (j - 1) hlt
    simp only [h2]

theorem RegAfterWrite_append_two (evs : List Event) (d : OutItem) (n : String)
    (h : RegAfterWrite evs) (hd : declName d = some n) :
    RegAfterWrite (evs ++ [.writeIt d, .registerId n]) := by
  intro j hj
  rw [List.length_append] at hj
  rcases Nat.lt_or_ge j evs.length with hlt | hge
  · rw [regAfterAt_append _ _ _ hlt]
    exact h j hlt
  · have hj2 : j = evs.length ∨ j = evs.length + 1 := by
      simp at hj
      omega
    rcases hj2 with h1 | h1
    · subst h1
      unfold regAfterAt
      rw [List.get?_append_right (Nat.le_refl _)]
      simp
    · subst h1
      unfold regAfterAt
      rw [List.get?_append_right (by omega : evs.length ≤ evs.length + 1)]
      have h2 : evs.length + 1 - evs.length = 1 := by omega
      rw [h2]
      have h3 : evs.length + 1 - 1 = evs.length := by omega
      simp only [List.get?, h3]
      rw [List.get?_append_right (Nat.le_refl _)]
      simp [hd]

theorem RegAfterWrite_append_nonreg (evs : List Event) (e : Event)
    (h : RegAfterWrite evs) (he : ∀ n, e ≠ .registerId n) :
    RegAfterWrite (evs ++ [e]) := by
  intro j hj
  rcases Nat.lt_or_ge j evs.length with hlt | hge
  · rw [regAfterAt_append _ _ _ hlt]
    exact h j hlt
  · have h1 : j = evs.length := by
      simp at hj
      omega
    subst h1
    unfold regAfterAt
    rw [List.get?_append_right (Nat.le_refl _)]
    simp only [Nat.sub_self, List.get?]
    match e, he with
    | .writeIt it, _ => rfl
    | .registerId n, he => exact absurd rfl (he n)
    | .warn s, _ => rfl


theorem processHandles_spec :
    ∀ l st, ∃ Δ, (processHandles l st).1.events = st.events ++ Δ ∧
      (∀ ev ∈ Δ, PlainDeclEv ev) ∧
      (RegAfterWrite st.events → RegAfterWrite ((processHandles l st).1.events)) := by
  intro l
  induction l with
  | nil =>
    intro st
    refine ⟨[], by simp [processHandles, gOk], ?_, ?_⟩
    · intro ev h
      cases h
    · intro h
      simpa [processHandles, gOk] using h
  | cons x rest ih =>
    intro st
    rcases htd : x.typeDescendants.head? with _ | td
    · refine ⟨[], by simp [processHandles, htd, gErr], ?_, ?_⟩
      · intro ev h
        cases h
      · intro h
        simpa [processHandles, htd, gErr] using h
    · rcases hnm : x.nameDescendants.head? with _ | nm
      · refine ⟨[], by simp [processHandles, htd, hnm, gErr], ?_, ?_⟩
        · intro ev h
          cases h
        · intro h
          simpa [processHandles, htd, hnm, gErr] using h
      · set ty := if td.1 == "VK_DEFINE_HANDLE" then "c_size_t" else "c_uint64" with hty
        set st₁ : GenState :=
          { events := st.events ++ [.writeIt (.handleDecl (removePfx nm) ty),
              .registerId (removePfx nm)],
            handleNames := st.handleNames ++ [removePfx nm] } with hst₁
        have hstep : processHandles (x :: rest) st = processHandles rest st₁ := by
          simp only [processHandles, htd, hnm]
          congr 1
          rw [hst₁]
          simp [registerId, emit, GenState.mk.injEq, hty, beq_iff_eq]
        rw [hstep]
        obtain ⟨Δ, hev, hkind, hpres⟩ := ih st₁
        refine ⟨[.writeIt (.handleDecl (removePfx nm) ty),
          .registerId (removePfx nm)] ++ Δ, ?_, ?_, ?_⟩
        · rw [hev, hst₁]
          simp
        · intro ev hevm
          rcases List.mem_append.mp hevm with h | h
          · rcases List.mem_cons.mp h with h1 | h1
            · rw [h1]
              refine ⟨?_, ?_⟩
              · intro b n ms bts hc
                cases hc
              · intro s hc
                cases hc
            · rcases List.mem_singleton.mp h1 with rfl
              refine ⟨?_, ?_⟩
              · intro b n ms bts hc
                cases hc
              · intro s hc
                cases hc
          · exact hkind ev h
        · intro hra
          refine hpres ?_
          rw [hst₁]
          exact RegAfterWrite_append_two st.events _ _ hra rfl


theorem plainDeclEv_pair (d : OutItem) (n : String)
    (hd : (∀ b nn ms bts, d ≠ .structDecl b nn ms bts) ∧ (∀ s, d ≠ .raw s)) :
    ∀ ev ∈ [Event.writeIt d, Event.registerId n], PlainDeclEv ev := by
  intro ev hev
  rcases List.mem_cons.mp hev with h1 | h1
  · rw [h1]
    refine ⟨?_, ?_⟩
    · intro b nn ms bts hc
      injection hc with h
      exact hd.1 b nn ms bts h
    · intro s hc
      injection hc with h
      exact hd.2 s h
  · rcases List.mem_singleton.mp h1 with rfl
    refine ⟨?_, ?_⟩
    · intro b nn ms bts hc
      cases hc
    · intro s hc
      cases hc

theorem processBasetypes_spec :
    ∀ l st, ∃ Δ, (processBasetypes l st).1.events = st.events ++ Δ ∧
      (∀ ev ∈ Δ, PlainDeclEv ev) ∧
      (RegAfterWrite st.events → RegAfterWrite ((processBasetypes l st).1.events)) := by
  intro l
  induction l with
  | nil =>
    intro st
    refine ⟨[], by simp [processBasetypes, gOk], ?_, ?_⟩
    · intro ev h
      cases h
    · intro h
      simpa [processBasetypes, gOk] using h
  | cons x rest ih =>
    intro st
    rcases htd : x.typeDescendants.head? with _ | td
    · refine ⟨[], by simp [processBasetypes, htd, gErr], ?_, ?_⟩
      · intro ev h
        cases h
      · intro h
        simpa [processBasetypes, htd, gErr] using h
    · rcases hnm : x.nameDescendants.head? with _ | nm
      · refine ⟨[], by simp [processBasetypes, htd, hnm, gErr], ?_, ?_⟩
        · intro ev h
          cases h
        · intro h
          simpa [processBasetypes, htd, hnm, gErr] using h
      · have hstep : processBasetypes (x :: rest) st = processBasetypes rest
            (registerId (emit st (.basetypeDecl (removePfx nm) (map_ctypes_elem td.1 td.2)))
              (removePfx nm)) := by
          simp only [processBasetypes, htd, hnm]
        rw [hstep]
        obtain ⟨Δ, hev, hkind, hpres⟩ := ih
          (registerId (emit st (.basetypeDecl (removePfx nm) (map_ctypes_elem td.1 td.2)))
            (removePfx nm))
        refine ⟨[.writeIt (.basetypeDecl (removePfx nm) (map_ctypes_elem td.1 td.2)),
          .registerId (removePfx nm)] ++ Δ, ?_, ?_, ?_⟩
        · rw [hev]
          simp [registerId, emit]
        · intro ev hevm
          rcases List.mem_append.mp hevm with h | h
          · refine plainDeclEv_pair _ _ ⟨?_, ?_⟩ ev h
            · intro b nn ms bts hc
              cases hc
            · intro s hc
              cases hc
          · exact hkind ev h
        · intro hra
          refine hpres ?_
          have h2 := RegAfterWrite_append_two st.events
            (.basetypeDecl (removePfx nm) (map_ctypes_elem td.1 td.2)) (removePfx nm) hra rfl
          simpa [registerId, emit, List.append_assoc] using h2

theorem processFlags_spec :
    ∀ l st, ∃ Δ, (processFlags l st).1.events = st.events ++ Δ ∧
      (∀ ev ∈ Δ, PlainDeclEv ev) ∧
      (RegAfterWrite st.events → RegAfterWrite ((processFlags l st).1.events)) := by
  intro l
  induction l with
  | nil =>
    intro st
    refine ⟨[], by simp [processFlags, gOk], ?_, ?_⟩
    · intro ev h
      cases h
    · intro h
      simpa [processFlags, gOk] using h
  | cons x rest ih =>
    intro st
    rcases hnm : x.nameDescendants.head? with _ | nm
    · refine ⟨[], by simp [processFlags, hnm, gErr], ?_, ?_⟩
      · intro ev h
        cases h
      · intro h
        simpa [processFlags, hnm, gErr] using h
    · have hstep : processFlags (x :: rest) st = processFlags rest
          (registerId (emit st (.flagDecl (removePfx nm))) (removePfx nm)) := by
        simp only [processFlags, hnm]
      rw [hstep]
      obtain ⟨Δ, hev, hkind, hpres⟩ := ih
        (registerId (emit st (.flagDecl (removePfx nm))) (removePfx nm))
      refine ⟨[.writeIt (.flagDecl (removePfx nm)), .registerId (removePfx nm)] ++ Δ, ?_, ?_, ?_⟩
      · rw [hev]
        simp [registerId, emit]
      · intro ev hevm
        rcases List.mem_append.mp hevm with h | h
        · refine plainDeclEv_pair _ _ ⟨?_, ?_⟩ ev h
          · intro b nn ms bts hc
            cases hc
          · intro s hc
            cases hc
        · exact hkind ev h
      · intro hra
        refine hpres ?_
        have h2 := RegAfterWrite_append_two st.events
          (.flagDecl (removePfx nm)) (removePfx nm) hra rfl
        simpa [registerId, emit, List.append_assoc] using h2

theorem processEnums_spec :
    ∀ l st, ∃ Δ, (processEnums l st).1.events = st.events ++ Δ ∧
      (∀ ev ∈ Δ, PlainDeclEv ev) ∧
      (RegAfterWrite st.events → RegAfterWrite ((processEnums l st).1.events)) := by
  intro l
  induction l with
  | nil =>
    intro st
    refine ⟨[], by simp [processEnums, gOk], ?_, ?_⟩
    · intro ev h
      cases h
    · intro h
      simpa [processEnums, gOk] using h
  | cons x rest ih =>
    intro st
    rcases hnm : x.nameAttr with _ | nm
    · refine ⟨[], by simp [processEnums, hnm, gErr], ?_, ?_⟩
      · intro ev h
        cases h
      · intro h
        simpa [processEnums, hnm, gErr] using h
    · rcases hml : processEnumMems x.members with _ | lines
      · refine ⟨[], by simp [processEnums, hnm, hml, gErr], ?_, ?_⟩
        · intro ev h
          cases h
        · intro h
          simpa [processEnums, hnm, hml, gErr] using h
      · have hstep : processEnums (x :: rest) st = processEnums rest
            (registerId (emit st (.enumDecl (removePfx (pyReplace nm " " "_")) lines))
              (removePfx (pyReplace nm " " "_"))) := by
          simp only [processEnums, hnm, hml]
        rw [hstep]
        obtain ⟨Δ, hev, hkind, hpres⟩ := ih
          (registerId (emit st (.enumDecl (removePfx (pyReplace nm " " "_")) lines))
            (removePfx (pyReplace nm " " "_")))
        refine ⟨[.writeIt (.enumDecl (removePfx (pyReplace nm " " "_")) lines),
          .registerId (removePfx (pyReplace nm " " "_"))] ++ Δ, ?_, ?_, ?_⟩
        · rw [hev]
          simp [registerId, emit]
        · intro ev hevm
          rcases List.mem_append.mp hevm with h | h
          · refine plainDeclEv_pair _ _ ⟨?_, ?_⟩ ev h
            · intro b nn ms bts hc
              cases hc
            · intro s hc
              cases hc
          · exact hkind ev h
        · intro hra
          refine hpres ?_
          have h2 := RegAfterWrite_append_two st.events
            (.enumDecl (removePfx (pyReplace nm " " "_")) lines)
            (removePfx (pyReplace nm " " "_")) hra rfl
          simpa [registerId, emit, List.append_assoc] using h2

theorem processFuncpointers_spec :
    ∀ l st, ∃ Δ, (processFuncpointers l st).1.events = st.events ++ Δ ∧
      (∀ ev ∈ Δ, PlainDeclEv ev) ∧
      (RegAfterWrite st.events → RegAfterWrite ((processFuncpointers l st).1.events)) := by
  intro l
  induction l with
  | nil =>
    intro st
    refine ⟨[], by simp [processFuncpointers, gOk], ?_, ?_⟩
    · intro ev h
      cases h
    · intro h
      simpa [processFuncpointers, gOk] using h
  | cons x rest ih =>
    intro st
    rcases hnm : x.nameDescendants.head? with _ | nm
    · refine ⟨[], by simp [processFuncpointers, hnm, gErr], ?_, ?_⟩
      · intro ev h
        cases h
      · intro h
        simpa [processFuncpointers, hnm, gErr] using h
    · rcases htx : x.text with _ | t
      · refine ⟨[], by simp [processFuncpointers, hnm, htx, gErr], ?_, ?_⟩
        · intro ev h
          cases h
        · intro h
          simpa [processFuncpointers, hnm, htx, gErr] using h
      · have hstep : processFuncpointers (x :: rest) st = processFuncpointers rest
            (registerId (emit st (.funcDecl (removePfx nm) (extract_return_type t)
              (String.join ((x.typeDescendants.map (fun td => map_ctypes_elem td.1 td.2)).map
                (fun a => a ++ ", "))))) (removePfx nm)) := by
          simp only [processFuncpointers, hnm, htx]
        rw [hstep]
        obtain ⟨Δ, hev, hkind, hpres⟩ := ih
          (registerId (emit st (.funcDecl (removePfx nm) (extract_return_type t)
            (String.join ((x.typeDescendants.map (fun td => map_ctypes_elem td.1 td.2)).map
              (fun a => a ++ ", "))))) (removePfx nm))
        refine ⟨[.writeIt (.funcDecl (removePfx nm) (extract_return_type t)
          (String.join ((x.typeDescendants.map (fun td => map_ctypes_elem td.1 td.2)).map
            (fun a => a ++ ", ")))), .registerId (removePfx nm)] ++ Δ, ?_, ?_, ?_⟩
        · rw [hev]
          simp [registerId, emit]
        · intro ev hevm
          rcases List.mem_append.mp hevm with h | h
          · refine plainDeclEv_pair _ _ ⟨?_, ?_⟩ ev h
            · intro b nn ms bts hc
              cases hc
            · intro s hc
              cases hc
          · exact hkind ev h
        · intro hra
          refine hpres ?_
          have h2 := RegAfterWrite_append_two st.events
            (.funcDecl (removePfx nm) (extract_return_type t)
              (String.join ((x.typeDescendants.map (fun td => map_ctypes_elem td.1 td.2)).map
                (fun a => a ++ ", ")))) (removePfx nm) hra rfl
          simpa [registerId, emit, List.append_assoc] using h2


theorem markersOf_raw_header (s : String) (h : s ∈ stageHeaders) :
    markersOf [.writeIt (.raw s)] = [s] := by
  simp [markersOf, h]

theorem markersOf_raw_nonheader (s : String) (h : s ∉ stageHeaders) :
    markersOf [.writeIt (.raw s)] = [] := by
  simp [markersOf, h]

/-- The facts about one pipeline stage shared by several claims: it
appends its banner then stage events, so the banner sequence grows by
exactly one, no struct/union declarations are added (except by the
structures stage, which gets its own treatment), and the positional
registry-timing invariants survive. -/
theorem stage_facts_derive (hdr : String) (hmem : hdr ∈ stageHeaders)
    (st : GenState) (res : GenState × Option GenErr) (Δ : List Event)
    (hev : res.1.events = st.events ++ (.writeIt (.raw hdr) :: Δ))
    (hns : ∀ ev ∈ Δ, ∀ b n ms bts, ev ≠ .writeIt (.structDecl b n ms bts))
    (hmk : markersOf Δ = []) :
    markersOf res.1.events = markersOf st.events ++ [hdr] ∧
    sdNames res.1.events = sdNames st.events ∧
    (TopoReg st.events → TopoReg res.1.events) ∧
    (SdRegBefore st.events → SdRegBefore res.1.events) := by
  have hfull : ∀ ev ∈ (Event.writeIt (.raw hdr) :: Δ),
      ∀ b n ms bts, ev ≠ .writeIt (.structDecl b n ms bts) := by
    intro ev hevm
    rcases List.mem_cons.mp hevm with h1 | h1
    · rw [h1]
      intro b n ms bts hc
      cases hc
    · exact hns ev h1
  refine ⟨?_, ?_, ?_, ?_⟩
  · rw [hev]
    have : Event.writeIt (.raw hdr) :: Δ = [Event.writeIt (.raw hdr)] ++ Δ := rfl
    rw [this, markersOf_append, markersOf_append, markersOf_raw_header hdr hmem, hmk]
    simp
  · rw [hev, sdNames_append, sdNames_eq_nil _ hfull]
    simp
  · intro h
    rw [hev]
    exact TopoReg_append_all _ _ h hfull
  · intro h
    rw [hev]
    exact SdRegBefore_append_all _ _ h hfull

theorem plain_nonstruct (Δ : List Event) (h : ∀ ev ∈ Δ, PlainDeclEv ev) :
    ∀ ev ∈ Δ, ∀ b n ms bts, ev ≠ .writeIt (.structDecl b n ms bts) :=
  fun ev hev => (h ev hev).1

theorem plain_markers (Δ : List Event) (h : ∀ ev ∈ Δ, PlainDeclEv ev) :
    markersOf Δ = [] := by
  apply markersOf_eq_nil
  intro ev hev
  exact (h ev hev).2


theorem parse_basetypes_delta (doc : VkDoc) (st : GenState) :
    ∃ Δ, (parse_basetypes doc st).1.events =
        st.events ++ (Event.writeIt (.raw "\n# BASETYPES\n\n") :: Δ) ∧
      (∀ ev ∈ Δ, ∀ b n ms bts, ev ≠ .writeIt (.structDecl b n ms bts)) ∧
      markersOf Δ = [] ∧
      (RegAfterWrite st.events → RegAfterWrite ((parse_basetypes doc st).1.events)) := by
  rw [parse_basetypes]
  obtain ⟨Δℓ, hev, hkind, hpres⟩ :=
    processBasetypes_spec (filter_types doc "basetype") (emit st (.raw "\n# BASETYPES\n\n"))
  have hra0 : RegAfterWrite st.events →
      RegAfterWrite (emit st (.raw "\n# BASETYPES\n\n")).events := by
    intro h
    rw [events_emit]
    refine RegAfterWrite_append_nonreg _ _ h ?_
    intro n hc
    cases hc
  rcases hres : processBasetypes (filter_types doc "basetype")
      (emit st (.raw "\n# BASETYPES\n\n")) with ⟨st₁, r₁⟩
  rw [hres] at hev hpres
  cases r₁ with
  | some err =>
    rw [show gbind (st₁, some err) (fun st => gOk (emit st (.raw "\n"))) =
      (st₁, some err) from rfl]
    refine ⟨Δℓ, ?_, plain_nonstruct _ hkind, plain_markers _ hkind, ?_⟩
    · rw [hev, events_emit, List.append_assoc]
      rfl
    · intro hra
      exact hpres (hra0 hra)
  | none =>
    rw [show gbind (st₁, none) (fun st => gOk (emit st (.raw "\n"))) =
      gOk (emit st₁ (.raw "\n")) from rfl]
    refine ⟨Δℓ ++ [Event.writeIt (.raw "\n")], ?_, ?_, ?_, ?_⟩
    · show (emit st₁ (.raw "\n")).events = _
      rw [events_emit, hev, events_emit]
      simp
    · intro ev hevm
      rcases List.mem_append.mp hevm with h | h
      · exact plain_nonstruct _ hkind ev h
      · rcases List.mem_singleton.mp h with rfl
        intro b n ms bts hc
        cases hc
    · rw [markersOf_append, plain_markers _ hkind, markersOf_raw_nonheader "\n" (by decide)]
      rfl
    · intro hra
      show RegAfterWrite (emit st₁ (.raw "\n")).events
      rw [events_emit]
      refine RegAfterWrite_append_nonreg _ _ (hpres (hra0 hra)) ?_
      intro n hc
      cases hc

theorem parse_handles_delta (doc : VkDoc) (st : GenState) :
    ∃ Δ, (parse_handles doc st).1.events =
        st.events ++ (Event.writeIt (.raw "\n# HANDLES\n\n") :: Δ) ∧
      (∀ ev ∈ Δ, ∀ b n ms bts, ev ≠ .writeIt (.structDecl b n ms bts)) ∧
      markersOf Δ = [] ∧
      (RegAfterWrite st.events → RegAfterWrite ((parse_handles doc st).1.events)) := by
  rw [parse_handles]
  obtain ⟨Δℓ, hev, hkind, hpres⟩ :=
    processHandles_spec (filter_types doc "handle") (emit st (.raw "\n# HANDLES\n\n"))
  have hra0 : RegAfterWrite st.events →
      RegAfterWrite (emit st (.raw "\n# HANDLES\n\n")).events := by
    intro h
    rw [events_emit]
    refine RegAfterWrite_append_nonreg _ _ h ?_
    intro n hc
    cases hc
  rcases hres : processHandles (filter_types doc "handle")
      (emit st (.raw "\n# HANDLES\n\n")) with ⟨st₁, r₁⟩
  rw [hres] at hev hpres
  cases r₁ with
  | some err =>
    rw [show gbind (st₁, some err) (fun st => gOk (emit st (.raw "\n"))) =
      (st₁, some err) from rfl]
    refine ⟨Δℓ, ?_, plain_nonstruct _ hkind, plain_markers _ hkind, ?_⟩
    · rw [hev, events_emit, List.append_assoc]
      rfl
    · intro hra
      exact hpres (hra0 hra)
  | none =>
    rw [show gbind (st₁, none) (fun st => gOk (emit st (.raw "\n"))) =
      gOk (emit st₁ (.raw "\n")) from rfl]
    refine ⟨Δℓ ++ [Event.writeIt (.raw "\n")], ?_, ?_, ?_, ?_⟩
    · show (emit st₁ (.raw "\n")).events = _
      rw [events_emit, hev, events_emit]
      simp
    · intro ev hevm
      rcases List.mem_append.mp hevm with h | h
      · exact plain_nonstruct _ hkind ev h
      · rcases List.mem_singleton.mp h with rfl
        intro b n ms bts hc
        cases hc
    · rw [markersOf_append, plain_markers _ hkind, markersOf_raw_nonheader "\n" (by decide)]
      rfl
    · intro hra
      show RegAfterWrite (emit st₁ (.raw "\n")).events
      rw [events_emit]
      refine RegAfterWrite_append_nonreg _ _ (hpres (hra0 hra)) ?_
      intro n hc
      cases hc

theorem parse_flags_delta (doc : VkDoc) (st : GenState) :
    ∃ Δ, (parse_flags doc st).1.events =
        st.events ++ (Event.writeIt (.raw "\n# FLAGS\n\n") :: Δ) ∧
      (∀ ev ∈ Δ, ∀ b n ms bts, ev ≠ .writeIt (.structDecl b n ms bts)) ∧
      markersOf Δ = [] ∧
      (RegAfterWrite st.events → RegAfterWrite ((parse_flags doc st).1.events)) := by
  rw [parse_flags]
  obtain ⟨Δℓ, hev, hkind, hpres⟩ :=
    processFlags_spec (filter_types doc "bitmask") (emit st (.raw "\n# FLAGS\n\n"))
  have hra0 : RegAfterWrite st.events →
      RegAfterWrite (emit st (.raw "\n# FLAGS\n\n")).events := by
    intro h
    rw [events_emit]
    refine RegAfterWrite_append_nonreg _ _ h ?_
    intro n hc
    cases hc
  rcases hres : processFlags (filter_types doc "bitmask")
      (emit st (.raw "\n# FLAGS\n\n")) with ⟨st₁, r₁⟩
  rw [hres] at hev hpres
  cases r₁ with
  | some err =>
    rw [show gbind (st₁, some err) (fun st => gOk (emit st (.raw "\n"))) =
      (st₁, some err) from rfl]
    refine ⟨Δℓ, ?_, plain_nonstruct _ hkind, plain_markers _ hkind, ?_⟩
    · rw [hev, events_emit, List.append_assoc]
      rfl
    · intro hra
      exact hpres (hra0 hra)
  | none =>
    rw [show gbind (st₁, none) (fun st => gOk (emit st (.raw "\n"))) =
      gOk (emit st₁ (.raw "\n")) from rfl]
    refine ⟨Δℓ ++ [Event.writeIt (.raw "\n")], ?_, ?_, ?_, ?_⟩
    · show (emit st₁ (.raw "\n")).events = _
      rw [events_emit, hev, events_emit]
      simp
    · intro ev hevm
      rcases List.mem_append.mp hevm with h | h
      · exact plain_nonstruct _ hkind ev h
      · rcases List.mem_singleton.mp h with rfl
        intro b n ms bts hc
        cases hc
    · rw [markersOf_append, plain_markers _ hkind, markersOf_raw_nonheader "\n" (by decide)]
      rfl
    · intro hra
      show RegAfterWrite (emit st₁ (.raw "\n")).events
      rw [events_emit]
      refine RegAfterWrite_append_nonreg _ _ (hpres (hra0 hra)) ?_
      intro n hc
      cases hc

theorem parse_enums_delta (doc : VkDoc) (st : GenState) :
    ∃ Δ, (parse_enums doc st).1.events =
        st.events ++ (Event.writeIt (.raw "# ENUMS\n\n") :: Δ) ∧
      (∀ ev ∈ Δ, ∀ b n ms bts, ev ≠ .writeIt (.structDecl b n ms bts)) ∧
      markersOf Δ = [] ∧
      (RegAfterWrite st.events → RegAfterWrite ((parse_enums doc st).1.events)) := by
  rw [parse_enums]
  obtain ⟨Δℓ, hev, hkind, hpres⟩ := processEnums_spec doc.enums (emit st (.raw "# ENUMS\n\n"))
  have hra0 : RegAfterWrite st.events →
      RegAfterWrite (emit st (.raw "# ENUMS\n\n")).events := by
    intro h
    rw [events_emit]
    refine RegAfterWrite_append_nonreg _ _ h ?_
    intro n hc
    cases hc
  refine ⟨Δℓ, ?_, plain_nonstruct _ hkind, plain_markers _ hkind, ?_⟩
  · rw [hev, events_emit, List.append_assoc]
    rfl
  · intro hra
    exact hpres (hra0 hra)

theorem parse_funcpointers_delta (doc : VkDoc) (st : GenState) :
    ∃ Δ, (parse_funcpointers doc st).1.events =
        st.events ++ (Event.writeIt (.raw "\n# FUNC POINTERS\n\n") :: Δ) ∧
      (∀ ev ∈ Δ, ∀ b n ms bts, ev ≠ .writeIt (.structDecl b n ms bts)) ∧
      markersOf Δ = [] ∧
      (RegAfterWrite st.events → RegAfterWrite ((parse_funcpointers doc st).1.events)) := by
  rw [parse_funcpointers]
  obtain ⟨Δℓ, hev, hkind, hpres⟩ :=
    processFuncpointers_spec (filter_types doc "funcpointer")
      (emit st (.raw "\n# FUNC POINTERS\n\n"))
  have hra0 : RegAfterWrite st.events →
      RegAfterWrite (emit st (.raw "\n# FUNC POINTERS\n\n")).events := by
    intro h
    rw [events_emit]
    refine RegAfterWrite_append_nonreg _ _ h ?_
    intro n hc
    cases hc
  rcases hres : processFuncpointers (filter_types doc "funcpointer")
      (emit st (.raw "\n# FUNC POINTERS\n\n")) with ⟨st₁, r₁⟩
  rw [hres] at hev hpres
  cases r₁ with
  | some err =>
    rw [show gbind (st₁, some err) (fun st => gOk (emit st (.raw "\n"))) =
      (st₁, some err) from rfl]
    refine ⟨Δℓ, ?_, plain_nonstruct _ hkind, plain_markers _ hkind, ?_⟩
    · rw [hev, events_emit, List.append_assoc]
      rfl
    · intro hra
      exact hpres (hra0 hra)
  | none =>
    rw [show gbind (st₁, none) (fun st => gOk (emit st (.raw "\n"))) =
      gOk (emit st₁ (.raw "\n")) from rfl]
    refine ⟨Δℓ ++ [Event.writeIt (.raw "\n")], ?_, ?_, ?_, ?_⟩
    · show (emit st₁ (.raw "\n")).events = _
      rw [events_emit, hev, events_emit]
      simp
    · intro ev hevm
      rcases List.mem_append.mp hevm with h | h
      · exact plain_nonstruct _ hkind ev h
      · rcases List.mem_singleton.mp h with rfl
        intro b n ms bts hc
        cases hc
    · rw [markersOf_append, plain_markers _ hkind, markersOf_raw_nonheader "\n" (by decide)]
      rfl
    · intro hra
      show RegAfterWrite (emit st₁ (.raw "\n")).events
      rw [events_emit]
      refine RegAfterWrite_append_nonreg _ _ (hpres (hra0 hra)) ?_
      intro n hc
      cases hc


theorem RegAfterWrite_append_all (Δ : List Event) : ∀ evs, RegAfterWrite evs →
    (∀ ev ∈ Δ, ∀ n, ev ≠ .registerId n) → RegAfterWrite (evs ++ Δ) := by
  induction Δ with
  | nil =>
    intro evs h _
    simpa using h
  | cons e rest ih =>
    intro evs h hΔ
    have he := hΔ e (List.mem_cons_self e rest)
    have hstep : RegAfterWrite (evs ++ [e]) := RegAfterWrite_append_nonreg evs e h he
    have hrec := ih (evs ++ [e]) hstep (fun ev hev => hΔ ev (List.mem_cons_of_mem e hev))
    simpa [List.append_assoc] using hrec

theorem writeGroups_events : ∀ gs st, (writeGroups gs st).events =
    st.events ++ gs.map (fun g => Event.writeIt (.cmdFamily g.1 g.2)) := by
  intro gs
  induction gs with
  | nil =>
    intro st
    simp [writeGroups]
  | cons g rest ih =>
    intro st
    rw [writeGroups, ih, events_emit]
    simp

theorem writeGroups_handleNames : ∀ gs st, (writeGroups gs st).handleNames = st.handleNames := by
  intro gs
  induction gs with
  | nil =>
    intro st
    simp [writeGroups]
  | cons g rest ih =>
    intro st
    rw [writeGroups, ih, handleNames_emit]

theorem parse_commands_delta (doc : VkDoc) (st : GenState) :
    ∃ Δ, (parse_commands doc st).1.events =
        st.events ++ (Event.writeIt (.raw "\n# FUNCTIONS \n\n") :: Δ) ∧
      (∀ ev ∈ Δ, ∀ b n ms bts, ev ≠ .writeIt (.structDecl b n ms bts)) ∧
      markersOf Δ = [] ∧
      (∀ ev ∈ Δ, ∀ n, ev ≠ .registerId n) := by
  rw [parse_commands]
  rcases hg : groupCommands (emit st (.raw "\n# FUNCTIONS \n\n")).handleNames
      doc.commands none [] with ⟨⟨gipa, gs⟩, rerr⟩
  have hkinds : ∀ ev ∈ gs.map (fun g => Event.writeIt (OutItem.cmdFamily g.1 g.2)),
      (∀ b n ms bts, ev ≠ Event.writeIt (.structDecl b n ms bts)) ∧
      (∀ s, ev ≠ Event.writeIt (.raw s)) ∧ (∀ n, ev ≠ Event.registerId n) := by
    intro ev hev
    rcases List.mem_map.mp hev with ⟨g, -, hg'⟩
    rw [← hg']
    refine ⟨?_, ?_, ?_⟩
    · intro b n ms bts hc
      cases hc
    · intro s hc
      cases hc
    · intro n hc
      cases hc
  cases rerr with
  | some err =>
    refine ⟨[], by simp [gErr, events_emit], ?_, rfl, ?_⟩
    · intro ev h
      cases h
    · intro ev h
      cases h
  | none =>
    cases gipa with
    | none =>
      refine ⟨gs.map (fun g => Event.writeIt (.cmdFamily g.1 g.2)), ?_, ?_, ?_, ?_⟩
      · show (writeGroups gs (emit st (.raw "\n# FUNCTIONS \n\n"))).events = _
        rw [writeGroups_events, events_emit]
        simp
      · intro ev hev
        exact (hkinds ev hev).1
      · exact markersOf_eq_nil _ (fun ev hev => (hkinds ev hev).2.1)
      · intro ev hev
        exact (hkinds ev hev).2.2
    | some g =>
      refine ⟨gs.map (fun gg => Event.writeIt (.cmdFamily gg.1 gg.2)) ++
        [Event.writeIt (.gipaDecl g.1 g.2.1 g.2.2)], ?_, ?_, ?_, ?_⟩
      · show (emit (writeGroups gs (emit st (.raw "\n# FUNCTIONS \n\n")))
          (.gipaDecl g.1 g.2.1 g.2.2)).events = _
        rw [events_emit, writeGroups_events, events_emit]
        simp
      · intro ev hev
        rcases List.mem_append.mp hev with h | h
        · exact (hkinds ev h).1
        · rcases List.mem_singleton.mp h with rfl
          intro b n ms bts hc
          cases hc
      · rw [markersOf_append, markersOf_eq_nil _ (fun ev hev => (hkinds ev hev).2.1)]
        rfl
      · intro ev hev
        rcases List.mem_append.mp hev with h | h
        · exact (hkinds ev h).2.2
        · rcases List.mem_singleton.mp h with rfl
          intro n hc
          cases hc

theorem processExtensions_delta :
    ∀ l st, ∃ Δ, (processExtensions l st).1.events = st.events ++ Δ ∧
      (∀ ev ∈ Δ, ∃ n ls, ev = Event.writeIt (.extBlock n ls)) := by
  intro l
  induction l with
  | nil =>
    intro st
    refine ⟨[], by simp [processExtensions, gOk], ?_⟩
    intro ev h
    cases h
  | cons x rest ih =>
    intro st
    rcases hh : x.requireMembers.head? with _ | fm
    · refine ⟨[], by simp [processExtensions, hh, gErr], ?_⟩
      intro ev h
      cases h
    · by_cases hv : fm.value == some "0"
      · have hstep : processExtensions (x :: rest) st = processExtensions rest st := by
          simp [processExtensions, hh, hv]
        rw [hstep]
        exact ih st
      · rcases hnum : x.number with _ | num
        · refine ⟨[], by simp [processExtensions, hh, hv, hnum, gErr], ?_⟩
          intro ev h
          cases h
        · rcases hml : processExtMems (1000000000 + ((num - 1) * 1000)) x.requireMembers
              with _ | lines
          · refine ⟨[], by simp [processExtensions, hh, hv, hnum, hml, gErr], ?_⟩
            intro ev h
            cases h
          · set nm := match x.nameAttr with
              | some n => n
              | none => "None" with hnm
            have hstep : processExtensions (x :: rest) st =
                processExtensions rest (emit st (.extBlock nm lines)) := by
              simp only [processExtensions, hh, hv, hnum, hml]
              rw [if_neg (by simpa using hv)]
            rw [hstep]
            obtain ⟨Δ, hev, hkind⟩ := ih (emit st (.extBlock nm lines))
            refine ⟨Event.writeIt (.extBlock nm lines) :: Δ, ?_, ?_⟩
            · rw [hev, events_emit]
              simp
            · intro ev hev'
              rcases List.mem_cons.mp hev' with h1 | h1
              · exact ⟨nm, lines, h1⟩
              · exact hkind ev h1

theorem parse_extensions_delta (doc : VkDoc) (st : GenState) :
    ∃ Δ, (parse_extensions doc st).1.events =
        st.events ++ (Event.writeIt (.raw "\n# EXTENSIONS \n\n") :: Δ) ∧
      (∀ ev ∈ Δ, ∀ b n ms bts, ev ≠ .writeIt (.structDecl b n ms bts)) ∧
      markersOf Δ = [] ∧
      (∀ ev ∈ Δ, ∀ n, ev ≠ .registerId n) := by
  rw [parse_extensions]
  obtain ⟨Δ, hev, hkind⟩ :=
    processExtensions_delta doc.extensions (emit st (.raw "\n# EXTENSIONS \n\n"))
  refine ⟨Δ, ?_, ?_, ?_, ?_⟩
  · rw [hev, events_emit, List.append_assoc]
    rfl
  · intro ev hevm
    obtain ⟨n, ls, h⟩ := hkind ev hevm
    rw [h]
    intro b nn ms bts hc
    cases hc
  · refine markersOf_eq_nil _ ?_
    intro ev hevm
    obtain ⟨n, ls, h⟩ := hkind ev hevm
    rw [h]
    intro s hc
    cases hc
  · intro ev hevm
    obtain ⟨n, ls, h⟩ := hkind ev hevm
    rw [h]
    intro n' hc
    cases hc


theorem ssev_not_raw (ev : Event) (h : SSEv ev) : ∀ s, ev ≠ .writeIt (.raw s) := by
  rcases h with ⟨b, n, ms, bts, rfl⟩ | ⟨n, rfl⟩ | ⟨s, rfl⟩ <;>
    · intro s' hc
      cases hc

theorem parse_structures_markers (doc : VkDoc) (st : GenState) :
    markersOf ((parse_structures_and_unions doc st).1.events) =
      markersOf st.events ++ ["\n# STRUCTURES\n\n"] := by
  obtain ⟨Δ, hev, hw, -⟩ := structs_stage_spec doc st
  rw [hev]
  have : Event.writeIt (.raw "\n# STRUCTURES\n\n") :: Δ =
      [Event.writeIt (.raw "\n# STRUCTURES\n\n")] ++ Δ := rfl
  rw [this, markersOf_append, markersOf_append,
    markersOf_raw_header _ (by decide), markersOf_eq_nil Δ (fun ev hev' => ssev_not_raw ev (hw.1 ev hev'))]
  simp

theorem rd_sdreg (doc : VkDoc)
    (recur : XmlType → Bool → GenState → GenState × Option GenErr)
    (hext : ∀ e b st, ∃ Δ, (recur e b st).1.events = st.events ++ Δ)
    (hrec : ∀ e b st, SdRegBefore st.events → SdRegBefore ((recur e b st).1.events)) :
    ∀ mems st, SdRegBefore st.events →
      SdRegBefore ((resolve_dependencies doc recur mems st).1.events) := by
  intro mems
  induction mems with
  | nil =>
    intro st h
    simpa [resolve_dependencies, gOk] using h
  | cons mem rest ih =>
    intro st h
    by_cases hmem : memBase mem ∈ st.reg
    · have hstep : resolve_dependencies doc recur (mem :: rest) st =
          resolve_dependencies doc recur rest st := by
        simp [resolve_dependencies, hmem]
      rw [hstep]
      exact ih st h
    · rcases hsF : (filter_types doc "struct").find?
          (fun x => x.nameAttr == some ("Vk" ++ memBase mem)) with _ | s
      · rcases huF : (filter_types doc "union").find?
            (fun x => x.nameAttr == some ("Vk" ++ memBase mem)) with _ | u
        · have hstep : resolve_dependencies doc recur (mem :: rest) st =
              resolve_dependencies doc recur rest
                (warn st (memBase mem ++ " was not found")) := by
            simp [resolve_dependencies, hmem, hsF, huF]
          rw [hstep]
          refine ih _ ?_
          rw [events_warn]
          refine SdRegBefore_append_one _ _ h ?_
          refine sdRegBeforeAt_last_nonstruct _ _ ?_
          intro b n ms bts hc
          cases hc
        · have hstep : resolve_dependencies doc recur (mem :: rest) st =
              gbind (recur u (false : Bool) st) (resolve_dependencies doc recur rest) := by
            simp [resolve_dependencies, hmem, hsF, huF, pyOr]
          rw [hstep]
          rcases hres : recur u false st with ⟨st₁, r₁⟩
          have h₁ : SdRegBefore st₁.events := by
            have := hrec u false st h
            rwa [hres] at this
          cases r₁ with
          | some err =>
            exact h₁
          | none =>
            exact ih st₁ h₁
      · rcases hpy : pyOr (some s) ((filter_types doc "union").find?
            (fun x => x.nameAttr == some ("Vk" ++ memBase mem))) with _ | chosen
        · have hstep : resolve_dependencies doc recur (mem :: rest) st =
              gErr st (.pyError "NoneType.get: empty struct, no union") := by
            simp [resolve_dependencies, hmem, hsF, hpy]
          rw [hstep]
          exact h
        · have hstep : resolve_dependencies doc recur (mem :: rest) st =
              gbind (recur chosen ((filter_types doc "union").find?
                  (fun x => x.nameAttr == some ("Vk" ++ memBase mem))).isNone st)
                (resolve_dependencies doc recur rest) := by
            simp [resolve_dependencies, hmem, hsF, hpy]
          rw [hstep]
          set bv := ((filter_types doc "union").find?
            (fun x => x.nameAttr == some ("Vk" ++ memBase mem))).isNone
          rcases hres : recur chosen bv st with ⟨st₁, r₁⟩
          have h₁ : SdRegBefore st₁.events := by
            have := hrec chosen bv st h
            rwa [hres] at this
          cases r₁ with
          | some err =>
            exact h₁
          | none =>
            exact ih st₁ h₁

theorem psoe_sdreg (doc : VkDoc) :
    ∀ f e b st, SdRegBefore st.events →
      SdRegBefore ((parse_struct_or_enum doc f e b st).1.events) := by
  intro f
  induction f with
  | zero =>
    intro e b st h
    simpa [parse_struct_or_enum, gErr] using h
  | succ f ih =>
    intro e b st h
    rcases hna : e.nameAttr with _ | nm
    · have hstep : parse_struct_or_enum doc (f + 1) e b st =
          gErr st (.pyError "struct.get name is None") := by
        simp [parse_struct_or_enum, hna]
      rw [hstep]
      exact h
    · by_cases hreg : removePfx nm ∈ st.reg
      · have hstep : parse_struct_or_enum doc (f + 1) e b st = gOk st := by
          simp [parse_struct_or_enum, hna, hreg]
        rw [hstep]
        exact h
      · have hstep : parse_struct_or_enum doc (f + 1) e b st =
            gbind (resolve_dependencies doc (parse_struct_or_enum doc f) e.members
              (registerId st (removePfx nm)))
              (fun st => gOk (emit st (.structDecl b (removePfx nm)
                (e.members.map parse_structure_member) (e.members.map memBase)))) := by
          simp [parse_struct_or_enum, hna, hreg]
        rw [hstep]
        have h₁ : SdRegBefore (registerId st (removePfx nm)).events := by
          rw [events_registerId]
          refine SdRegBefore_append_one _ _ h ?_
          refine sdRegBeforeAt_last_nonstruct _ _ ?_
          intro b' n' ms bts hc
          cases hc
        have hloop := rd_sdreg doc (parse_struct_or_enum doc f)
          (fun e' b' st' => (psoe_master doc f e' b' st').imp (fun Δ hΔ => hΔ.1))
          ih e.members (registerId st (removePfx nm)) h₁
        rcases hrd : resolve_dependencies doc (parse_struct_or_enum doc f) e.members
            (registerId st (removePfx nm)) with ⟨st₂, r₂⟩
        rw [hrd] at hloop
        obtain ⟨Δd, hevd, -, -, -⟩ := rd_master doc (parse_struct_or_enum doc f)
          (psoe_master doc f) e.members (registerId st (removePfx nm))
        rw [hrd] at hevd
        cases r₂ with
        | some err =>
          exact hloop
        | none =>
          show SdRegBefore (emit st₂ _).events
          rw [events_emit]
          refine SdRegBefore_append_one _ _ hloop ?_
          refine sdRegBeforeAt_last_struct _ _ _ _ _ ?_
          rw [hevd, events_registerId]
          exact List.mem_append_left _
            (List.mem_append_right _ (List.mem_singleton.mpr rfl))


/-- Resolvability of the document relative to a base registry `R0`:
every member base type of every struct/union entity is either locatable
among the declared structs/unions or already in `R0`. -/
def DocResolvable (doc : VkDoc) (R0 : List String) : Prop :=
  ∀ s ∈ suElems doc, ∀ m ∈ s.members,
    FindableName doc (memBase m) ∨ memBase m ∈ R0

theorem mem_suElems (doc : VkDoc) (x : XmlType) (hmem : x ∈ doc.types)
    (hcat : x.category = "struct" ∨ x.category = "union") : x ∈ suElems doc := by
  rw [suElems, List.mem_filter]
  refine ⟨hmem, ?_⟩
  rcases hcat with hc | hc <;> simp [hc]

theorem rd_topo (doc : VkDoc) (R0 : List String) (hdoc : DocResolvable doc R0)
    (recur : XmlType → Bool → GenState → GenState × Option GenErr)
    (hext : ∀ e b st, ∃ Δ, (recur e b st).1.events = st.events ++ Δ)
    (hrec : ∀ e b st, e ∈ suElems doc → (∀ x ∈ R0, x ∈ st.reg) → TopoReg st.events →
      TopoReg ((recur e b st).1.events)) :
    ∀ mems st, (∀ x ∈ R0, x ∈ st.reg) → TopoReg st.events →
      TopoReg ((resolve_dependencies doc recur mems st).1.events) := by
  intro mems
  induction mems with
  | nil =>
    intro st _ h
    simpa [resolve_dependencies, gOk] using h
  | cons mem rest ih =>
    intro st hR h
    by_cases hmem : memBase mem ∈ st.reg
    · have hstep : resolve_dependencies doc recur (mem :: rest) st =
          resolve_dependencies doc recur rest st := by
        simp [resolve_dependencies, hmem]
      rw [hstep]
      exact ih st hR h
    · rcases hsF : (filter_types doc "struct").find?
          (fun x => x.nameAttr == some ("Vk" ++ memBase mem)) with _ | s
      · rcases huF : (filter_types doc "union").find?
            (fun x => x.nameAttr == some ("Vk" ++ memBase mem)) with _ | u
        · have hstep : resolve_dependencies doc recur (mem :: rest) st =
              resolve_dependencies doc recur rest
                (warn st (memBase mem ++ " was not found")) := by
            simp [resolve_dependencies, hmem, hsF, huF]
          rw [hstep]
          refine ih _ (by simpa [reg_warn] using hR) ?_
          rw [events_warn]
          refine TopoReg_append_one _ _ h ?_
          refine topoAt_last_nonstruct _ _ ?_
          intro b n ms bts hc
          cases hc
        · have hstep : resolve_dependencies doc recur (mem :: rest) st =
              gbind (recur u (false : Bool) st) (resolve_dependencies doc recur rest) := by
            simp [resolve_dependencies, hmem, hsF, huF, pyOr]
          rw [hstep]
          obtain ⟨h1, h2, h3⟩ := findable_of_found doc (memBase mem) "union" u (Or.inr rfl) huF
          have hsu : u ∈ suElems doc := mem_suElems doc u h1 h2
          rcases hres : recur u false st with ⟨st₁, r₁⟩
          have h₁ : TopoReg st₁.events := by
            have := hrec u false st hsu hR h
            rwa [hres] at this
          have hR₁ : ∀ x ∈ R0, x ∈ st₁.reg := by
            obtain ⟨Δ, hΔ⟩ := hext u false st
            rw [hres] at hΔ
            rw [reg_of_events_append st st₁ Δ hΔ]
            exact fun x hx => List.mem_append_left _ (hR x hx)
          cases r₁ with
          | some err =>
            exact h₁
          | none =>
            exact ih st₁ hR₁ h₁
      · rcases hpy : pyOr (some s) ((filter_types doc "union").find?
            (fun x => x.nameAttr == some ("Vk" ++ memBase mem))) with _ | chosen
        · have hstep : resolve_dependencies doc recur (mem :: rest) st =
              gErr st (.pyError "NoneType.get: empty struct, no union") := by
            simp [resolve_dependencies, hmem, hsF, hpy]
          rw [hstep]
          exact h
        · have hchosen : chosen ∈ doc.types ∧
              (chosen.category = "struct" ∨ chosen.category = "union") := by
            rcases pyOr_eq_some _ _ _ hpy with hc | hc
            · injection hc with hc'
              obtain ⟨h1, h2, -⟩ := findable_of_found doc (memBase mem) "struct" s (Or.inl rfl) hsF
              exact ⟨hc' ▸ h1, hc' ▸ h2⟩
            · obtain ⟨h1, h2, -⟩ := findable_of_found doc (memBase mem) "union" chosen (Or.inr rfl) hc
              exact ⟨h1, h2⟩
          have hsu : chosen ∈ suElems doc := mem_suElems doc chosen hchosen.1 hchosen.2
          have hstep : resolve_dependencies doc recur (mem :: rest) st =
              gbind (recur chosen ((filter_types doc "union").find?
                  (fun x => x.nameAttr == some ("Vk" ++ memBase mem))).isNone st)
                (resolve_dependencies doc recur rest) := by
            simp [resolve_dependencies, hmem, hsF, hpy]
          rw [hstep]
          set bv := ((filter_types doc "union").find?
            (fun x => x.nameAttr == some ("Vk" ++ memBase mem))).isNone
          rcases hres : recur chosen bv st with ⟨st₁, r₁⟩
          have h₁ : TopoReg st₁.events := by
            have := hrec chosen bv st hsu hR h
            rwa [hres] at this
          have hR₁ : ∀ x ∈ R0, x ∈ st₁.reg := by
            obtain ⟨Δ, hΔ⟩ := hext chosen bv st
            rw [hres] at hΔ
            rw [reg_of_events_append st st₁ Δ hΔ]
            exact fun x hx => List.mem_append_left _ (hR x hx)
          cases r₁ with
          | some err =>
            exact h₁
          | none =>
            exact ih st₁ hR₁ h₁

theorem psoe_topo (doc : VkDoc) (R0 : List String) (hdoc : DocResolvable doc R0) :
    ∀ f e b st, e ∈ suElems doc → (∀ x ∈ R0, x ∈ st.reg) → TopoReg st.events →
      TopoReg ((parse_struct_or_enum doc f e b st).1.events) := by
  intro f
  induction f with
  | zero =>
    intro e b st _ _ h
    simpa [parse_struct_or_enum, gErr] using h
  | succ f ih =>
    intro e b st hsu hR h
    rcases hna : e.nameAttr with _ | nm
    · have hstep : parse_struct_or_enum doc (f + 1) e b st =
          gErr st (.pyError "struct.get name is None") := by
        simp [parse_struct_or_enum, hna]
      rw [hstep]
      exact h
    · by_cases hreg : removePfx nm ∈ st.reg
      · have hstep : parse_struct_or_enum doc (f + 1) e b st = gOk st := by
          simp [parse_struct_or_enum, hna, hreg]
        rw [hstep]
        exact h
      · have hstep : parse_struct_or_enum doc (f + 1) e b st =
            gbind (resolve_dependencies doc (parse_struct_or_enum doc f) e.members
              (registerId st (removePfx nm)))
              (fun st => gOk (emit st (.structDecl b (removePfx nm)
                (e.members.map parse_structure_member) (e.members.map memBase)))) := by
          simp [parse_struct_or_enum, hna, hreg]
        rw [hstep]
        have h₁ : TopoReg (registerId st (removePfx nm)).events := by
          rw [events_registerId]
          refine TopoReg_append_one _ _ h ?_
          refine topoAt_last_nonstruct _ _ ?_
          intro b' n' ms bts hc
          cases hc
        have hR₁ : ∀ x ∈ R0, x ∈ (registerId st (removePfx nm)).reg := by
          rw [reg_registerId]
          exact fun x hx => List.mem_append_left _ (hR x hx)
        have hloop := rd_topo doc R0 hdoc (parse_struct_or_enum doc f)
          (fun e' b' st' => (psoe_master doc f e' b' st').imp (fun Δ hΔ => hΔ.1))
          ih e.members (registerId st (removePfx nm)) hR₁ h₁
        obtain ⟨Δd, hevd, -, hpostd, -⟩ := rd_master doc (parse_struct_or_enum doc f)
          (psoe_master doc f) e.members (registerId st (removePfx nm))
        rcases hrd : resolve_dependencies doc (parse_struct_or_enum doc f) e.members
            (registerId st (removePfx nm)) with ⟨st₂, r₂⟩
        rw [hrd] at hloop hevd hpostd
        cases r₂ with
        | some err =>
          exact hloop
        | none =>
          show TopoReg (emit st₂ _).events
          rw [events_emit]
          refine TopoReg_append_one _ _ hloop ?_
          refine topoAt_last_struct _ _ _ _ _ ?_
          intro t ht
          rcases List.mem_map.mp ht with ⟨m, hm, rfl⟩
          have hcond : FindableName doc (memBase m) ∨
              memBase m ∈ (registerId st (removePfx nm)).reg := by
            rcases hdoc e hsu m hm with hf | hr0
            · exact Or.inl hf
            · exact Or.inr (hR₁ _ hr0)
          have := hpostd rfl m hm hcond
          rwa [GenState.reg] at this


theorem processStructs_sdreg (doc : VkDoc) :
    ∀ l st, SdRegBefore st.events → SdRegBefore ((processStructs doc l st).1.events) := by
  intro l
  induction l with
  | nil =>
    intro st h
    simpa [processStructs, gOk] using h
  | cons x rest ih =>
    intro st h
    have h₁ := psoe_sdreg doc (suFuel doc) x true st h
    rcases hres : parse_struct_or_enum doc (suFuel doc) x true st with ⟨st₁, r₁⟩
    rw [hres] at h₁
    have hstep : processStructs doc (x :: rest) st =
        gbind (st₁, r₁) (processStructs doc rest) := by
      rw [processStructs, hres]
    rw [hstep]
    cases r₁ with
    | some err =>
      exact h₁
    | none =>
      exact ih st₁ h₁

theorem parse_structures_sdreg (doc : VkDoc) (st : GenState) (h : SdRegBefore st.events) :
    SdRegBefore ((parse_structures_and_unions doc st).1.events) := by
  rw [parse_structures_and_unions]
  have h₀ : SdRegBefore (emit st (.raw "\n# STRUCTURES\n\n")).events := by
    rw [events_emit]
    refine SdRegBefore_append_one _ _ h ?_
    refine sdRegBeforeAt_last_nonstruct _ _ ?_
    intro b n ms bts hc
    cases hc
  have h₁ := processStructs_sdreg doc (filter_types doc "struct")
    (emit st (.raw "\n# STRUCTURES\n\n")) h₀
  rcases hres : processStructs doc (filter_types doc "struct")
      (emit st (.raw "\n# STRUCTURES\n\n")) with ⟨st₁, r₁⟩
  rw [hres] at h₁
  cases r₁ with
  | some err =>
    exact h₁
  | none =>
    exact processStructs_sdreg doc (filter_types doc "union") st₁ h₁

theorem processStructs_topo (doc : VkDoc) (R0 : List String) (hdoc : DocResolvable doc R0) :
    ∀ l st, (∀ x ∈ l, x ∈ suElems doc) → (∀ x ∈ R0, x ∈ st.reg) → TopoReg st.events →
      TopoReg ((processStructs doc l st).1.events) := by
  intro l
  induction l with
  | nil =>
    intro st _ _ h
    simpa [processStructs, gOk] using h
  | cons x rest ih =>
    intro st hl hR h
    have h₁ := psoe_topo doc R0 hdoc (suFuel doc) x true st
      (hl x (List.mem_cons_self x rest)) hR h
    obtain ⟨Δ, hev, -, -, -⟩ := psoe_master doc (suFuel doc) x true st
    rcases hres : parse_struct_or_enum doc (suFuel doc) x true st with ⟨st₁, r₁⟩
    rw [hres] at h₁ hev
    have hstep : processStructs doc (x :: rest) st =
        gbind (st₁, r₁) (processStructs doc rest) := by
      rw [processStructs, hres]
    rw [hstep]
    cases r₁ with
    | some err =>
      exact h₁
    | none =>
      refine ih st₁ (fun y hy => hl y (List.mem_cons_of_mem x hy)) ?_ h₁
      rw [reg_of_events_append st st₁ Δ hev]
      exact fun x' hx => List.mem_append_left _ (hR x' hx)

theorem parse_structures_topo (doc : VkDoc) (R0 : List String) (hdoc : DocResolvable doc R0)
    (st : GenState) (hR : ∀ x ∈ R0, x ∈ st.reg) (h : TopoReg st.events) :
    TopoReg ((parse_structures_and_unions doc st).1.events) := by
  rw [parse_structures_and_unions]
  have hfil : ∀ cat, (cat = "struct" ∨ cat = "union") →
      ∀ x ∈ filter_types doc cat, x ∈ suElems doc := by
    intro cat hcat x hx
    rw [filter_types, List.mem_filter] at hx
    refine mem_suElems doc x hx.1 ?_
    rcases hcat with hc | hc
    · exact Or.inl (by rw [← hc]; simpa using hx.2)
    · exact Or.inr (by rw [← hc]; simpa using hx.2)
  have h₀ : TopoReg (emit st (.raw "\n# STRUCTURES\n\n")).events := by
    rw [events_emit]
    refine TopoReg_append_one _ _ h ?_
    refine topoAt_last_nonstruct _ _ ?_
    intro b n ms bts hc
    cases hc
  have hR₀ : ∀ x ∈ R0, x ∈ (emit st (.raw "\n# STRUCTURES\n\n")).reg := by
    rw [reg_emit]
    exact hR
  have h₁ := processStructs_topo doc R0 hdoc (filter_types doc "struct")
    (emit st (.raw "\n# STRUCTURES\n\n")) (hfil "struct" (Or.inl rfl)) hR₀ h₀
  obtain ⟨Δ₁, hev₁, -, -⟩ := processStructs_spec doc (filter_types doc "struct")
    (emit st (.raw "\n# STRUCTURES\n\n"))
  rcases hres : processStructs doc (filter_types doc "struct")
      (emit st (.raw "\n# STRUCTURES\n\n")) with ⟨st₁, r₁⟩
  rw [hres] at h₁ hev₁
  cases r₁ with
  | some err =>
    exact h₁
  | none =>
    refine processStructs_topo doc R0 hdoc (filter_types doc "union") st₁
      (hfil "union" (Or.inr rfl)) ?_ h₁
    rw [reg_of_events_append _ st₁ Δ₁ hev₁, reg_emit]
    exact fun x hx => List.mem_append_left _ (hR x hx)


instance (evs : List Event) : Decidable (TopoReg evs) :=
  Nat.decidableBallLT evs.length (fun j _ => topoAt evs j = true)

instance (evs : List Event) : Decidable (TopoDecl evs) :=
  Nat.decidableBallLT evs.length (fun j _ => topoDeclAt evs j = true)

instance (evs : List Event) : Decidable (SdRegBefore evs) :=
  Nat.decidableBallLT evs.length (fun j _ => sdRegBeforeAt evs j = true)

instance (evs : List Event) : Decidable (RegAfterWrite evs) :=
  Nat.decidableBallLT evs.length (fun j _ => regAfterAt evs j = true)

theorem pipelinePreStructs_facts (doc : VkDoc) :
    (∃ k, k ≤ 5 ∧ markersOf (pipelinePreStructs doc).1.events = stageHeaders.take k ∧
      ((pipelinePreStructs doc).2 = none → k = 5)) ∧
    sdNames (pipelinePreStructs doc).1.events = [] ∧
    TopoReg (pipelinePreStructs doc).1.events ∧
    SdRegBefore (pipelinePreStructs doc).1.events ∧
    RegAfterWrite (pipelinePreStructs doc).1.events := by
  rw [pipelinePreStructs]
  set st0 := add_initialization (add_imports initState) with hst0
  have hm0 : markersOf st0.events = [] := by decide
  have hsd0 : sdNames st0.events = [] := by decide
  have htp0 : TopoReg st0.events := by decide
  have hsr0 : SdRegBefore st0.events := by decide
  have hra0 : RegAfterWrite st0.events := by decide
  -- basetypes
  obtain ⟨Δb, hevb, hnsb, hmkb, hrab⟩ := parse_basetypes_delta doc st0
  obtain ⟨hmb, hsdb, htpb, hsrb⟩ := stage_facts_derive _ (by decide) st0 _ Δb hevb hnsb hmkb
  rcases hres1 : parse_basetypes doc st0 with ⟨st1, r1⟩
  rw [hres1] at hmb hsdb htpb hsrb hrab
  rw [hm0] at hmb
  rw [hsd0] at hsdb
  cases r1 with
  | some err =>
    rw [show gbind (st1, some err) _ = (st1, some err) from rfl]
    refine ⟨⟨1, by omega, by rw [hmb]; rfl, ?_⟩, hsdb, htpb htp0, hsrb hsr0, hrab hra0⟩
    intro hc
    cases hc
  | none =>
    rw [show gbind (st1, none) (fun st =>
      gbind (parse_handles doc st) (fun st =>
      gbind (parse_flags doc st) (fun st =>
      gbind (parse_enums doc st) (fun st =>
      parse_funcpointers doc st)))) = (gbind (parse_handles doc st1) (fun st =>
      gbind (parse_flags doc st) (fun st =>
      gbind (parse_enums doc st) (fun st =>
      parse_funcpointers doc st)))) from rfl]
    have htp1 := htpb htp0
    have hsr1 := hsrb hsr0
    have hra1 := hrab hra0
    -- handles
    obtain ⟨Δh, hevh, hnsh, hmkh, hrah⟩ := parse_handles_delta doc st1
    obtain ⟨hmh, hsdh, htph, hsrh⟩ := stage_facts_derive _ (by decide) st1 _ Δh hevh hnsh hmkh
    rcases hres2 : parse_handles doc st1 with ⟨st2, r2⟩
    rw [hres2] at hmh hsdh htph hsrh hrah
    rw [hmb] at hmh
    rw [hsdb] at hsdh
    cases r2 with
    | some err =>
      rw [show gbind (st2, some err) _ = (st2, some err) from rfl]
      refine ⟨⟨2, by omega, by rw [hmh]; rfl, ?_⟩, hsdh, htph htp1, hsrh hsr1, hrah hra1⟩
      intro hc
      cases hc
    | none =>
      rw [show gbind (st2, none) (fun st =>
        gbind (parse_flags doc st) (fun st =>
        gbind (parse_enums doc st) (fun st =>
        parse_funcpointers doc st))) = (gbind (parse_flags doc st2) (fun st =>
        gbind (parse_enums doc st) (fun st =>
        parse_funcpointers doc st))) from rfl]
      have htp2 := htph htp1
      have hsr2 := hsrh hsr1
      have hra2 := hrah hra1
      -- flags
      obtain ⟨Δf, hevf, hnsf, hmkf, hraf⟩ := parse_flags_delta doc st2
      obtain ⟨hmf, hsdf, htpf, hsrf⟩ := stage_facts_derive _ (by decide) st2 _ Δf hevf hnsf hmkf
      rcases hres3 : parse_flags doc st2 with ⟨st3, r3⟩
      rw [hres3] at hmf hsdf htpf hsrf hraf
      rw [hmh] at hmf
      rw [hsdh] at hsdf
      cases r3 with
      | some err =>
        rw [show gbind (st3, some err) _ = (st3, some err) from rfl]
        refine ⟨⟨3, by omega, by rw [hmf]; rfl, ?_⟩, hsdf, htpf htp2, hsrf hsr2, hraf hra2⟩
        intro hc
        cases hc
      | none =>
        rw [show gbind (st3, none) (fun st =>
          gbind (parse_enums doc st) (fun st =>
          parse_funcpointers doc st)) = (gbind (parse_enums doc st3) (fun st =>
          parse_funcpointers doc st)) from rfl]
        have htp3 := htpf htp2
        have hsr3 := hsrf hsr2
        have hra3 := hraf hra2
        -- enums
        obtain ⟨Δe, heve, hnse, hmke, hrae⟩ := parse_enums_delta doc st3
        obtain ⟨hme, hsde, htpe, hsre⟩ := stage_facts_derive _ (by decide) st3 _ Δe heve hnse hmke
        rcases hres4 : parse_enums doc st3 with ⟨st4, r4⟩
        rw [hres4] at hme hsde htpe hsre hrae
        rw [hmf] at hme
        rw [hsdf] at hsde
        cases r4 with
        | some err =>
          rw [show gbind (st4, some err) _ = (st4, some err) from rfl]
          refine ⟨⟨4, by omega, by rw [hme]; rfl, ?_⟩, hsde, htpe htp3, hsre hsr3, hrae hra3⟩
          intro hc
          cases hc
        | none =>
          rw [show gbind (st4, none) (fun st => parse_funcpointers doc st) =
            parse_funcpointers doc st4 from rfl]
          have htp4 := htpe htp3
          have hsr4 := hsre hsr3
          have hra4 := hrae hra3
          -- funcpointers
          obtain ⟨Δp, hevp, hnsp, hmkp, hrap⟩ := parse_funcpointers_delta doc st4
          obtain ⟨hmp, hsdp, htpp, hsrp⟩ :=
            stage_facts_derive _ (by decide) st4 _ Δp hevp hnsp hmkp
          rw [hme] at hmp
          rw [hsde] at hsdp
          exact ⟨⟨5, by omega, by rw [hmp]; rfl, fun _ => rfl⟩, hsdp,
            htpp htp4, hsrp hsr4, hrap hra4⟩


theorem add_post_facts (st : GenState) :
    markersOf (add_post_initialization st).events = markersOf st.events ∧
    sdNames (add_post_initialization st).events = sdNames st.events ∧
    (SdRegBefore st.events → SdRegBefore (add_post_initialization st).events) ∧
    (TopoReg st.events → TopoReg (add_post_initialization st).events) := by
  rw [add_post_initialization]
  refine ⟨?_, ?_, ?_, ?_⟩
  · rw [events_emit, markersOf_append,
      markersOf_raw_nonheader "<post initialization boilerplate>" (by decide)]
    simp
  · rw [events_emit, sdNames_append]
    simp [sdNames]
  · intro h
    rw [events_emit]
    refine SdRegBefore_append_one _ _ h ?_
    refine sdRegBeforeAt_last_nonstruct _ _ ?_
    intro b n ms bts hc
    cases hc
  · intro h
    rw [events_emit]
    refine TopoReg_append_one _ _ h ?_
    refine topoAt_last_nonstruct _ _ ?_
    intro b n ms bts hc
    cases hc

theorem exportDoc_facts (doc : VkDoc) :
    (∃ k, k ≤ 8 ∧ markersOf (exportDoc doc).1.events = stageHeaders.take k ∧
      ((exportDoc doc).2 = none → k = 8)) ∧
    (sdNames (exportDoc doc).1.events).Nodup ∧
    SdRegBefore (exportDoc doc).1.events := by
  rw [exportDoc]
  obtain ⟨⟨k0, hk0le, hk0m, hk0ok⟩, hsd0, htp0, hsr0, hra0⟩ := pipelinePreStructs_facts doc
  rcases hpre : pipelinePreStructs doc with ⟨st0, r0⟩
  rw [hpre] at hk0m hk0ok hsd0 htp0 hsr0 hra0
  cases r0 with
  | some err =>
    rw [show gbind (st0, some err) _ = (st0, some err) from rfl]
    refine ⟨⟨k0, by omega, hk0m, ?_⟩, by rw [hsd0]; exact List.nodup_nil, hsr0⟩
    intro hc
    cases hc
  | none =>
    have hk05 : k0 = 5 := hk0ok rfl
    subst hk05
    rw [show gbind (st0, none) (fun st =>
      gbind (parse_structures_and_unions doc st) (fun st =>
      gbind (parse_commands doc st) (fun st =>
      gbind (parse_extensions doc st) (fun st =>
      gOk (add_post_initialization st))))) =
      gbind (parse_structures_and_unions doc st0) (fun st =>
      gbind (parse_commands doc st) (fun st =>
      gbind (parse_extensions doc st) (fun st =>
      gOk (add_post_initialization st)))) from rfl]
    -- structures stage
    obtain ⟨Δs, hevs, hws, -⟩ := structs_stage_spec doc st0
    have hms := parse_structures_markers doc st0
    have hsrs := parse_structures_sdreg doc st0 hsr0
    have hsds : sdNames (parse_structures_and_unions doc st0).1.events = sdNames Δs := by
      rw [hevs]
      have : Event.writeIt (.raw "\n# STRUCTURES\n\n") :: Δs =
          [Event.writeIt (.raw "\n# STRUCTURES\n\n")] ++ Δs := rfl
      rw [this, sdNames_append, sdNames_append, hsd0]
      simp [sdNames]
    have hndp : (sdNames Δs).Nodup := hws.2.2.2.2
    rw [hk0m] at hms
    rcases hres1 : parse_structures_and_unions doc st0 with ⟨st1, r1⟩
    rw [hres1] at hms hsrs hsds
    cases r1 with
    | some err =>
      rw [show gbind (st1, some err) _ = (st1, some err) from rfl]
      refine ⟨⟨6, by omega, by rw [hms]; rfl, ?_⟩, by rw [hsds]; exact hndp, hsrs⟩
      intro hc
      cases hc
    | none =>
      rw [show gbind (st1, none) (fun st =>
        gbind (parse_commands doc st) (fun st =>
        gbind (parse_extensions doc st) (fun st =>
        gOk (add_post_initialization st)))) =
        gbind (parse_commands doc st1) (fun st =>
        gbind (parse_extensions doc st) (fun st =>
        gOk (add_post_initialization st))) from rfl]
      -- commands stage
      obtain ⟨Δc, hevc, hnsc, hmkc, -⟩ := parse_commands_delta doc st1
      obtain ⟨hmc, hsdc, htpc, hsrc⟩ :=
        stage_facts_derive _ (by decide) st1 _ Δc hevc hnsc hmkc
      rw [hms] at hmc
      rw [hsds] at hsdc
      rcases hres2 : parse_commands doc st1 with ⟨st2, r2⟩
      rw [hres2] at hmc hsdc htpc hsrc
      cases r2 with
      | some err =>
        rw [show gbind (st2, some err) _ = (st2, some err) from rfl]
        refine ⟨⟨7, by omega, by rw [hmc]; rfl, ?_⟩, by rw [hsdc]; exact hndp, hsrc hsrs⟩
        intro hc
        cases hc
      | none =>
        rw [show gbind (st2, none) (fun st =>
          gbind (parse_extensions doc st) (fun st =>
          gOk (add_post_initialization st))) =
          gbind (parse_extensions doc st2) (fun st =>
          gOk (add_post_initialization st)) from rfl]
        -- extensions stage
        obtain ⟨Δx, hevx, hnsx, hmkx, -⟩ := parse_extensions_delta doc st2
        obtain ⟨hmx, hsdx, htpx, hsrx⟩ :=
          stage_facts_derive _ (by decide) st2 _ Δx hevx hnsx hmkx
        rw [hmc] at hmx
        rw [hsdc] at hsdx
        rcases hres3 : parse_extensions doc st2 with ⟨st3, r3⟩
        rw [hres3] at hmx hsdx htpx hsrx
        cases r3 with
        | some err =>
          rw [show gbind (st3, some err) _ = (st3, some err) from rfl]
          refine ⟨⟨8, by omega, by rw [hmx]; rfl, ?_⟩, by rw [hsdx]; exact hndp,
            hsrx (hsrc hsrs)⟩
          intro hc
          cases hc
        | none =>
          rw [show gbind (st3, none) (fun st => gOk (add_post_initialization st)) =
            gOk (add_post_initialization st3) from rfl]
          obtain ⟨hpm, hpsd, hpsr, -⟩ := add_post_facts st3
          refine ⟨⟨8, by omega, ?_, fun _ => rfl⟩, ?_, hpsr (hsrx (hsrc hsrs))⟩
          · show markersOf (add_post_initialization st3).events = _
            rw [hpm, hmx]
            rfl
          · show (sdNames (add_post_initialization st3).events).Nodup
            rw [hpsd, hsdx]
            exact hndp


theorem exportDoc_topo (doc : VkDoc) (st0 : GenState)
    (hpre : pipelinePreStructs doc = (st0, none))
    (hdoc : DocResolvable doc st0.reg) :
    TopoReg (exportDoc doc).1.events := by
  rw [exportDoc, hpre]
  obtain ⟨-, -, htp0, -, -⟩ := pipelinePreStructs_facts doc
  rw [hpre] at htp0
  rw [show gbind (st0, none) (fun st =>
    gbind (parse_structures_and_unions doc st) (fun st =>
    gbind (parse_commands doc st) (fun st =>
    gbind (parse_extensions doc st) (fun st =>
    gOk (add_post_initialization st))))) =
    gbind (parse_structures_and_unions doc st0) (fun st =>
    gbind (parse_commands doc st) (fun st =>
    gbind (parse_extensions doc st) (fun st =>
    gOk (add_post_initialization st)))) from rfl]
  have htps := parse_structures_topo doc st0.reg hdoc st0 (fun x hx => hx) htp0
  rcases hres1 : parse_structures_and_unions doc st0 with ⟨st1, r1⟩
  rw [hres1] at htps
  cases r1 with
  | some err =>
    exact htps
  | none =>
    rw [show gbind (st1, none) (fun st =>
      gbind (parse_commands doc st) (fun st =>
      gbind (parse_extensions doc st) (fun st =>
      gOk (add_post_initialization st)))) =
      gbind (parse_commands doc st1) (fun st =>
      gbind (parse_extensions doc st) (fun st =>
      gOk (add_post_initialization st))) from rfl]
    obtain ⟨Δc, hevc, hnsc, hmkc, -⟩ := parse_commands_delta doc st1
    obtain ⟨-, -, htpc, -⟩ := stage_facts_derive _ (by decide) st1 _ Δc hevc hnsc hmkc
    rcases hres2 : parse_commands doc st1 with ⟨st2, r2⟩
    rw [hres2] at htpc
    cases r2 with
    | some err =>
      exact htpc htps
    | none =>
      rw [show gbind (st2, none) (fun st =>
        gbind (parse_extensions doc st) (fun st =>
        gOk (add_post_initialization st))) =
        gbind (parse_extensions doc st2) (fun st =>
        gOk (add_post_initialization st)) from rfl]
      obtain ⟨Δx, hevx, hnsx, hmkx, -⟩ := parse_extensions_delta doc st2
      obtain ⟨-, -, htpx, -⟩ := stage_facts_derive _ (by decide) st2 _ Δx hevx hnsx hmkx
      rcases hres3 : parse_extensions doc st2 with ⟨st3, r3⟩
      rw [hres3] at htpx
      cases r3 with
      | some err =>
        exact htpx (htpc htps)
      | none =>
        rw [show gbind (st3, none) (fun st => gOk (add_post_initialization st)) =
          gOk (add_post_initialization st3) from rfl]
        obtain ⟨-, -, -, hptp⟩ := add_post_facts st3
        exact hptp (htpx (htpc htps))


/-- Membership of a command definition in the family list of key `k`. -/
def memGroups (gs : List (String × List CmdDef)) (k : String) (d : CmdDef) : Prop :=
  ∃ pr ∈ gs, pr.1 = k ∧ d ∈ pr.2

/-- The concatenation of all family lists, in family order. -/
def groupsFlatten : List (String × List CmdDef) → List CmdDef
  | [] => []
  | g :: rest => g.2 ++ groupsFlatten rest

theorem mapUpdate_id (gs : List (String × List CmdDef)) (k : String) (c : CmdDef)
    (h : ∀ pr ∈ gs, pr.1 ≠ k) :
    gs.map (fun p => if p.1 == k then (p.1, p.2 ++ [c]) else p) = gs := by
  induction gs with
  | nil => rfl
  | cons g rest ih =>
    have hg := h g (List.mem_cons_self g rest)
    rw [List.map_cons, if_neg (by simpa using hg),
      ih (fun pr hpr => h pr (List.mem_cons_of_mem g hpr))]

theorem update_flatten_perm (k : String) (c : CmdDef) :
    ∀ gs : List (String × List CmdDef), (gs.map Prod.fst).Nodup →
    gs.any (fun p => p.1 == k) = true →
    (groupsFlatten (gs.map (fun p => if p.1 == k then (p.1, p.2 ++ [c]) else p))).Perm
      (c :: groupsFlatten gs) := by
  intro gs
  induction gs with
  | nil =>
    intro _ h
    cases h
  | cons g rest ih =>
    intro hnd hany
    rw [List.map_cons, List.nodup_cons] at hnd
    by_cases hg : g.1 == k
    · rw [List.map_cons, if_pos hg]
      have hkr : ∀ pr ∈ rest, pr.1 ≠ k := by
        intro pr hpr hc
        apply hnd.1
        have hgk : g.1 = k := by simpa using hg
        rw [hgk, ← hc]
        exact List.mem_map_of_mem Prod.fst hpr
      rw [mapUpdate_id rest k c hkr]
      show ((g.2 ++ [c]) ++ groupsFlatten rest).Perm (c :: (g.2 ++ groupsFlatten rest))
      rw [List.append_assoc]
      show (g.2 ++ c :: groupsFlatten rest).Perm _
      exact List.perm_middle
    · rw [List.map_cons, if_neg hg]
      have hany2 : rest.any (fun p => p.1 == k) = true := by
        rw [List.any_cons] at hany
        simpa [hg] using hany
      have hperm := ih hnd.2 hany2
      show (g.2 ++ groupsFlatten (rest.map
        (fun p => if p.1 == k then (p.1, p.2 ++ [c]) else p))).Perm
        (c :: (g.2 ++ groupsFlatten rest))
      refine List.Perm.trans (List.Perm.append_left g.2 hperm) ?_
      exact List.perm_middle

theorem groupsFlatten_append (a b : List (String × List CmdDef)) :
    groupsFlatten (a ++ b) = groupsFlatten a ++ groupsFlatten b := by
  induction a with
  | nil => rfl
  | cons g rest ih =>
    show g.2 ++ groupsFlatten (rest ++ b) = (g.2 ++ groupsFlatten rest) ++ groupsFlatten b
    rw [ih, List.append_assoc]

theorem groupsInsert_flatten_perm (gs : List (String × List CmdDef)) (k : String) (c : CmdDef)
    (hnd : (gs.map Prod.fst).Nodup) :
    (groupsFlatten (groupsInsert gs k c)).Perm (c :: groupsFlatten gs) := by
  rw [groupsInsert]
  by_cases hany : gs.any (fun p => p.1 == k) = true
  · rw [if_pos hany]
    exact update_flatten_perm k c gs hnd hany
  · rw [if_neg hany, groupsFlatten_append]
    show (groupsFlatten gs ++ (c :: [] ++ groupsFlatten [])).Perm _
    show (groupsFlatten gs ++ [c]).Perm _
    exact List.perm_append_singleton c _

theorem groupsInsert_keys (gs : List (String × List CmdDef)) (k : String) (c : CmdDef) :
    ∀ kk ∈ (groupsInsert gs k c).map Prod.fst, kk ∈ gs.map Prod.fst ∨ kk = k := by
  intro kk hkk
  rw [groupsInsert] at hkk
  by_cases hany : gs.any (fun p => p.1 == k) = true
  · rw [if_pos hany, List.map_map] at hkk
    rcases List.mem_map.mp hkk with ⟨p, hp, hfst⟩
    left
    have hcomp : (Prod.fst ∘ fun p => if p.1 == k then (p.1, p.2 ++ [c]) else p) p = p.1 := by
      by_cases hpk : p.1 == k
      · simp only [Function.comp_apply, if_pos hpk]
      · simp only [Function.comp_apply, if_neg hpk]
    rw [hcomp] at hfst
    rw [← hfst]
    exact List.mem_map_of_mem Prod.fst hp
  · rw [if_neg hany, List.map_append] at hkk
    rcases List.mem_append.mp hkk with h | h
    · exact Or.inl h
    · rcases List.mem_singleton.mp h with rfl
      exact Or.inr rfl

theorem groupsInsert_keys_nodup (gs : List (String × List CmdDef)) (k : String) (c : CmdDef)
    (hnd : (gs.map Prod.fst).Nodup) : ((groupsInsert gs k c).map Prod.fst).Nodup := by
  rw [groupsInsert]
  by_cases hany : gs.any (fun p => p.1 == k) = true
  · rw [if_pos hany]
    have heq : (gs.map (fun p => if p.1 == k then (p.1, p.2 ++ [c]) else p)).map Prod.fst =
        gs.map Prod.fst := by
      rw [List.map_map]
      refine List.map_congr_left ?_
      intro p _
      by_cases hpk : p.1 == k
      · simp only [Function.comp_apply, if_pos hpk]
      · simp only [Function.comp_apply, if_neg hpk]
    rw [heq]
    exact hnd
  · rw [if_neg hany, List.map_append]
    rw [List.nodup_append]
    refine ⟨hnd, List.nodup_singleton _, ?_⟩
    intro kk hkk hkk2
    rcases List.mem_singleton.mp hkk2 with rfl
    rw [List.any_eq_true] at hany
    refine hany ?_
    rcases List.mem_map.mp hkk with ⟨pr, hpr, hfst⟩
    exact ⟨pr, hpr, by simp [hfst]⟩

theorem memGroups_insert_self (gs : List (String × List CmdDef)) (k : String) (c : CmdDef) :
    memGroups (groupsInsert gs k c) k c := by
  rw [groupsInsert]
  by_cases hany : gs.any (fun p => p.1 == k) = true
  · rw [if_pos hany]
    rw [List.any_eq_true] at hany
    obtain ⟨pr, hpr, hk⟩ := hany
    refine ⟨(pr.1, pr.2 ++ [c]), ?_, by simpa using hk, List.mem_append_right _
      (List.mem_singleton.mpr rfl)⟩
    have : (pr.1, pr.2 ++ [c]) = (fun p => if p.1 == k then (p.1, p.2 ++ [c]) else p) pr := by
      show (pr.1, pr.2 ++ [c]) = if pr.1 == k then (pr.1, pr.2 ++ [c]) else pr
      rw [if_pos (by simpa using hk)]
    rw [this]
    exact List.mem_map_of_mem _ hpr
  · rw [if_neg hany]
    exact ⟨(k, [c]), List.mem_append_right _ (List.mem_singleton.mpr rfl), rfl,
      List.mem_singleton.mpr rfl⟩

theorem memGroups_insert_mono (gs : List (String × List CmdDef)) (k k' : String)
    (c c' : CmdDef) (h : memGroups gs k c) : memGroups (groupsInsert gs k' c') k c := by
  obtain ⟨pr, hpr, hk, hc⟩ := h
  rw [groupsInsert]
  by_cases hany : gs.any (fun p => p.1 == k') = true
  · rw [if_pos hany]
    by_cases hp : pr.1 == k'
    · refine ⟨(pr.1, pr.2 ++ [c']), ?_, hk, List.mem_append_left _ hc⟩
      have : (pr.1, pr.2 ++ [c']) = (fun p => if p.1 == k' then (p.1, p.2 ++ [c']) else p) pr := by
        show (pr.1, pr.2 ++ [c']) = if pr.1 == k' then (pr.1, pr.2 ++ [c']) else pr
        rw [if_pos hp]
      rw [this]
      exact List.mem_map_of_mem _ hpr
    · refine ⟨pr, ?_, hk, hc⟩
      have : pr = (fun p => if p.1 == k' then (p.1, p.2 ++ [c']) else p) pr := by
        show pr = if pr.1 == k' then (pr.1, pr.2 ++ [c']) else pr
        rw [if_neg hp]
      rw [this]
      exact List.mem_map_of_mem _ hpr
  · rw [if_neg hany]
    exact ⟨pr, List.mem_append_left _ hpr, hk, hc⟩


theorem groupCommands_main (hn : List String) :
    ∀ cmds : List XmlCommand, ∀ gipa gs, (gs.map Prod.fst).Nodup →
    ∀ gipa2 gs2, groupCommands hn cmds gipa gs = ((gipa2, gs2), none) →
    (groupsFlatten gs2).Perm (groupsFlatten gs ++
      (cmds.filter (fun c => !(c.protoNameText == "vkGetInstanceProcAddr"))).map mkCmdDef) ∧
    (gs2.map Prod.fst).Nodup ∧
    (∀ kk ∈ gs2.map Prod.fst,
      kk ∈ gs.map Prod.fst ∨ kk ∈ hn ∨ kk = "Loader" ∨ kk = "Instance") := by
  intro cmds
  induction cmds with
  | nil =>
    intro gipa gs hnd gipa2 gs2 hres
    rw [groupCommands] at hres
    injection hres with h1 h2
    injection h1 with h3 h4
    subst h4
    refine ⟨by simpa using List.Perm.refl _, hnd, ?_⟩
    intro kk hkk
    exact Or.inl hkk
  | cons c rest ih =>
    intro gipa gs hnd gipa2 gs2 hres
    by_cases hname : c.protoNameText == "vkGetInstanceProcAddr"
    · rw [groupCommands, if_pos hname] at hres
      obtain ⟨hperm, hnd2, hkeys⟩ := ih _ gs hnd gipa2 gs2 hres
      refine ⟨?_, hnd2, hkeys⟩
      have hfil : (c :: rest).filter (fun c => !(c.protoNameText == "vkGetInstanceProcAddr")) =
          rest.filter (fun c => !(c.protoNameText == "vkGetInstanceProcAddr")) := by
        rw [List.filter_cons]
        simp [hname]
      rw [hfil]
      exact hperm
    · rcases hp0 : c.params.head? with _ | p0
      · rw [groupCommands, if_neg hname, hp0] at hres
        cases hres
      · rw [groupCommands, if_neg hname, hp0] at hres
        have hfil : (c :: rest).filter (fun c => !(c.protoNameText == "vkGetInstanceProcAddr")) =
            c :: rest.filter (fun c => !(c.protoNameText == "vkGetInstanceProcAddr")) := by
          rw [List.filter_cons]
          simp [hname]
        have hres2 : groupCommands hn rest gipa (groupsInsert gs
            (if !(decide (map_ctypes_str p0.typeText ∈ hn)) then "Loader"
             else if c.protoNameText == "vkGetDeviceProcAddr" then "Instance"
             else map_ctypes_str p0.typeText) (mkCmdDef c)) = ((gipa2, gs2), none) := hres
        have hkeycases : (if !(decide (map_ctypes_str p0.typeText ∈ hn)) then "Loader"
             else if c.protoNameText == "vkGetDeviceProcAddr" then "Instance"
             else map_ctypes_str p0.typeText) ∈ hn ∨
            (if !(decide (map_ctypes_str p0.typeText ∈ hn)) then "Loader"
             else if c.protoNameText == "vkGetDeviceProcAddr" then "Instance"
             else map_ctypes_str p0.typeText) = "Loader" ∨
            (if !(decide (map_ctypes_str p0.typeText ∈ hn)) then "Loader"
             else if c.protoNameText == "vkGetDeviceProcAddr" then "Instance"
             else map_ctypes_str p0.typeText) = "Instance" := by
          by_cases hin : map_ctypes_str p0.typeText ∈ hn
          · rw [if_neg (by simp [hin])]
            by_cases hdp : c.protoNameText == "vkGetDeviceProcAddr"
            · rw [if_pos hdp]
              exact Or.inr (Or.inr rfl)
            · rw [if_neg hdp]
              exact Or.inl hin
          · rw [if_pos (by simp [hin])]
            exact Or.inr (Or.inl rfl)
        obtain ⟨hperm, hnd2, hkeys⟩ := ih gipa _
          (groupsInsert_keys_nodup gs _ (mkCmdDef c) hnd) gipa2 gs2 hres2
        refine ⟨?_, hnd2, ?_⟩
        · rw [hfil, List.map_cons]
          have hins := groupsInsert_flatten_perm gs
            (if !(decide (map_ctypes_str p0.typeText ∈ hn)) then "Loader"
             else if c.protoNameText == "vkGetDeviceProcAddr" then "Instance"
             else map_ctypes_str p0.typeText) (mkCmdDef c) hnd
          refine hperm.trans ?_
          refine List.Perm.trans (List.Perm.append_right _ hins) ?_
          exact List.perm_middle.symm
        · intro kk hkk
          rcases hkeys kk hkk with h | h | h | h
          · rcases groupsInsert_keys gs _ (mkCmdDef c) kk h with h2 | h2
            · exact Or.inl h2
            · rw [h2]
              rcases hkeycases with h3 | h3 | h3
              · exact Or.inr (Or.inl h3)
              · exact Or.inr (Or.inr (Or.inl h3))
              · exact Or.inr (Or.inr (Or.inr h3))
          · exact Or.inr (Or.inl h)
          · exact Or.inr (Or.inr (Or.inl h))
          · exact Or.inr (Or.inr (Or.inr h))

theorem groupCommands_memGroups_mono (hn : List String) :
    ∀ cmds : List XmlCommand, ∀ gipa gs k d, memGroups gs k d →
    memGroups (groupCommands hn cmds gipa gs).1.2 k d := by
  intro cmds
  induction cmds with
  | nil =>
    intro gipa gs k d h
    exact h
  | cons c rest ih =>
    intro gipa gs k d h
    by_cases hname : c.protoNameText == "vkGetInstanceProcAddr"
    · rw [groupCommands, if_pos hname]
      exact ih _ gs k d h
    · rcases hp0 : c.params.head? with _ | p0
      · rw [groupCommands, if_neg hname, hp0]
        exact h
      · rw [groupCommands, if_neg hname, hp0]
        show memGroups (groupCommands hn rest gipa (groupsInsert gs
          (if !(decide (map_ctypes_str p0.typeText ∈ hn)) then "Loader"
           else if c.protoNameText == "vkGetDeviceProcAddr" then "Instance"
           else map_ctypes_str p0.typeText) (mkCmdDef c))).1.2 k d
        exact ih gipa _ k d (memGroups_insert_mono gs k _ d _ h)

theorem groupCommands_gdpa (hn : List String) :
    ∀ cmds : List XmlCommand, ∀ gipa gs,
    (groupCommands hn cmds gipa gs).2 = none →
    ∀ c ∈ cmds, c.protoNameText = "vkGetDeviceProcAddr" →
    ∀ p0, c.params.head? = some p0 → map_ctypes_str p0.typeText ∈ hn →
    memGroups (groupCommands hn cmds gipa gs).1.2 "Instance" (mkCmdDef c) := by
  intro cmds
  induction cmds with
  | nil =>
    intro gipa gs _ c hc
    cases hc
  | cons c0 rest ih =>
    intro gipa gs hok c hc hname p0 hp0 hin
    rcases List.mem_cons.mp hc with hc1 | hc1
    · subst hc1
      have hname2 : ¬(c.protoNameText == "vkGetInstanceProcAddr") = true := by
        simp [hname]
      rw [groupCommands, if_neg hname2, hp0]
      have hkey : (if !(decide (map_ctypes_str p0.typeText ∈ hn)) then "Loader"
          else if c.protoNameText == "vkGetDeviceProcAddr" then "Instance"
          else map_ctypes_str p0.typeText) = "Instance" := by
        rw [if_neg (by simp [hin]), if_pos (by simp [hname])]
      show memGroups (groupCommands hn rest gipa (groupsInsert gs
        (if !(decide (map_ctypes_str p0.typeText ∈ hn)) then "Loader"
         else if c.protoNameText == "vkGetDeviceProcAddr" then "Instance"
         else map_ctypes_str p0.typeText) (mkCmdDef c))).1.2 "Instance" (mkCmdDef c)
      rw [hkey]
      exact groupCommands_memGroups_mono hn rest gipa _ "Instance" (mkCmdDef c)
        (memGroups_insert_self gs "Instance" (mkCmdDef c))
    · by_cases hname0 : c0.protoNameText == "vkGetInstanceProcAddr"
      · rw [groupCommands, if_pos hname0]
        apply ih _ gs _ c hc1 hname p0 hp0 hin
        rw [groupCommands, if_pos hname0] at hok
        exact hok
      · rcases hq0 : c0.params.head? with _ | q0
        · exfalso
          rw [groupCommands, if_neg hname0, hq0] at hok
          exact Option.noConfusion hok
        · rw [groupCommands, if_neg hname0, hq0]
          rw [groupCommands, if_neg hname0, hq0] at hok
          exact ih gipa _ hok c hc1 hname p0 hp0 hin

theorem groupCommands_gipa_none (hn : List String) :
    ∀ cmds : List XmlCommand, ∀ gipa gs,
    (∀ c ∈ cmds, c.protoNameText ≠ "vkGetInstanceProcAddr") →
    (groupCommands hn cmds gipa gs).1.1 = gipa := by
  intro cmds
  induction cmds with
  | nil =>
    intro gipa gs _
    rfl
  | cons c0 rest ih =>
    intro gipa gs hno
    have hname0 : ¬(c0.protoNameText == "vkGetInstanceProcAddr") = true := by
      simp [hno c0 (List.mem_cons_self c0 rest)]
    rcases hq0 : c0.params.head? with _ | q0
    · rw [groupCommands, if_neg hname0, hq0]
    · rw [groupCommands, if_neg hname0, hq0]
      exact ih gipa _ (fun c hc => hno c (List.mem_cons_of_mem c0 hc))

/-- C10: if the document's commands collection contains no command named
`vkGetInstanceProcAddr`, the command-parsing stage raises upon unpacking
the still-`None` bootstrap info after the grouping loop, aborting
generation: the bootstrap command's presence is an unstated precondition
of `parse_commands`. -/
theorem c10_missing_bootstrap_crash (doc : VkDoc) (st : GenState)
    (hno : ∀ c ∈ doc.commands, c.protoNameText ≠ "vkGetInstanceProcAddr")
    (hgrp : (groupCommands (emit st (.raw "\n# FUNCTIONS \n\n")).handleNames
       doc.commands none []).2 = none) :
    (parse_commands doc st).2 = some (.pyError "TypeError: cannot unpack None") := by
  rw [parse_commands]
  rcases hg : groupCommands (emit st (.raw "\n# FUNCTIONS \n\n")).handleNames
      doc.commands none [] with ⟨⟨gipa, gs⟩, err⟩
  rcases err with _ | e
  · have hnone : gipa = none := by
      have := groupCommands_gipa_none (emit st (.raw "\n# FUNCTIONS \n\n")).handleNames
        doc.commands none [] hno
      rw [hg] at this
      exact this
    subst hnone
    rfl
  · rw [hg] at hgrp
    exact Option.noConfusion hgrp

theorem rd_warn (doc : VkDoc)
    (recur : XmlType → Bool → GenState → GenState × Option GenErr)
    (hrec : ∀ e b st, EntitySpec doc e st (recur e b st)) (t : String)
    (hnf : ¬ FindableName doc t) :
    ∀ mems : List XmlMember, ∀ st : GenState, t ∉ st.reg →
    (∃ m ∈ mems, memBase m = t) →
    (resolve_dependencies doc recur mems st).2 = none →
    Event.warn (t ++ " was not found") ∈
      (resolve_dependencies doc recur mems st).1.events := by
  intro mems
  induction mems with
  | nil =>
    rintro st _ ⟨m, hm, _⟩ _
    cases hm
  | cons mem rest ih =>
    intro st hreg hwit hok
    by_cases hmem : memBase mem ∈ st.reg
    · have hstep : resolve_dependencies doc recur (mem :: rest) st =
          resolve_dependencies doc recur rest st := by
        simp [resolve_dependencies, hmem]
      rw [hstep] at hok ⊢
      rcases hwit with ⟨m, hm, hmt⟩
      rcases List.mem_cons.mp hm with hm1 | hm'
      · rw [hm1] at hmt
        rw [hmt] at hmem
        exact absurd hmem hreg
      · exact ih st hreg ⟨m, hm', hmt⟩ hok
    · have key : ∀ (chosen : XmlType) (bv : Bool),
          chosen ∈ doc.types → chosen.nameAttr = some ("Vk" ++ memBase mem) →
          FindableName doc (memBase mem) →
          resolve_dependencies doc recur (mem :: rest) st =
            gbind (recur chosen bv st) (resolve_dependencies doc recur rest) →
          Event.warn (t ++ " was not found") ∈
            (resolve_dependencies doc recur (mem :: rest) st).1.events := by
        intro chosen bv hcmem hcname hfmem hstep
        rw [hstep] at hok ⊢
        rcases hr : recur chosen bv st with ⟨st₁, e₁⟩
        rcases e₁ with _ | e₁
        · rw [hr] at hok
          have hok' : (resolve_dependencies doc recur rest st₁).2 = none := hok
          show Event.warn (t ++ " was not found") ∈
            (resolve_dependencies doc recur rest st₁).1.events
          obtain ⟨Δ₁, hev₁, hgd₁, _, _⟩ := hrec chosen bv st
          rw [hr] at hev₁
          have hreg₁ : st₁.reg = st.reg ++ registersOf Δ₁ :=
            reg_of_events_append st st₁ Δ₁ hev₁
          have htnot : t ∉ st₁.reg := by
            rw [hreg₁]
            intro hc
            rcases List.mem_append.mp hc with h | h
            · exact hreg h
            · obtain ⟨hor, _⟩ := hgd₁.2.1 t h
              rcases hor with hf | ⟨nm, hnm, ht⟩
              · exact hnf hf
              · rw [hcname] at hnm
                injection hnm with h'
                subst h'
                rw [removePfx_Vk] at ht
                rw [ht] at hnf
                exact hnf hfmem
          have hne : memBase mem ≠ t := by
            intro h
            rw [h] at hfmem
            exact hnf hfmem
          rcases hwit with ⟨m, hm, hmt⟩
          rcases List.mem_cons.mp hm with hm1 | hm'
          · rw [hm1] at hmt
            exact absurd hmt hne
          · exact ih st₁ htnot ⟨m, hm', hmt⟩ hok'
        · rw [hr] at hok
          exact absurd (show (some e₁ : Option GenErr) = none from hok) (by simp)
      rcases hsF : (filter_types doc "struct").find?
          (fun x => x.nameAttr == some ("Vk" ++ memBase mem)) with _ | s
      · rcases huF : (filter_types doc "union").find?
            (fun x => x.nameAttr == some ("Vk" ++ memBase mem)) with _ | u
        · have hstep : resolve_dependencies doc recur (mem :: rest) st =
              resolve_dependencies doc recur rest
                (warn st (memBase mem ++ " was not found")) := by
            simp [resolve_dependencies, hmem, hsF, huF]
          rw [hstep] at hok ⊢
          by_cases hmt : memBase mem = t
          · obtain ⟨Δ, hev, _, _, _⟩ :=
              rd_master doc recur hrec rest (warn st (memBase mem ++ " was not found"))
            rw [hev]
            subst hmt
            simp [warn]
          · rcases hwit with ⟨m, hm, hmt'⟩
            rcases List.mem_cons.mp hm with hm1 | hm'
            · rw [hm1] at hmt'
              exact absurd hmt' hmt
            · refine ih _ ?_ ⟨m, hm', hmt'⟩ hok
              rw [reg_warn]
              exact hreg
        · obtain ⟨h1, h2, h3⟩ := findable_of_found doc (memBase mem) "union" u (Or.inr rfl) huF
          have hfmem : FindableName doc (memBase mem) := ⟨u, h1, h2, h3⟩
          have hpy : pyOr none (some u) = some u := by
            simp [pyOr]
          have hstep : resolve_dependencies doc recur (mem :: rest) st =
              gbind (recur u false st) (resolve_dependencies doc recur rest) := by
            simp [resolve_dependencies, hmem, hsF, huF, hpy]
          exact key u false h1 h3 hfmem hstep
      · obtain ⟨h1, h2, h3⟩ := findable_of_found doc (memBase mem) "struct" s (Or.inl rfl) hsF
        have hfmem : FindableName doc (memBase mem) := ⟨s, h1, h2, h3⟩
        rcases hpy : pyOr (some s) ((filter_types doc "union").find?
            (fun x => x.nameAttr == some ("Vk" ++ memBase mem))) with _ | chosen
        · have hstep : resolve_dependencies doc recur (mem :: rest) st =
              gErr st (.pyError "NoneType.get: empty struct, no union") := by
            simp [resolve_dependencies, hmem, hsF, hpy]
          rw [hstep] at hok
          exact absurd hok (by simp [gErr])
        · have hstep : resolve_dependencies doc recur (mem :: rest) st =
              gbind (recur chosen ((filter_types doc "union").find?
                (fun x => x.nameAttr == some ("Vk" ++ memBase mem))).isNone st)
                (resolve_dependencies doc recur rest) := by
            simp [resolve_dependencies, hmem, hsF, hpy]
          rcases pyOr_eq_some _ _ _ hpy with hc | hc
          · injection hc with hc'
            exact key chosen _ (hc' ▸ h1) (hc' ▸ h3) hfmem hstep
          · obtain ⟨k1, k2, k3⟩ := findable_of_found doc (memBase mem) "union" chosen (Or.inr rfl) hc
            exact key chosen _ k1 k3 hfmem hstep

/-- C8: when a member's base type name is not findable among the
document's declared structs and unions (and was not otherwise defined),
`parse_struct_or_enum` records the non-fatal `... was not found`
diagnostic, skips that dependency, and on a successful run still writes
the structure declaration with the unresolved base type name among its
field types. -/
theorem c8_missing_dependency_warning (doc : VkDoc) (f : Nat) (e : XmlType) (b : Bool)
    (st : GenState) (nm : String) (m : XmlMember)
    (hnm : e.nameAttr = some nm)
    (hfresh : removePfx nm ∉ st.reg)
    (hm : m ∈ e.members)
    (hnf : ¬ FindableName doc (memBase m))
    (hreg : memBase m ∉ (registerId st (removePfx nm)).reg)
    (hok : (parse_struct_or_enum doc (f + 1) e b st).2 = none) :
    Event.warn (memBase m ++ " was not found") ∈
      (parse_struct_or_enum doc (f + 1) e b st).1.events ∧
    Event.writeIt (.structDecl b (removePfx nm) (e.members.map parse_structure_member)
        (e.members.map memBase)) ∈ (parse_struct_or_enum doc (f + 1) e b st).1.events ∧
    memBase m ∈ e.members.map memBase := by
  have hres : parse_struct_or_enum doc (f + 1) e b st =
      gbind (resolve_dependencies doc (parse_struct_or_enum doc f) e.members
        (registerId st (removePfx nm)))
        (fun st => gOk (emit st (.structDecl b (removePfx nm)
          (e.members.map parse_structure_member) (e.members.map memBase)))) := by
    simp [parse_struct_or_enum, hnm, hfresh]
  rw [hres] at hok ⊢
  rcases hrd : resolve_dependencies doc (parse_struct_or_enum doc f) e.members
      (registerId st (removePfx nm)) with ⟨st₂, e₂⟩
  rw [hrd] at hok
  rcases e₂ with _ | e₂
  · have hwarn := rd_warn doc (parse_struct_or_enum doc f)
      (fun e b st => psoe_master doc f e b st) (memBase m) hnf e.members
      (registerId st (removePfx nm)) hreg ⟨m, hm, rfl⟩ (by rw [hrd])
    rw [hrd] at hwarn
    refine ⟨?_, ?_, List.mem_map_of_mem _ hm⟩
    · show Event.warn (memBase m ++ " was not found") ∈
        (emit st₂ (.structDecl b (removePfx nm)
          (e.members.map parse_structure_member) (e.members.map memBase))).events
      rw [emit]
      exact List.mem_append_left _ hwarn
    · show Event.writeIt (.structDecl b (removePfx nm)
          (e.members.map parse_structure_member) (e.members.map memBase)) ∈
        (emit st₂ (.structDecl b (removePfx nm)
          (e.members.map parse_structure_member) (e.members.map memBase))).events
      rw [emit]
      exact List.mem_append_right _ (List.mem_singleton_self _)
  · exact absurd (show (some e₂ : Option GenErr) = none from hok) (by simp)


/-! ## Decidability of the document-level predicates -/

instance (doc : VkDoc) (t : String) : Decidable (FindableName doc t) :=
  List.decidableBEx _ doc.types

instance (doc : VkDoc) (R0 : List String) : Decidable (DocResolvable doc R0) :=
  List.decidableBAll _ (suElems doc)

/-! ## Concrete documents for witnesses and counterexamples -/

/-- A command element for the bootstrap entry point
`vkGetInstanceProcAddr`. -/
def gipaCmd : XmlCommand :=
  { protoTypeText := "PFN_vkVoidFunction", protoNameText := "vkGetInstanceProcAddr",
    params := [] }

/-- The per-device analogue `vkGetDeviceProcAddr`, first parameter a
handle type. -/
def gdpaCmd : XmlCommand :=
  { protoTypeText := "PFN_vkVoidFunction", protoNameText := "vkGetDeviceProcAddr",
    params := [{ typeText := "VkDevice", typeTail := none }] }

/-- A command whose first parameter type is not a known handle: it is
demoted to the `Loader` family. -/
def loaderCmd : XmlCommand :=
  { protoTypeText := "VkResult", protoNameText := "vkCreateInstance",
    params := [{ typeText := "VkInstanceCreateInfo", typeTail := some "*" }] }

/-- A `handle` element declaring `VkInstance`. -/
def instHandle : XmlType :=
  { category := "handle", nameAttr := none, text := none,
    nameDescendants := ["VkInstance"],
    typeDescendants := [("VK_DEFINE_HANDLE", none)], members := [] }

/-- A member whose base type is `VkB`. -/
def memVkB : XmlMember :=
  { typeText := "VkB", typeTail := none, nameText := "fieldB", nameTail := none,
    enumChild := none }

/-- A member whose base type is `VkA`. -/
def memVkA : XmlMember :=
  { typeText := "VkA", typeTail := none, nameText := "fieldA", nameTail := none,
    enumChild := none }

/-- A member whose base type `VkMissing` is declared nowhere. -/
def memMissing : XmlMember :=
  { typeText := "VkMissing", typeTail := none, nameText := "lost", nameTail := none,
    enumChild := none }

/-- Struct `VkA` referencing `VkB`. -/
def structA : XmlType :=
  { category := "struct", nameAttr := some "VkA", text := none,
    nameDescendants := [], typeDescendants := [], members := [memVkB] }

/-- Struct `VkB` referencing `VkA`: together with `structA` a reference
cycle. -/
def structB : XmlType :=
  { category := "struct", nameAttr := some "VkB", text := none,
    nameDescendants := [], typeDescendants := [], members := [memVkA] }

/-- Struct `VkA` whose only member has the undeclared base type
`VkMissing`. -/
def structMiss : XmlType :=
  { category := "struct", nameAttr := some "VkA", text := none,
    nameDescendants := [], typeDescendants := [], members := [memMissing] }

/-- A document with two mutually referencing structures and the
bootstrap command. -/
def cycDoc : VkDoc :=
  { types := [structA, structB], enums := [], commands := [gipaCmd], extensions := [] }

/-- A document whose single structure references an undeclared type. -/
def mdDoc : VkDoc :=
  { types := [structMiss], enums := [], commands := [gipaCmd], extensions := [] }

/-- A minimal document on which the whole pipeline succeeds. -/
def gipaDoc : VkDoc :=
  { types := [], enums := [], commands := [gipaCmd], extensions := [] }

/-- A document with one handle that owns no command: its name gets no
command family. -/
def c5Doc : VkDoc :=
  { types := [instHandle], enums := [], commands := [gipaCmd, loaderCmd],
    extensions := [] }

/-- A document whose commands collection lacks the bootstrap command. -/
def c10Doc : VkDoc :=
  { types := [], enums := [], commands := [loaderCmd], extensions := [] }

/-- The names of the command families written in a trace, in order. -/
def famKeys (evs : List Event) : List String :=
  evs.filterMap (fun e => match e with
    | .writeIt (.cmdFamily n _) => some n
    | _ => none)

/-- The stage order as the specification words it (handles before
basetypes); to be compared with `stageHeaders`, the order the code
actually writes. -/
def specClaimedStageOrder : List String :=
  ["\n# HANDLES\n\n", "\n# BASETYPES\n\n", "\n# FLAGS\n\n", "# ENUMS\n\n",
   "\n# FUNC POINTERS\n\n", "\n# STRUCTURES\n\n", "\n# FUNCTIONS \n\n",
   "\n# EXTENSIONS \n\n"]

/-- Concrete grouping inputs for the command-grouping witness. -/
def c5hn : List String := ["Instance", "Device"]

def c5cmds : List XmlCommand := [gipaCmd, gdpaCmd]

def c5gipa2 : Option (String × String × String) :=
  some ("GetInstanceProcAddr", "fn_VoidFunction", "")

def c5gs2 : List (String × List CmdDef) := [("Instance", [mkCmdDef gdpaCmd])]

/-- An extension enum member with no value, no bitpos, direction `-` and
offset attribute `0`. -/
def e7 : XmlExtMember :=
  { nameAttr := some "VK_THING", value := none, bitpos := none, offset := some 0,
    dir := some "-" }

/-- The same member shape with offset attribute `3`. -/
def e7x : XmlExtMember :=
  { nameAttr := some "VK_THING", value := none, bitpos := none, offset := some 3,
    dir := some "-" }

/-! ## The claims -/

/-- C1 (amended): topological validity holds in the registry-presence
reading, and only for documents whose struct/union members are all
resolvable from the registry contents left by the earlier stages: on
such documents every structure/union declaration the run writes uses
only base type names already present in the identifier registry at that
position of the output. -/
theorem c1_registry_topological_amended (doc : VkDoc)
    (hok : (pipelinePreStructs doc).2 = none)
    (hdoc : DocResolvable doc (pipelinePreStructs doc).1.reg) :
    TopoReg (exportDoc doc).1.events := by
  have hpre : pipelinePreStructs doc = ((pipelinePreStructs doc).1, none) := by
    rw [← hok]
  exact exportDoc_topo doc (pipelinePreStructs doc).1 hpre hdoc

theorem c1_amended_witness :
    (pipelinePreStructs cycDoc).2 = none ∧
    DocResolvable cycDoc (pipelinePreStructs cycDoc).1.reg ∧
    TopoReg (exportDoc cycDoc).1.events :=
  ⟨by decide, by decide,
    c1_registry_topological_amended cycDoc (by decide) (by decide)⟩

/-- C1 (counterexample to the claim as stated): on a document whose
structure references an undeclared type the run still succeeds, yet the
emitted structure uses a base type name that is in the registry at no
point, so the unconditional topological-validity claim fails. -/
theorem c1_claim_counterexample :
    (exportDoc mdDoc).2 = none ∧ ¬ TopoReg (exportDoc mdDoc).1.events := by
  constructor
  · decide
  · decide

/-- C2 (amended): the stage banners of a successful run appear in
exactly the order the source `export` emits them — basetypes BEFORE
handles, then flags, enums, function pointers, structures, commands and
extensions — not the claimed handles-first order. -/
theorem c2_stage_order_amended (doc : VkDoc)
    (hok : (exportDoc doc).2 = none) :
    markersOf (exportDoc doc).1.events = stageHeaders := by
  obtain ⟨⟨k, hk, hm, hkok⟩, -, -⟩ := exportDoc_facts doc
  have h8 : k = 8 := hkok hok
  subst h8
  rw [hm]
  decide

theorem c2_amended_witness :
    (exportDoc gipaDoc).2 = none ∧
    markersOf (exportDoc gipaDoc).1.events = stageHeaders :=
  ⟨by decide, c2_stage_order_amended gipaDoc (by decide)⟩

/-- C2 (counterexample to the claim as stated): a successful run's
banner sequence differs from the claimed handles-first stage order,
because the code writes the basetypes stage before the handles stage. -/
theorem c2_claim_counterexample :
    (exportDoc gipaDoc).2 = none ∧
    markersOf (exportDoc gipaDoc).1.events ≠ specClaimedStageOrder := by
  constructor
  · decide
  · decide

/-- C3: resolution is idempotent with respect to emission — a
`parse_struct_or_enum` call on an entity whose stripped name is already
in the identifier registry returns the state unchanged (nothing is
emitted), and consequently no struct/union declaration name is ever
written twice in a whole-document run. -/
theorem c3_resolution_idempotent (doc : VkDoc) (f : Nat) (e : XmlType) (b : Bool)
    (st : GenState) (nm : String) (hnm : e.nameAttr = some nm)
    (hreg : removePfx nm ∈ st.reg) :
    parse_struct_or_enum doc (f + 1) e b st = gOk st ∧
    (sdNames (exportDoc doc).1.events).Nodup := by
  constructor
  · simp [parse_struct_or_enum, hnm, hreg]
  · exact (exportDoc_facts doc).2.1

theorem c3_idempotent_witness :
    structA.nameAttr = some "VkA" ∧
    removePfx "VkA" ∈ (registerId initState "A").reg ∧
    (parse_struct_or_enum cycDoc 1 structA true (registerId initState "A") =
        gOk (registerId initState "A") ∧
      (sdNames (exportDoc cycDoc).1.events).Nodup) :=
  ⟨rfl, by decide,
    c3_resolution_idempotent cycDoc 0 structA true (registerId initState "A") "VkA"
      rfl (by decide)⟩

/-- C4 (amended): in the stages before structures every identifier is
registered immediately after its declaration is written, but a
structure/union identifier is registered BEFORE its declaration is
written — for those entities the write is preceded by the registration
of the same name, not followed by it. -/
theorem c4_registry_timing_amended (doc : VkDoc) :
    RegAfterWrite (pipelinePreStructs doc).1.events ∧
    SdRegBefore (exportDoc doc).1.events :=
  ⟨(pipelinePreStructs_facts doc).2.2.2.2, (exportDoc_facts doc).2.2⟩

/-- C4 (counterexample to the claim as stated): a successful run in
which a structure's identifier is registered without immediately
following the write of its declaration (it is registered before the
declaration is emitted, straight after the stage banner). -/
theorem c4_claim_counterexample :
    (exportDoc mdDoc).2 = none ∧ ¬ RegAfterWrite (exportDoc mdDoc).1.events := by
  constructor
  · decide
  · decide

/-- C5 (amended): for a successful grouping run started from the empty
accumulator, the concatenation of all family lists is a permutation of
the non-bootstrap commands (each appears in exactly one family list,
once), the family keys are pairwise distinct and each key is a known
handle name, `Loader`, or `Instance`; the keys need NOT exhaust the
handle names.  `vkGetDeviceProcAddr` with a handle-typed first
parameter is force-assigned to the `Instance` family. -/
theorem c5_command_grouping_amended (hn : List String) (cmds : List XmlCommand)
    (gipa2 : Option (String × String × String)) (gs2 : List (String × List CmdDef))
    (hres : groupCommands hn cmds none [] = ((gipa2, gs2), none)) :
    (groupsFlatten gs2).Perm
      ((cmds.filter (fun c => !(c.protoNameText == "vkGetInstanceProcAddr"))).map
        mkCmdDef) ∧
    (gs2.map Prod.fst).Nodup ∧
    (∀ kk ∈ gs2.map Prod.fst, kk ∈ hn ∨ kk = "Loader" ∨ kk = "Instance") ∧
    (∀ c ∈ cmds, c.protoNameText = "vkGetDeviceProcAddr" →
      ∀ p0, c.params.head? = some p0 → map_ctypes_str p0.typeText ∈ hn →
      memGroups gs2 "Instance" (mkCmdDef c)) := by
  obtain ⟨hperm, hnd, hkeys⟩ :=
    groupCommands_main hn cmds none [] (by simp) gipa2 gs2 hres
  refine ⟨by simpa [groupsFlatten] using hperm, hnd, ?_, ?_⟩
  · intro kk hkk
    rcases hkeys kk hkk with h | h
    · simp at h
    · exact h
  · intro c hc hname p0 hp0 hin
    have := groupCommands_gdpa hn cmds none [] (by rw [hres]) c hc hname p0 hp0 hin
    rw [hres] at this
    exact this

theorem c5_amended_witness :
    groupCommands c5hn c5cmds none [] = ((c5gipa2, c5gs2), none) ∧
    ((groupsFlatten c5gs2).Perm
      ((c5cmds.filter (fun c => !(c.protoNameText == "vkGetInstanceProcAddr"))).map
        mkCmdDef) ∧
    (c5gs2.map Prod.fst).Nodup ∧
    (∀ kk ∈ c5gs2.map Prod.fst, kk ∈ c5hn ∨ kk = "Loader" ∨ kk = "Instance") ∧
    (∀ c ∈ c5cmds, c.protoNameText = "vkGetDeviceProcAddr" →
      ∀ p0, c.params.head? = some p0 → map_ctypes_str p0.typeText ∈ c5hn →
      memGroups c5gs2 "Instance" (mkCmdDef c))) :=
  ⟨by decide, c5_command_grouping_amended c5hn c5cmds c5gipa2 c5gs2 (by decide)⟩

/-- C5 (counterexample to the claim as stated): a successful run whose
handle `Instance` owns no command, so the family keys are a strict
subset of {handle names} ∪ {Loader} — not exactly that set. -/
theorem c5_claim_counterexample :
    (exportDoc c5Doc).2 = none ∧
    "Instance" ∈ (exportDoc c5Doc).1.handleNames ∧
    "Instance" ∉ famKeys (exportDoc c5Doc).1.events := by
  refine ⟨?_, ?_, ?_⟩ <;> decide

/-- C6: generation is deterministic — the embedded pipeline is a pure
function of the parsed document, so equal input documents produce equal
event traces and hence byte-identical output. -/
theorem c6_deterministic_output (d1 d2 : VkDoc) (h : d1 = d2) :
    exportDoc d1 = exportDoc d2 ∧
    (exportDoc d1).1.out = (exportDoc d2).1.out := by
  subst h
  exact ⟨rfl, rfl⟩

theorem c6_deterministic_witness :
    gipaDoc = gipaDoc ∧
    (exportDoc gipaDoc = exportDoc gipaDoc ∧
      (exportDoc gipaDoc).1.out = (exportDoc gipaDoc).1.out) :=
  ⟨rfl, c6_deterministic_output gipaDoc gipaDoc rfl⟩

/-- C7 (amended): for an extension of ordinal `n`, a require member
with no value, no bitpos and direction `-` gets the value
`-(1000000000 + (n-1)*1000 + off)` where `off` is the member's own
`offset` attribute (which must be present, else the stage raises); the
claimed `-(1000000000 + (n-1)*1000)` is obtained only when that
attribute is `0`. -/
theorem c7_extension_offset_amended (n off : Int) (e : XmlExtMember)
    (hv : e.value = none) (hb : e.bitpos = none) (ho : e.offset = some off)
    (hd : e.dir = some "-") :
    value_or_offset_or_bitpos (1000000000 + (n - 1) * 1000) e =
      some (toString (-(1000000000 + (n - 1) * 1000 + off))) := by
  have hc : off + (1000000000 + (n - 1) * 1000) = 1000000000 + (n - 1) * 1000 + off :=
    Int.add_comm _ _
  simp [value_or_offset_or_bitpos, parse_offset, hv, hb, ho, hd, hc]

theorem c7_amended_witness :
    e7.value = none ∧ e7.bitpos = none ∧ e7.offset = some 0 ∧ e7.dir = some "-" ∧
    toString (-(1000000000 + ((5 : Int) - 1) * 1000 + 0)) = "-1000004000" ∧
    value_or_offset_or_bitpos (1000000000 + ((5 : Int) - 1) * 1000) e7 =
      some (toString (-(1000000000 + ((5 : Int) - 1) * 1000 + 0))) :=
  ⟨rfl, rfl, rfl, rfl, by decide,
    c7_extension_offset_amended 5 0 e7 rfl rfl rfl rfl⟩

/-- C7 (counterexample to the claim as stated): a member matching the
claimed scenario (ordinal 5, no value, no bitpos, direction `-`) whose
offset attribute is `3` computes `-1000004003`, not the claimed
`-1000004000`. -/
theorem c7_claim_counterexample :
    e7x.value = none ∧ e7x.bitpos = none ∧ e7x.dir = some "-" ∧
    value_or_offset_or_bitpos (1000000000 + ((5 : Int) - 1) * 1000) e7x =
      some "-1000004003" ∧
    value_or_offset_or_bitpos (1000000000 + ((5 : Int) - 1) * 1000) e7x ≠
      some "-1000004000" := by
  refine ⟨rfl, rfl, rfl, ?_, ?_⟩ <;> decide

theorem c8_warning_witness :
    (¬ FindableName mdDoc (memBase memMissing)) ∧
    (parse_struct_or_enum mdDoc 1 structMiss true initState).2 = none ∧
    (Event.warn (memBase memMissing ++ " was not found") ∈
        (parse_struct_or_enum mdDoc 1 structMiss true initState).1.events ∧
      Event.writeIt (.structDecl true (removePfx "VkA")
          (structMiss.members.map parse_structure_member)
          (structMiss.members.map memBase)) ∈
        (parse_struct_or_enum mdDoc 1 structMiss true initState).1.events ∧
      memBase memMissing ∈ structMiss.members.map memBase) :=
  ⟨by decide, by decide,
    c8_missing_dependency_warning mdDoc 0 structMiss true initState "VkA" memMissing
      rfl (by decide) (by decide) (by decide) (by decide) (by decide)⟩

/-- C9: dependency resolution terminates on every input document,
cyclic struct/union references included — the structures stage never
exhausts the fuel that models the recursion depth: it returns either
success or a modelled python exception, never `fuelExhausted`. -/
theorem c9_resolution_terminates (doc : VkDoc) (st : GenState) :
    (parse_structures_and_unions doc st).2 = none ∨
    ∃ msg, (parse_structures_and_unions doc st).2 = some (.pyError msg) := by
  rcases h : (parse_structures_and_unions doc st).2 with _ | e
  · exact Or.inl rfl
  · rcases e with _ | msg
    · exact absurd h (structs_stage_no_fuel doc st)
    · exact Or.inr ⟨msg, rfl⟩

theorem c10_crash_witness :
    (∀ c ∈ c10Doc.commands, c.protoNameText ≠ "vkGetInstanceProcAddr") ∧
    ((groupCommands (emit initState (.raw "\n# FUNCTIONS \n\n")).handleNames
        c10Doc.commands none []).2 = none) ∧
    (parse_commands c10Doc initState).2 =
      some (.pyError "TypeError: cannot unpack None") :=
  ⟨by decide, by decide,
    c10_missing_bootstrap_crash c10Doc initState (by decide) (by decide)⟩

